import Mathlib

/-!
# bigrquery: the BigQuery JSON decoder of `src/BqField.cpp`

A shallow embedding of `src/src/BqField.cpp` and theorems about it.

Conventions of the embedding.

* A parsed JSON document (`rapidjson::Value`) is a value of `Json`.  The JSON
  tokenizer is outside the file under study; the entry points that take text
  or paths in the source take parsed documents here.
* A text node carries its text with its length, and the text may hold NUL
  characters (`GetString()` with `GetStringLength()`).  Where the source turns
  the pointer into a `std::string`, the text is cut at its first NUL
  (`std_string`); `atof` and `Rcpp::Date` get the text so cut.  The
  functions `atoi`, `strncmp` and `strptime` read a C string; in their models
  a NUL ends the scan like any other character that is no digit, sign, blank
  or literal of the format.  `Rf_mkCharLenCE` takes the whole text and raises
  an error for an embedded NUL.
* Fallible code returns `Except Fault`.  `Fault.stop msg` is `Rcpp::stop`.
  `Fault.rError` is an error that the R API raises itself (`Rf_error`).
  `Fault.undefined` is a violated precondition of the rapidjson or R API
  (member of a non-object, `Size()` of a non-array, index past the end, access
  to a vector of the wrong type): the source performs no check there and the
  behaviour of the program is not defined.
* R vectors are immutable lists here; a function that mutates a vector in
  place returns the new vector.
* `int` is 32 bits wide.  Row and element counts are natural numbers (a
  document holds fewer than `2^31` elements).
* Floating point results are kept as terms of `Dbl`: the value produced by
  `strtod`, by the conversion of an integer, by a sum.  `Dbl.value` gives the
  number that such a term stands for in IEEE 754 binary64 arithmetic with
  rounding to nearest, ties to even: every conversion and every sum is
  rounded, and a result too large for a `double` is an infinity.
-/

namespace Bigrquery

/-! ## Outcomes -/

/-- Ways in which a call can fail to return. -/
inductive Fault where
  | stop (msg : String)
  | rError
  | undefined
deriving DecidableEq

/-! ## rapidjson values -/

/-- A parsed JSON value (`rapidjson::Value`).  A number keeps its literal
text; the decoder never reads it. -/
inductive Json where
  | null
  | bool (b : Bool)
  | number (lit : String)
  | string (s : String)
  | array (xs : List Json)
  | object (members : List (String × Json))

namespace Json

/-- `Value::IsString()`. -/
def IsString : Json → Bool
  | string _ => true
  | _ => false

/-- `Value::IsArray()`. -/
def IsArray : Json → Bool
  | array _ => true
  | _ => false

/-- `Value::IsObject()`. -/
def IsObject : Json → Bool
  | object _ => true
  | _ => false

/-- `Value::GetString()`; the node must be a text node. -/
def GetString : Json → Except Fault String
  | string s => pure s
  | _ => throw Fault.undefined

/-- `Value::Size()`; the node must be an array. -/
def Size : Json → Except Fault Nat
  | array xs => pure xs.length
  | _ => throw Fault.undefined

/-- The elements of an array node, as `Begin()`/`End()` or the indices
`0 .. Size()-1` enumerate them; the node must be an array. -/
def elements : Json → Except Fault (List Json)
  | array xs => pure xs
  | _ => throw Fault.undefined

/-- `Value::operator[](SizeType)`; the node must be an array and the index
below its size. -/
def index : Json → Nat → Except Fault Json
  | array xs, i =>
    match xs.get? i with
    | some x => pure x
    | none => throw Fault.undefined
  | _, _ => throw Fault.undefined

/-- `FindMember` on the member list of an object: the first member with the
given name. -/
def findMember (name : String) : List (String × Json) → Option Json
  | [] => none
  | (k, v) :: rest => if k = name then some v else findMember name rest

/-- `Value::HasMember(name)`; the node must be an object. -/
def HasMember : Json → String → Except Fault Bool
  | object ms, name => pure (findMember name ms).isSome
  | _, _ => throw Fault.undefined

/-- `Value::operator[](const char*)`; the node must be an object that has the
member. -/
def member : Json → String → Except Fault Json
  | object ms, name =>
    match findMember name ms with
    | some v => pure v
    | none => throw Fault.undefined
  | _, _ => throw Fault.undefined

end Json

/-! ## C library -/

/-- `isspace` in the C locale. -/
def isspace (c : Char) : Bool :=
  c = ' ' || c = '\t' || c = '\n' || c = '\x0b' || c = '\x0c' || c = '\r'

/-- `isdigit`. -/
def isdigit (c : Char) : Bool :=
  decide (48 ≤ c.toNat) && decide (c.toNat ≤ 57)

/-- Numeric value of a decimal digit character. -/
def digitValue (c : Char) : Nat := c.toNat - 48

/-- Drop leading white space. -/
def skipSpace : List Char → List Char
  | [] => []
  | c :: rest => if isspace c then skipSpace rest else c :: rest

/-- Accumulate the leading decimal digits of a text. -/
def scanDigits : Nat → List Char → Nat
  | acc, [] => acc
  | acc, c :: rest => if isdigit c then scanDigits (acc * 10 + digitValue c) rest else acc

/-- `strtol(s, NULL, 10)` with a 64-bit `long`: white space, an optional sign,
decimal digits; `0` when there is no digit; the result saturates at
`LONG_MIN` and `LONG_MAX`. -/
def strtol10 (s : List Char) : Int :=
  let clamp (n : Int) : Int := max (-(2 ^ 63)) (min n (2 ^ 63 - 1))
  match skipSpace s with
  | '-' :: rest => clamp (-(scanDigits 0 rest : Int))
  | '+' :: rest => clamp (scanDigits 0 rest)
  | rest => clamp (scanDigits 0 rest)

/-- Conversion of a `long` to a 32-bit `int`: reduction modulo `2^32` into
`[-2^31, 2^31)`. -/
def toInt32 (n : Int) : Int := (n + 2 ^ 31) % 2 ^ 32 - 2 ^ 31

/-- `atoi`, as the C library implements it: `(int) strtol(s, NULL, 10)`. -/
def atoi (s : String) : Int := toInt32 (strtol10 s.toList)

/-- The conversion of `const char*` to `std::string`: the characters of the
text before its first NUL. -/
def std_string (s : String) : String :=
  String.mk (s.toList.takeWhile (fun c => decide (c ≠ '\x00')))

/-- `strncmp(s, "T", 1) == 0`: the first character of the text is `T`. -/
def strncmp_T_1 (s : String) : Bool :=
  match s.toList with
  | c :: _ => c = 'T'
  | [] => false

/-- The fields of `struct tm` that the decoder reads. -/
structure tm where
  tm_sec : Int
  tm_min : Int
  tm_hour : Int
  tm_mday : Int
  tm_mon : Int
  tm_year : Int
deriving DecidableEq

/-- The digit loop of a numeric conversion in `strptime`: after the first
digit, at most `n` further digits are taken, as long as the value times ten
stays within the upper bound `hi`. -/
def getDigits : Nat → Nat → Nat → List Char → Nat × List Char
  | 0, _, val, rp => (val, rp)
  | _ + 1, _, val, [] => (val, [])
  | n + 1, hi, val, c :: rest =>
    if val * 10 ≤ hi ∧ isdigit c = true then getDigits n hi (val * 10 + digitValue c) rest
    else (val, c :: rest)

/-- A numeric conversion of `strptime`: skip white space, require a digit,
read at most `n` digits, require the value to lie in `[lo, hi]`. -/
def get_number (lo hi n : Nat) (rp : List Char) : Option (Nat × List Char) :=
  match skipSpace rp with
  | [] => none
  | c :: rest =>
    if isdigit c = true then
      let r := getDigits (n - 1) hi (digitValue c) rest
      if lo ≤ r.1 ∧ r.1 ≤ hi then some r else none
    else none

/-- `strptime(s, fmt, &dtm)` for formats made of the conversions `%H`, `%M`,
`%S`, `%Y`, `%m`, `%d`, white space and literal characters.  Returns the
broken-down time and the unparsed rest of the text, or `none` for the null
pointer. -/
def strptime : List Char → List Char → tm → Option (tm × List Char)
  | rp, [], t => some (t, rp)
  | rp, '%' :: 'H' :: fmt, t =>
    match get_number 0 23 2 rp with
    | some (v, rp1) => strptime rp1 fmt { t with tm_hour := v }
    | none => none
  | rp, '%' :: 'M' :: fmt, t =>
    match get_number 0 59 2 rp with
    | some (v, rp1) => strptime rp1 fmt { t with tm_min := v }
    | none => none
  | rp, '%' :: 'S' :: fmt, t =>
    match get_number 0 61 2 rp with
    | some (v, rp1) => strptime rp1 fmt { t with tm_sec := v }
    | none => none
  | rp, '%' :: 'Y' :: fmt, t =>
    match get_number 0 9999 4 rp with
    | some (v, rp1) => strptime rp1 fmt { t with tm_year := (v : Int) - 1900 }
    | none => none
  | rp, '%' :: 'm' :: fmt, t =>
    match get_number 1 12 2 rp with
    | some (v, rp1) => strptime rp1 fmt { t with tm_mon := (v : Int) - 1 }
    | none => none
  | rp, '%' :: 'd' :: fmt, t =>
    match get_number 1 31 2 rp with
    | some (v, rp1) => strptime rp1 fmt { t with tm_mday := v }
    | none => none
  | rp, c :: fmt, t =>
    if isspace c then strptime (skipSpace rp) fmt t
    else
      match rp with
      | d :: rp1 => if d = c then strptime rp1 fmt t else none
      | [] => none

/-- Days from 1970-01-01 to the first day of month `m` (1 to 12) of year `y`
in the proleptic Gregorian calendar. -/
def daysToMonth (y m : Int) : Int :=
  let y1 := if m ≤ 2 then y - 1 else y
  let era := y1 / 400
  let yoe := y1 - era * 400
  let mp := if m > 2 then m - 3 else m + 9
  let doy := (153 * mp + 2) / 5
  era * 146097 + (yoe * 365 + yoe / 4 - yoe / 100 + doy) - 719468

/-- `timegm`: seconds from the epoch to a broken-down UTC time whose month is
in range. -/
def timegm (t : tm) : Int :=
  (daysToMonth (t.tm_year + 1900) (t.tm_mon + 1) + (t.tm_mday - 1)) * 86400
    + t.tm_hour * 3600 + t.tm_min * 60 + t.tm_sec

/-- A `double`, kept as the term that produced it: the value `NA_REAL`, the
conversion of an integer, the result of `strtod` on a text, the sum of two
`double`s, and the day number that `Rcpp::Date(text).getDate()` returns (the
constructor calls the R functions `strptime` and `as.Date`, which give a
missing value and no error for a text that is no date). -/
inductive Dbl where
  | NA_REAL
  | ofInt (n : Int)
  | strtod (s : List Char)
  | add (a b : Dbl)
  | dateOf (s : String)
deriving DecidableEq

/-- `atof(s)`, which is `strtod(s, NULL)` on the C string. -/
def atof (s : String) : Dbl := Dbl.strtod (std_string s).toList

/-- The source's `parse_partial_seconds`: the fraction that starts at a
period, else zero.  The argument is never the null pointer. -/
def parse_partial_seconds (string : List Char) : Dbl :=
  match string with
  | '.' :: _ => Dbl.strtod string
  | _ => Dbl.ofInt 0

/-! ## R values -/

/-- `NA_INTEGER`, the smallest 32-bit integer. -/
def NA_INTEGER : Int := -2147483648

/-- `NA_LOGICAL`, the same bit pattern as `NA_INTEGER`. -/
def NA_LOGICAL : Int := -2147483648

/-- An element of a character vector (a `CHARSXP`). -/
inductive RString where
  | NA_STRING
  | mk (s : String)
deriving DecidableEq

/-- `Rf_mkCharLenCE(ptr, len, CE_UTF8)` on the text of a node with its full
length: R raises the error `embedded nul in string` when the text holds a
NUL. -/
def Rf_mkCharLenCE (s : String) : Except Fault RString :=
  if '\x00' ∈ s.toList then throw Fault.rError else pure (RString.mk s)

/-- The attributes that `vectorInit` gives a numeric vector: none, class
`POSIXct` with time zone UTC, class `Date`, class `hms`/`difftime` in seconds. -/
inductive RealAttr where
  | plain
  | POSIXct_UTC
  | Date
  | hms_secs
deriving DecidableEq

/-- The attributes of a generic vector: `names`, `class`, `row.names`. -/
structure ListAttr where
  names : Option (List String)
  klass : Option (List String)
  row_names : Option (List Int)
deriving DecidableEq

/-- An R value (`SEXP`): `NULL`, or a logical, integer, numeric, character or
generic vector. -/
inductive SEXP where
  | NULL
  | LGLSXP (xs : List Int)
  | INTSXP (xs : List Int)
  | REALSXP (attr : RealAttr) (xs : List Dbl)
  | STRSXP (xs : List RString)
  | VECSXP (attr : ListAttr) (xs : List SEXP)

/-- A generic vector without attributes. -/
def noAttr : ListAttr := ⟨none, none, none⟩

/-- The class of a data frame built by the decoder. -/
def tbl_df : List String := ["tbl_df", "tbl", "data.frame"]

/-- `INTEGER(x)[i] = val`; `x` must be an integer or logical vector longer
than `i`. -/
def INTEGER_set (x : SEXP) (i : Nat) (val : Int) : Except Fault SEXP :=
  match x with
  | SEXP.INTSXP xs => if i < xs.length then pure (SEXP.INTSXP (xs.set i val)) else throw Fault.undefined
  | SEXP.LGLSXP xs => if i < xs.length then pure (SEXP.LGLSXP (xs.set i val)) else throw Fault.undefined
  | _ => throw Fault.undefined

/-- `REAL(x)[i] = val`; `x` must be a numeric vector longer than `i`. -/
def REAL_set (x : SEXP) (i : Nat) (val : Dbl) : Except Fault SEXP :=
  match x with
  | SEXP.REALSXP a xs => if i < xs.length then pure (SEXP.REALSXP a (xs.set i val)) else throw Fault.undefined
  | _ => throw Fault.undefined

/-- `SET_STRING_ELT(x, i, val)`; `x` must be a character vector longer than
`i`. -/
def SET_STRING_ELT (x : SEXP) (i : Nat) (val : RString) : Except Fault SEXP :=
  match x with
  | SEXP.STRSXP xs => if i < xs.length then pure (SEXP.STRSXP (xs.set i val)) else throw Fault.undefined
  | _ => throw Fault.undefined

/-- `SET_VECTOR_ELT(x, i, val)`; `x` must be a generic vector longer than
`i`. -/
def SET_VECTOR_ELT (x : SEXP) (i : Nat) (val : SEXP) : Except Fault SEXP :=
  match x with
  | SEXP.VECSXP a xs => if i < xs.length then pure (SEXP.VECSXP a (xs.set i val)) else throw Fault.undefined
  | _ => throw Fault.undefined

/-! ## The schema -/

/-- The source's `enum BqType`. -/
inductive BqType where
  | BQ_INTEGER
  | BQ_FLOAT
  | BQ_BOOLEAN
  | BQ_STRING
  | BQ_TIMESTAMP
  | BQ_TIME
  | BQ_DATE
  | BQ_DATETIME
  | BQ_RECORD
deriving DecidableEq

/-- The source's `parse_bq_type`. -/
def parse_bq_type (x : String) : Except Fault BqType :=
  if x = "INTEGER" then pure BqType.BQ_INTEGER
  else if x = "FLOAT" then pure BqType.BQ_FLOAT
  else if x = "BOOLEAN" then pure BqType.BQ_BOOLEAN
  else if x = "STRING" then pure BqType.BQ_STRING
  else if x = "TIMESTAMP" then pure BqType.BQ_TIMESTAMP
  else if x = "TIME" then pure BqType.BQ_TIME
  else if x = "DATE" then pure BqType.BQ_DATE
  else if x = "DATETIME" then pure BqType.BQ_DATETIME
  else if x = "RECORD" then pure BqType.BQ_RECORD
  else throw (Fault.stop ("Unknown type " ++ x))

/-- The source's `class BqField`: its four data members. -/
inductive BqField where
  | mk (name_ : String) (type_ : BqType) (array_ : Bool) (fields_ : List BqField)

namespace BqField

/-- The member `name_`. -/
def name_ : BqField → String
  | mk n _ _ _ => n

/-- The member `type_`. -/
def type_ : BqField → BqType
  | mk _ t _ _ => t

/-- The member `array_`. -/
def array_ : BqField → Bool
  | mk _ _ a _ => a

/-- The member `fields_`. -/
def fields_ : BqField → List BqField
  | mk _ _ _ fs => fs

/-- The source's `name()`. -/
def name (self : BqField) : String := self.name_

end BqField

mutual
/-- The constructor `BqField(const rapidjson::Value& field)`: `name`, `mode`
and `type` are read in this order, each through `GetString()` into a
`std::string`, then the `fields` member, when there is one, is walked from
`Begin()` to `End()`. -/
def BqField.ofValue : Json → Except Fault BqField
  | Json.object ms => do
    let name_ := std_string (← (← (Json.object ms).member "name").GetString)
    let mode := std_string (← (← (Json.object ms).member "mode").GetString)
    let array_ := decide (mode = "REPEATED")
    let type_ ← parse_bq_type (std_string (← (← (Json.object ms).member "type").GetString))
    let fields_ ← BqField.ofMembers ms
    pure (BqField.mk name_ type_ array_ fields_)
  | _ => throw Fault.undefined
termination_by structural v => v
/-- The part of the constructor under `if (field.HasMember("fields"))`: find
the first member named `fields` and build a field from each element. -/
def BqField.ofMembers : List (String × Json) → Except Fault (List BqField)
  | [] => pure []
  | (k, v) :: rest =>
    if k = "fields" then
      match v with
      | Json.array xs => BqField.ofElements xs
      | _ => throw Fault.undefined
    else BqField.ofMembers rest
termination_by structural ms => ms
/-- The loop `for ( ; field != end; ++field) fields_.push_back(BqField(*field))`. -/
def BqField.ofElements : List Json → Except Fault (List BqField)
  | [] => pure []
  | x :: xs => do
    let b ← BqField.ofValue x
    let bs ← BqField.ofElements xs
    pure (b :: bs)
termination_by structural xs => xs
end

/-- The source's `bq_fields_parse`: one field per element of
`meta["schema"]["fields"]`. -/
def bq_fields_parse (meta : Json) : Except Fault (List BqField) := do
  let schema_fields ← (← meta.member "schema").member "fields"
  BqField.ofElements (← schema_fields.elements)

/-! ## The decoder -/

/-- A counted loop over the elements of a list: `body i xs[i]` for the indices
`i = start, start + 1, ...` in order, threading the state; the first failure
ends the loop. -/
def forEachFrom {α σ : Type} (body : Nat → α → σ → Except Fault σ) :
    Nat → List α → σ → Except Fault σ
  | _, [], s => pure s
  | i, a :: rest, s => do
    let s1 ← body i a s
    forEachFrom body (i + 1) rest s1

/-- The source's `vectorInit(int n, bool array)`.  The Rcpp constructors fill
a new vector with zeros, empty strings or `NULL`. -/
def BqField.vectorInit (self : BqField) (n : Nat) (array : Bool) : SEXP :=
  if array then SEXP.VECSXP noAttr (List.replicate n SEXP.NULL)
  else
    match self.type_ with
    | BqType.BQ_INTEGER => SEXP.INTSXP (List.replicate n 0)
    | BqType.BQ_FLOAT => SEXP.REALSXP RealAttr.plain (List.replicate n (Dbl.ofInt 0))
    | BqType.BQ_BOOLEAN => SEXP.LGLSXP (List.replicate n 0)
    | BqType.BQ_STRING => SEXP.STRSXP (List.replicate n (RString.mk ""))
    | BqType.BQ_TIMESTAMP => SEXP.REALSXP RealAttr.POSIXct_UTC (List.replicate n (Dbl.ofInt 0))
    | BqType.BQ_DATETIME => SEXP.REALSXP RealAttr.POSIXct_UTC (List.replicate n (Dbl.ofInt 0))
    | BqType.BQ_DATE => SEXP.REALSXP RealAttr.Date (List.replicate n (Dbl.ofInt 0))
    | BqType.BQ_TIME => SEXP.REALSXP RealAttr.hms_secs (List.replicate n (Dbl.ofInt 0))
    | BqType.BQ_RECORD => SEXP.VECSXP noAttr (List.replicate n SEXP.NULL)

/-- The source's `vectorInit(int n)`. -/
def BqField.vectorInitOwn (self : BqField) (n : Nat) : SEXP :=
  self.vectorInit n self.array_

/-- The `struct tm dtm` that the decoder hands to `strptime` without
initialising it.  Every field read afterwards is assigned by a successful
call, so the starting values do not matter. -/
def dtm0 : tm := ⟨0, 0, 0, 0, 0, 0⟩

/-- The `switch (type_)` of the source's `vectorSet` (lines 146 to 210).
`recordValue` is the method of the field at hand.  The case of a string
raises R's error for a text with a NUL (`Rf_mkCharLenCE`).  The case of a date
returns for every text: `Rcpp::Date` builds a `std::string` from the pointer
and calls the R functions `strptime` and `as.Date`, which give a missing value
for a text that is no date. -/
def vectorSetSwitch (recordValue : Json → Except Fault SEXP) (type_ : BqType)
    (x : SEXP) (i : Nat) (v : Json) : Except Fault SEXP :=
  match type_ with
  | BqType.BQ_INTEGER =>
    INTEGER_set x i (match v with
      | Json.string s => atoi s
      | _ => NA_INTEGER)
  | BqType.BQ_TIMESTAMP =>
    REAL_set x i (match v with
      | Json.string s => atof s
      | _ => Dbl.NA_REAL)
  | BqType.BQ_FLOAT =>
    REAL_set x i (match v with
      | Json.string s => atof s
      | _ => Dbl.NA_REAL)
  | BqType.BQ_BOOLEAN =>
    match v with
    | Json.string s =>
      let is_true := strncmp_T_1 s
      INTEGER_set x i (if is_true then 1 else 0)
    | _ => INTEGER_set x i NA_LOGICAL
  | BqType.BQ_STRING =>
    match v with
    | Json.string s => do
      let chr ← Rf_mkCharLenCE s
      SET_STRING_ELT x i chr
    | _ => SET_STRING_ELT x i RString.NA_STRING
  | BqType.BQ_TIME =>
    match v with
    | Json.string s =>
      match strptime s.toList "%H:%M:%S".toList dtm0 with
      | none => REAL_set x i Dbl.NA_REAL
      | some (dtm, parsed) =>
        REAL_set x i (Dbl.add (Dbl.ofInt (dtm.tm_hour * 3600 + dtm.tm_min * 60 + dtm.tm_sec))
          (parse_partial_seconds parsed))
    | _ => REAL_set x i Dbl.NA_REAL
  | BqType.BQ_DATE =>
    match v with
    | Json.string s => REAL_set x i (Dbl.dateOf (std_string s))
    | _ => REAL_set x i Dbl.NA_REAL
  | BqType.BQ_DATETIME =>
    match v with
    | Json.string s =>
      match strptime s.toList "%Y-%m-%dT%H:%M:%S".toList dtm0 with
      | none => REAL_set x i Dbl.NA_REAL
      | some (dtm, parsed) =>
        REAL_set x i (Dbl.add (Dbl.ofInt (timegm dtm)) (parse_partial_seconds parsed))
    | _ => REAL_set x i Dbl.NA_REAL
  | BqType.BQ_RECORD => do
    SET_VECTOR_ELT x i (← recordValue v)

/-- The body of the source's `vectorSet(x, i, v, array)`, with the method
`recordValue` of the field passed in.  In the branch of a repeated scalar the
source calls itself with `array = false`; that call goes straight to the
switch, which is what is called here. -/
def vectorSetWith (recordValue : Json → Except Fault SEXP) (self : BqField)
    (x : SEXP) (i : Nat) (v : Json) (array : Bool) : Except Fault SEXP :=
  if array = true ∧ self.type_ ≠ BqType.BQ_RECORD then
    if v.IsArray = false then throw (Fault.stop "Not an array [1]")
    else do
      let elems ← v.elements
      let n := elems.length
      let out := self.vectorInit n false
      let out ← forEachFrom
        (fun j e out => do vectorSetSwitch recordValue self.type_ out j (← e.member "v")) 0 elems out
      SET_VECTOR_ELT x i out
  else vectorSetSwitch recordValue self.type_ x i v

mutual
/-- The source's `recordValue`. -/
def BqField.recordValue : BqField → Json → Except Fault SEXP
  | BqField.mk _ _ array_ fields_, v =>
    let p := fields_.length
    let out := List.replicate p SEXP.NULL
    let names := List.replicate p ""
    if array_ = false then
      if v.IsObject = false then pure (SEXP.VECSXP ⟨some names, none, none⟩ out)
      else do
        let f ← v.member "f"
        if f.IsArray = false then throw (Fault.stop "Not array [2]")
        else do
          let r ← BqField.recordChildren fields_ 0 f (out, names)
          pure (SEXP.VECSXP ⟨some r.2, none, none⟩ r.1)
    else
      let elems := match v with
        | Json.array xs => xs
        | _ => []
      let n := elems.length
      let out := fields_.map (fun field => field.vectorInitOwn n)
      let names := fields_.map (fun field => field.name_)
      let out := SEXP.VECSXP ⟨some names, some tbl_df, some [NA_INTEGER, -(Int.ofNat n)]⟩ out
      if n = 0 then pure out
      else
        forEachFrom (fun i e out => do
          let f ← (← e.member "v").member "f"
          if f.IsArray = false then throw (Fault.stop "Not an array [3]")
          else BqField.setRow fields_ 0 i f out) 0 elems out
termination_by structural self => self
/-- The loop `for (int j = 0; j < p; ++j)` of the non-repeated branch of
`recordValue` (lines 229 to 245), from child `j` on; the state is `out` and
`names`. -/
def BqField.recordChildren : List BqField → Nat → Json → List SEXP × List String →
    Except Fault (List SEXP × List String)
  | [], _, _, st => pure st
  | field :: rest, j, f, st => do
    let vs ← (← f.index j).member "v"
    let n ← if field.array_ then vs.Size else pure 1
    let col := field.vectorInit n false
    let col ←
      if field.array_ then do
        forEachFrom (fun i e col => do
          vectorSetWith (BqField.recordValue field) field col i (← e.member "v") false)
          0 (← vs.elements) col
      else vectorSetWith (BqField.recordValue field) field col 0 vs field.array_
    BqField.recordChildren rest (j + 1) f (st.1.set j col, st.2.set j field.name_)
termination_by structural fields => fields
/-- The loop `for (int j = 0; j < p; ++j) fields[j].vectorSet(out[j], i, f[j]["v"])`
of `recordValue` (lines 265 to 267) and of `bq_fields_set` (lines 324 to 326),
from field `j` on.  The column `out[j]` is changed in place. -/
def BqField.setRow : List BqField → Nat → Nat → Json → SEXP → Except Fault SEXP
  | [], _, _, _, out => pure out
  | field :: rest, j, i, f, out => do
    let x ← match out with
      | SEXP.VECSXP _ cols =>
        match cols.get? j with
        | some x => pure x
        | none => throw Fault.undefined
      | _ => throw Fault.undefined
    let x ← vectorSetWith (BqField.recordValue field) field x i (← (← f.index j).member "v") field.array_
    let out ← SET_VECTOR_ELT out j x
    BqField.setRow rest (j + 1) i f out
termination_by structural fields => fields
end

/-- The source's `vectorSet(x, i, v, array)`. -/
def BqField.vectorSet (self : BqField) (x : SEXP) (i : Nat) (v : Json) (array : Bool) :
    Except Fault SEXP :=
  vectorSetWith self.recordValue self x i v array

/-- The source's `vectorSet(x, i, v)`. -/
def BqField.vectorSetOwn (self : BqField) (x : SEXP) (i : Nat) (v : Json) : Except Fault SEXP :=
  self.vectorSet x i v self.array_

/-- The source's `bq_fields_init`. -/
def bq_fields_init (fields : List BqField) (n : Nat) : SEXP :=
  SEXP.VECSXP ⟨some (fields.map (fun field => field.name)), some tbl_df, some [NA_INTEGER, -(Int.ofNat n)]⟩
    (fields.map (fun field => field.vectorInitOwn n))

/-- The source's `bq_fields_set`: the number of rows of the page and the
table after the writes. -/
def bq_fields_set (data : Json) (out : SEXP) (fields : List BqField) (offset : Nat) :
    Except Fault (Nat × SEXP) := do
  if (← data.HasMember "rows") = false then pure (0, out)
  else
    let rows ← data.member "rows"
    let elems ← rows.elements
    let n := elems.length
    let out ← forEachFrom (fun i row out => do
      let f ← row.member "f"
      BqField.setRow fields 0 (i + offset) f out) 0 elems out
    pure (n, out)

/-- The source's `bq_parse`, on the two parsed documents. -/
def bq_parse (meta_d values_d : Json) : Except Fault SEXP := do
  let fields ← bq_fields_parse meta_d
  let n ← if (← values_d.HasMember "rows") then (← values_d.member "rows").Size else pure 0
  let out := bq_fields_init fields n
  let r ← bq_fields_set values_d out fields 0
  pure r.2

/-- The source's `bq_field_init`; `value` is the parsed second argument, or
`none` for the empty text. -/
def bq_field_init (d1 : Json) (value : Option Json) : Except Fault SEXP := do
  let field ← BqField.ofValue d1
  let out := field.vectorInitOwn 1
  match value with
  | some d2 => field.vectorSetOwn out 0 d2
  | none => pure out

/-- The loop of the source's `bq_parse_files` over the files: each entry is a
path with the document parsed from it, or `none` when the parse failed. -/
def bq_parse_files_loop (fields : List BqField) :
    List (String × Option Json) → SEXP → Nat → Except Fault SEXP
  | [], out, _ => pure out
  | (path, doc) :: rest, out, offset =>
    match doc with
    | none => throw (Fault.stop ("Failed to parse \x27" ++ path ++ "\x27"))
    | some values_doc => do
      let r ← bq_fields_set values_doc out fields offset
      bq_parse_files_loop fields rest r.2 (offset + r.1)

/-- The source's `bq_parse_files`, on the parsed schema and the parsed files. -/
def bq_parse_files (schema_doc : Json) (files : List (String × Option Json)) (n : Nat) :
    Except Fault SEXP := do
  let fields ← bq_fields_parse schema_doc
  let out := bq_fields_init fields n
  bq_parse_files_loop fields files out 0

/-! ## Reading the result -/

/-- The content of one cell of an R vector. -/
inductive Cell where
  | int (n : Int)
  | real (d : Dbl)
  | str (s : RString)
  | elt (x : SEXP)

/-- The number of elements of an R vector. -/
def SEXP.length : SEXP → Nat
  | SEXP.NULL => 0
  | SEXP.LGLSXP xs => xs.length
  | SEXP.INTSXP xs => xs.length
  | SEXP.REALSXP _ xs => xs.length
  | SEXP.STRSXP xs => xs.length
  | SEXP.VECSXP _ xs => xs.length

/-- The cell at index `i` of an R vector, if there is one. -/
def SEXP.cell? : SEXP → Nat → Option Cell
  | SEXP.NULL, _ => none
  | SEXP.LGLSXP xs, i => (xs.get? i).map Cell.int
  | SEXP.INTSXP xs, i => (xs.get? i).map Cell.int
  | SEXP.REALSXP _ xs, i => (xs.get? i).map Cell.real
  | SEXP.STRSXP xs, i => (xs.get? i).map Cell.str
  | SEXP.VECSXP _ xs, i => (xs.get? i).map Cell.elt

/-- Write a cell at index `i`, by the store of the cell's kind. -/
def SEXP.store (x : SEXP) (i : Nat) : Cell → Except Fault SEXP
  | Cell.int n => INTEGER_set x i n
  | Cell.real d => REAL_set x i d
  | Cell.str s => SET_STRING_ELT x i s
  | Cell.elt y => SET_VECTOR_ELT x i y

/-- Two vectors of the same type, attributes and length. -/
def SEXP.SameShape : SEXP → SEXP → Prop
  | SEXP.NULL, SEXP.NULL => True
  | SEXP.LGLSXP xs, SEXP.LGLSXP ys => xs.length = ys.length
  | SEXP.INTSXP xs, SEXP.INTSXP ys => xs.length = ys.length
  | SEXP.REALSXP a xs, SEXP.REALSXP b ys => a = b ∧ xs.length = ys.length
  | SEXP.STRSXP xs, SEXP.STRSXP ys => xs.length = ys.length
  | SEXP.VECSXP a xs, SEXP.VECSXP b ys => a = b ∧ xs.length = ys.length
  | _, _ => False

/-- A vector takes cells of this kind: the store of the kind applies to it. -/
def SEXP.accepts : SEXP → Cell → Bool
  | SEXP.LGLSXP _, Cell.int _ => true
  | SEXP.INTSXP _, Cell.int _ => true
  | SEXP.REALSXP _ _, Cell.real _ => true
  | SEXP.STRSXP _, Cell.str _ => true
  | SEXP.VECSXP _ _, Cell.elt _ => true
  | _, _ => false

/-- The columns of a table (the elements of a generic vector). -/
def SEXP.columns : SEXP → List SEXP
  | SEXP.VECSXP _ xs => xs
  | _ => []

/-- The attributes of a table. -/
def SEXP.attrib : SEXP → Option ListAttr
  | SEXP.VECSXP a _ => some a
  | _ => none

/-- The cell of a table at column `j`, row `i`. -/
def SEXP.at? (t : SEXP) (j i : Nat) : Option Cell :=
  match t.columns.get? j with
  | some col => col.cell? i
  | none => none

/-- The decoding of one wire value by a field: what `vectorSet` writes into
the only cell of a fresh one-cell column. -/
def BqField.decodeCell (self : BqField) (v : Json) (array : Bool) : Except Fault Cell := do
  let x ← self.vectorSet (self.vectorInit 1 array) 0 v array
  match x.cell? 0 with
  | some c => pure c
  | none => throw Fault.undefined

/-- The null value of a scalar type: `NA_INTEGER`, `NA_LOGICAL`, `NA_REAL` or
`NA_STRING`. -/
def BqType.null : BqType → Cell
  | BqType.BQ_INTEGER => Cell.int NA_INTEGER
  | BqType.BQ_BOOLEAN => Cell.int NA_LOGICAL
  | BqType.BQ_STRING => Cell.str RString.NA_STRING
  | _ => Cell.real Dbl.NA_REAL

/-- The wrapped value of a row object for field `j`: `row["f"][j]["v"]`. -/
def Json.wrapped (f : Json) (j : Nat) : Except Fault Json := do
  (← f.index j).member "v"

/-- The rows of a data document: the elements of `rows`, none when the
document has no such member. -/
def Json.rows (data : Json) : Except Fault (List Json) := do
  if (← data.HasMember "rows") = false then pure []
  else (← data.member "rows").elements

/-- The effect of one pass of the field loop at row `i` on the columns: the
columns keep their number and shapes, a cell changes only at row `i` of a
column in `[j, j + fields.length)`, and there the cell holds the decoding of
the wrapped value of the field. -/
def RowDone (fields : List BqField) (j i : Nat) (f : Json) (cols cols1 : List SEXP) : Prop :=
  cols1.length = cols.length ∧
  (∀ m x, cols.get? m = some x → ∃ x1, cols1.get? m = some x1 ∧ x.SameShape x1 ∧
    ∀ k, (k ≠ i ∨ m < j ∨ j + fields.length ≤ m) → x1.cell? k = x.cell? k) ∧
  (∀ m fld, fields.get? m = some fld → ∃ e c, f.wrapped (j + m) = Except.ok e ∧
    fld.decodeCell e fld.array_ = Except.ok c ∧
    ∃ x1, cols1.get? (j + m) = some x1 ∧ x1.cell? i = some c)

/-- The loop over the rows of a page, as `bq_fields_set` and the repeated
branch of `recordValue` run it: `getF` takes the array of wrapped values out
of a row, the field loop writes row `i + offset`. -/
def pageLoop (getF : Json → Except Fault Json) (fields : List BqField) (offset : Nat)
    (elems : List Json) (out : SEXP) : Except Fault SEXP :=
  forEachFrom (fun i e out => getF e >>= fun f => BqField.setRow fields 0 (i + offset) f out)
    0 elems out

/-- The effect of the first `n` passes of the row loop on the columns: the
columns keep their number and shapes, a cell changes only at a row in
`[offset, offset + n)` of one of the first `fields.length` columns, and the
cell at row `offset + r` of column `m` holds the decoding of the wrapped value
of row `r` for field `m`. -/
def PageInv (getF : Json → Except Fault Json) (fields : List BqField) (offset : Nat)
    (elems : List Json) (n : Nat) (cols cols1 : List SEXP) : Prop :=
  cols1.length = cols.length ∧
  (∀ m x, cols.get? m = some x → ∃ x1, cols1.get? m = some x1 ∧ x.SameShape x1 ∧
    ∀ k, (k < offset ∨ offset + n ≤ k ∨ fields.length ≤ m) → x1.cell? k = x.cell? k) ∧
  (∀ r e, r < n → elems.get? r = some e → ∃ f, getF e = Except.ok f ∧
    ∀ m fld, fields.get? m = some fld → ∃ w c, f.wrapped m = Except.ok w ∧
      fld.decodeCell w fld.array_ = Except.ok c ∧
      ∃ x1, cols1.get? m = some x1 ∧ x1.cell? (offset + r) = some c)

/-- The effect of the whole row loop: `PageInv` after the last row. -/
def PageDone (getF : Json → Except Fault Json) (fields : List BqField) (offset : Nat)
    (elems : List Json) (cols cols1 : List SEXP) : Prop :=
  PageInv getF fields offset elems elems.length cols cols1

/-- Every row of the page can be written: the wrapped values are there and
decode, and column `m` takes the decoded cell at the row's index. -/
def PageReady (getF : Json → Except Fault Json) (fields : List BqField) (offset : Nat)
    (elems : List Json) (cols : List SEXP) : Prop :=
  ∀ r e, elems.get? r = some e → ∃ f, getF e = Except.ok f ∧
    ∀ m fld, fields.get? m = some fld → ∃ w c x, f.wrapped m = Except.ok w ∧
      fld.decodeCell w fld.array_ = Except.ok c ∧ cols.get? m = some x ∧
      x.accepts c = true ∧ offset + r < x.length

/-- The array of wrapped values of a row of a data document: `rows[i]["f"]`. -/
def rowF (row : Json) : Except Fault Json := row.member "f"

/-- The array of wrapped child values of an element of a repeated record, as
the repeated branch of `recordValue` takes it: `v[i]["v"]["f"]`, which must be
an array. -/
def structF (e : Json) : Except Fault Json := do
  let f ← (← e.member "v").member "f"
  if f.IsArray = false then throw (Fault.stop "Not an array [3]") else pure f

/-- The elements that the repeated branch of `recordValue` walks: those of an
array, none of another node. -/
def Json.structs : Json → List Json
  | Json.array xs => xs
  | _ => []

/-- The nested table that the repeated branch of `recordValue` allocates for
`n` rows. -/
def nestedInit (fields : List BqField) (n : Nat) : SEXP :=
  SEXP.VECSXP ⟨some (fields.map (fun field => field.name_)), some tbl_df,
    some [NA_INTEGER, -(Int.ofNat n)]⟩ (fields.map (fun field => field.vectorInitOwn n))

/-- A table fits a schema for `n` rows: column `m` has the shape that
`bq_fields_init` gives the column of field `m` in a table of `n` rows. -/
def TableFor (fields : List BqField) (n : Nat) (cols : List SEXP) : Prop :=
  ∀ m fld, fields.get? m = some fld →
    ∃ x, cols.get? m = some x ∧ (fld.vectorInitOwn n).SameShape x

/-- A page decodes under a schema: every row yields its array of wrapped
values, the array holds a wrapped value for every field, and the field decodes
the value. -/
def PageDecodes (getF : Json → Except Fault Json) (fields : List BqField) (elems : List Json) :
    Prop :=
  ∀ r e, elems.get? r = some e → ∃ f, getF e = Except.ok f ∧
    ∀ m fld, fields.get? m = some fld → ∃ w c, f.wrapped m = Except.ok w ∧
      fld.decodeCell w fld.array_ = Except.ok c

/-- The type string is one of the nine that `parse_bq_type` knows. -/
def knownType (t : String) : Bool :=
  t = "INTEGER" || t = "FLOAT" || t = "BOOLEAN" || t = "STRING" || t = "TIMESTAMP" ||
    t = "TIME" || t = "DATE" || t = "DATETIME" || t = "RECORD"

/-- The node is a text node. -/
def isText : Option Json → Bool
  | some (Json.string _) => true
  | _ => false

mutual
/-- A well-formed field node of a schema document: an object whose `name`,
`mode` and `type` are text and whose `fields`, when present, is an array of
well-formed field nodes. -/
def fieldNodeOk : Json → Bool
  | Json.object ms =>
    isText (Json.findMember "name" ms) && isText (Json.findMember "mode" ms) &&
      isText (Json.findMember "type" ms) && childNodesOk ms
  | _ => false
termination_by structural v => v
/-- The first member named `fields`, if there is one, is an array of
well-formed field nodes. -/
def childNodesOk : List (String × Json) → Bool
  | [] => true
  | (k, v) :: rest =>
    if k = "fields" then
      match v with
      | Json.array xs => nodesOk xs
      | _ => false
    else childNodesOk rest
termination_by structural ms => ms
/-- Every node of the list is a well-formed field node. -/
def nodesOk : List Json → Bool
  | [] => true
  | x :: xs => fieldNodeOk x && nodesOk xs
termination_by structural xs => xs
end

mutual
/-- Every type string of the field node, at any nesting depth, is one of the
nine, as the `std::string` that `parse_bq_type` receives. -/
def typesKnown : Json → Bool
  | Json.object ms =>
    (match Json.findMember "type" ms with
      | some (Json.string t) => knownType (std_string t)
      | _ => true) && typesKnownChildren ms
  | _ => true
termination_by structural v => v
/-- Every type string under the first member named `fields` is one of the
nine. -/
def typesKnownChildren : List (String × Json) → Bool
  | [] => true
  | (k, v) :: rest =>
    if k = "fields" then
      match v with
      | Json.array xs => typesKnownNodes xs
      | _ => true
    else typesKnownChildren rest
termination_by structural ms => ms
/-- Every type string of every node of the list is one of the nine. -/
def typesKnownNodes : List Json → Bool
  | [] => true
  | x :: xs => typesKnown x && typesKnownNodes xs
termination_by structural xs => xs
end

/-- The field nodes of a schema document: the elements of
`meta["schema"]["fields"]`. -/
def schemaNodes (meta_d : Json) : Except Fault (List Json) := do
  (← (← meta_d.member "schema").member "fields").elements

/-- The outcome of parsing well-formed schema nodes: a value when every type
string is known, else the error of `parse_bq_type` for an unknown type
string. -/
def SchemaOutcome {α : Type} (known : Bool) (r : Except Fault α) : Prop :=
  (known = true → ∃ a, r = Except.ok a) ∧
  (known = false → ∃ t, knownType t = false ∧ r = Except.error (Fault.stop ("Unknown type " ++ t)))

/-! ## Locations that require an array -/

/-- Some location that the decoder checks for an array, while it decodes the
wire value `v` by the field under the flag `array`, does not hold one.  The
first three constructors are the three checks of the source: the node of a
repeated scalar (`Not an array [1]`), the member `f` of the object of a
non-repeated record (`Not array [2]`), the member `f` of a struct of a
repeated record (`Not an array [3]`).  The other three descend into a child
of a non-repeated record, into an element of a repeated child of a
non-repeated record, and into a child value of a struct of a repeated
record. -/
inductive Unheld : BqField → Bool → Json → Prop where
  | scalar (fld : BqField) (v : Json) :
      fld.type_ ≠ BqType.BQ_RECORD → v.IsArray = false → Unheld fld true v
  | record (fld : BqField) (array : Bool) (v f : Json) :
      fld.type_ = BqType.BQ_RECORD → fld.array_ = false → v.member "f" = Except.ok f →
      f.IsArray = false → Unheld fld array v
  | struct (fld : BqField) (array : Bool) (v e ev f : Json) :
      fld.type_ = BqType.BQ_RECORD → fld.array_ = true → e ∈ v.structs →
      e.member "v" = Except.ok ev → ev.member "f" = Except.ok f → f.IsArray = false →
      Unheld fld array v
  | child (fld : BqField) (array : Bool) (v f : Json) (j : Nat) (c : BqField) (w : Json) :
      fld.type_ = BqType.BQ_RECORD → fld.array_ = false → v.member "f" = Except.ok f →
      fld.fields_.get? j = some c → f.wrapped j = Except.ok w → c.array_ = false →
      Unheld c false w → Unheld fld array v
  | element (fld : BqField) (array : Bool) (v f : Json) (j : Nat) (c : BqField)
      (es : List Json) (e w : Json) :
      fld.type_ = BqType.BQ_RECORD → fld.array_ = false → v.member "f" = Except.ok f →
      fld.fields_.get? j = some c → f.wrapped j = Except.ok (Json.array es) → c.array_ = true →
      e ∈ es → e.member "v" = Except.ok w → Unheld c false w → Unheld fld array v
  | structChild (fld : BqField) (array : Bool) (v e f : Json) (j : Nat) (c : BqField) (w : Json) :
      fld.type_ = BqType.BQ_RECORD → fld.array_ = true → e ∈ v.structs →
      structF e = Except.ok f → fld.fields_.get? j = some c → f.wrapped j = Except.ok w →
      Unheld c c.array_ w → Unheld fld array v

/-! ## Sample documents -/

/-- A wrapped value: the object with the single member `v`. -/
def wrap (v : Json) : Json := Json.object [("v", v)]

/-- A row, or a struct: the object whose member `f` holds the wrapped values. -/
def rowOf (vs : List Json) : Json := Json.object [("f", Json.array (vs.map wrap))]

/-- A data document with the given rows. -/
def pageOf (rows : List (List Json)) : Json :=
  Json.object [("rows", Json.array (rows.map rowOf))]

/-- The field node of a schema document for a field without children. -/
def fieldNode (name type mode : String) : Json :=
  Json.object [("name", Json.string name), ("type", Json.string type), ("mode", Json.string mode)]

/-- The field node of a schema document for a record with children. -/
def recordNode (name mode : String) (children : List Json) : Json :=
  Json.object [("name", Json.string name), ("type", Json.string "RECORD"),
    ("mode", Json.string mode), ("fields", Json.array children)]

/-- A schema document with the given field nodes. -/
def schemaOf (nodes : List Json) : Json :=
  Json.object [("schema", Json.object [("fields", Json.array nodes)])]

/-- The schema with the single nullable integer field `x`. -/
def schema_x : Json := schemaOf [fieldNode "x" "INTEGER" "NULLABLE"]

/-- The field `x` of `schema_x`. -/
def field_x : BqField := BqField.mk "x" BqType.BQ_INTEGER false []

/-- The page with the single row `42`. -/
def page_42 : Json := pageOf [[Json.string "42"]]

/-- A page of two rows. -/
def page_A : Json := pageOf [[Json.string "1"], [Json.string "2"]]

/-- A page of three rows. -/
def page_B : Json := pageOf [[Json.string "3"], [Json.null], [Json.string "5"]]

/-- The attributes of a data frame of `n` rows with the single column `x`. -/
def attr_x (n : Nat) : ListAttr := ⟨some ["x"], some tbl_df, some [NA_INTEGER, -(Int.ofNat n)]⟩

/-- A repeated record `r` with the children `a: INTEGER` and
`b: STRING, REPEATED`. -/
def record_ab : BqField :=
  BqField.mk "r" BqType.BQ_RECORD true
    [BqField.mk "a" BqType.BQ_INTEGER false [], BqField.mk "b" BqType.BQ_STRING true []]

/-- Two wrapped structs for `record_ab`. -/
def structs_ab : List Json :=
  [wrap (rowOf [Json.string "1", Json.array [wrap (Json.string "p"), wrap (Json.string "q")]]),
   wrap (rowOf [Json.null, Json.array []])]

/-- The nested table that `record_ab` decodes from `structs_ab`. -/
def table_ab : SEXP :=
  SEXP.VECSXP ⟨some ["a", "b"], some tbl_df, some [NA_INTEGER, -2]⟩
    [SEXP.INTSXP [1, NA_INTEGER],
     SEXP.VECSXP noAttr [SEXP.STRSXP [RString.mk "p", RString.mk "q"], SEXP.STRSXP []]]

/-- A record with the single integer child `x`, repeated or not. -/
def record_x (array_ : Bool) : BqField := BqField.mk "c" BqType.BQ_RECORD array_ [field_x]

/-- A non-repeated record `r` whose only child is the repeated record
`record_x true`. -/
def record_outer : BqField := BqField.mk "r" BqType.BQ_RECORD false [record_x true]

/-- The wire value of `record_outer` whose child holds the two structs
`x = 1` and `x = 2`. -/
def struct_outer : Json :=
  rowOf [Json.array [wrap (rowOf [Json.string "1"]), wrap (rowOf [Json.string "2"])]]

/-- The schema with the single repeated record `c` whose only child is the
nullable integer `x`. -/
def schema_c : Json := schemaOf [recordNode "c" "REPEATED" [fieldNode "x" "INTEGER" "NULLABLE"]]

/-- A struct whose child-value container `f` is a text node. -/
def struct_text : Json := wrap (Json.object [("f", Json.string "oops")])

/-- The schema whose only field has the type string `INTEGER`, a NUL
character, `x`. -/
def schema_nul : Json := schemaOf [fieldNode "x" "INTEGER\x00x" "NULLABLE"]

/-- A schema with a record whose child has the type string `INT64`. -/
def schema_int64 : Json :=
  schemaOf [fieldNode "x" "INTEGER" "NULLABLE",
    recordNode "r" "NULLABLE" [fieldNode "y" "INT64" "NULLABLE"]]

/-! ## Single cells -/

/-- The non-repeated field of a scalar type with which one cell is decoded. -/
def scalarField (ty : BqType) : BqField := BqField.mk "x" ty false []

/-- The place where `strtol` expects the digits: the text after leading white
space and one optional sign. -/
def numberStart (s : List Char) : List Char :=
  match skipSpace s with
  | '-' :: rest => rest
  | '+' :: rest => rest
  | rest => rest

/-- The base-10 text of an integer: the decimal digits of its magnitude, with
a minus sign before them when it is negative. -/
def decimalText : Int → String
  | Int.ofNat m => Nat.repr m
  | Int.negSucc m => "-" ++ Nat.repr (m + 1)

/-- The value with which the Rcpp constructors fill a new column of a scalar
type: `0`, `FALSE`, `0.0` or the empty string. -/
def BqType.zero : BqType → Cell
  | BqType.BQ_INTEGER => Cell.int 0
  | BqType.BQ_BOOLEAN => Cell.int 0
  | BqType.BQ_STRING => Cell.str (RString.mk "")
  | _ => Cell.real (Dbl.ofInt 0)

/-- The members of a field node of type `INTEGER` and mode `REPEATED` that
carries a `fields` member with one child. -/
def members_a : List (String × Json) :=
  [("name", Json.string "a"), ("type", Json.string "INTEGER"), ("mode", Json.string "REPEATED"),
    ("fields", Json.array [fieldNode "b" "STRING" "NULLABLE"])]

/-! ## Times and dates -/

/-- The format of a `TIME` value in the source. -/
def fmtTime : List Char := "%H:%M:%S".toList

/-- The format of a `DATETIME` value in the source. -/
def fmtDateTime : List Char := "%Y-%m-%dT%H:%M:%S".toList

/-- The two decimal digits of a number below one hundred. -/
def pad2 (n : Nat) : List Char := [Nat.digitChar (n / 10), Nat.digitChar (n % 10)]

/-- The four decimal digits of a number below ten thousand. -/
def pad4 (n : Nat) : List Char :=
  [Nat.digitChar (n / 1000), Nat.digitChar (n / 100 % 10), Nat.digitChar (n / 10 % 10),
    Nat.digitChar (n % 10)]

/-- The text `HH:MM:SS` followed by `rest`. -/
def timeText (h m s : Nat) (rest : List Char) : String :=
  String.mk (pad2 h ++ (':' :: (pad2 m ++ (':' :: (pad2 s ++ rest)))))

/-- The text `YYYY-MM-DDTHH:MM:SS` followed by `rest`. -/
def dateTimeText (y mo d h m s : Nat) (rest : List Char) : String :=
  String.mk (pad4 y ++ ('-' :: (pad2 mo ++ ('-' :: (pad2 d ++ ('T' :: (pad2 h ++ (':' ::
    (pad2 m ++ (':' :: (pad2 s ++ rest)))))))))))

/-- The leading decimal digits of a text: their value, their number and the
text after them. -/
def scanFraction : Nat → Nat → List Char → Nat × Nat × List Char
  | acc, k, [] => (acc, k, [])
  | acc, k, c :: rest =>
    if isdigit c then scanFraction (acc * 10 + digitValue c) (k + 1) rest else (acc, k, c :: rest)

/-- The exponent part that `strtod` reads after the digits: `e` or `E`, an
optional sign and at least one digit; `0` when there is none. -/
def scanExponent : List Char → Int
  | [] => 0
  | c :: rest =>
    if c = 'e' ∨ c = 'E' then
      match rest with
      | '-' :: d :: r => if isdigit d then -(scanDigits 0 (d :: r) : Int) else 0
      | '+' :: d :: r => if isdigit d then (scanDigits 0 (d :: r) : Int) else 0
      | d :: r => if isdigit d then (scanDigits 0 (d :: r) : Int) else 0
      | [] => 0
    else 0

/-- The decimal number that `strtod` reads from a text that begins with a
period, as an exact fraction: the fraction `.ddd` times ten to the exponent,
and `0` when no digit follows the period.  `strtod` returns the `double`
nearest to this number (`Dbl.value`).  `none` for a text that does not begin
with a period. -/
def decimalRead : List Char → Option ℚ
  | '.' :: rest =>
    let r := scanFraction 0 0 rest
    if r.2.1 = 0 then some 0
    else some ((r.1 : ℚ) / (10 : ℚ) ^ r.2.1 * (10 : ℚ) ^ scanExponent r.2.2)
  | _ => none

/-- The fractional contribution in the words of the specification: the
decimal fraction `.ddd` at the start of a text, without regard to what follows
the digits. -/
def plainFraction : List Char → Option ℚ
  | '.' :: rest =>
    let r := scanFraction 0 0 rest
    some ((r.1 : ℚ) / (10 : ℚ) ^ r.2.1)
  | _ => none

/-- The value of a `double` (IEEE 754 binary64): a finite number, an infinity
or not a number.  The sign of a zero is not kept. -/
inductive DVal where
  | finite (q : ℚ)
  | inf (negative : Bool)
  | nan
deriving DecidableEq

/-- The number of halvings that take `n` below `2`, with `fuel` as the bound
of the recursion. -/
def log2Fuel : Nat → Nat → Nat
  | 0, _ => 0
  | fuel + 1, n => if n < 2 then 0 else log2Fuel fuel (n / 2) + 1

/-- The position of the leading bit of `n`: the `k` with `2^k ≤ n < 2^(k+1)`
for `n > 0`. -/
def ilog2 (n : Nat) : Nat := log2Fuel n n

/-- The binary exponent of the positive fraction `p / q`: the `e` with
`2^e ≤ p / q < 2^(e+1)`.  It is the difference of the leading bit positions
or one less. -/
def floorLog2 (p q : Nat) : Int :=
  let e0 : Int := (ilog2 p : Int) - (ilog2 q : Int)
  if (if 0 ≤ e0 then q * 2 ^ e0.toNat ≤ p else q ≤ p * 2 ^ (-e0).toNat) then e0 else e0 - 1

/-- The `double` nearest to the positive fraction `p / q`, ties to the even
significand.  With `e` the binary exponent, not below `-1022`, the result is
the multiple of `2^(e - 52)` nearest to `p / q`; a result of `2^1024` or more
is the infinity. -/
def roundPos (p q : Nat) : DVal :=
  let s : Int := 52 - max (floorLog2 p q) (-1022)
  let N := if 0 ≤ s then p * 2 ^ s.toNat else p
  let D := if 0 ≤ s then q else q * 2 ^ (-s).toNat
  let m := N / D
  let r := N % D
  let m1 := if D < 2 * r ∨ (2 * r = D ∧ m % 2 = 1) then m + 1 else m
  let x : ℚ := (m1 : ℚ) * (2 : ℚ) ^ (-s)
  if (2 : ℚ) ^ (1024 : Nat) ≤ x then DVal.inf false else DVal.finite x

/-- The `double` nearest to a number: rounding to nearest, ties to even;
infinite when the number is too large. -/
def roundDouble (x : ℚ) : DVal :=
  if x = 0 then DVal.finite 0
  else if 0 < x then roundPos x.num.natAbs x.den
  else
    match roundPos x.num.natAbs x.den with
    | DVal.finite q => DVal.finite (-q)
    | DVal.inf b => DVal.inf (!b)
    | DVal.nan => DVal.nan

/-- The sum of two `double`s: the exact sum rounded; an infinity absorbs a
finite number, and the infinities of opposite signs give not a number. -/
def DVal.add : DVal → DVal → DVal
  | DVal.finite a, DVal.finite b => roundDouble (a + b)
  | DVal.finite _, DVal.inf s => DVal.inf s
  | DVal.inf s, DVal.finite _ => DVal.inf s
  | DVal.inf s, DVal.inf t => if s = t then DVal.inf s else DVal.nan
  | _, _ => DVal.nan

/-- The value of a `Dbl` term: the conversion of an integer and the result of
`strtod` are the nearest `double`s, a sum is the rounded sum.  Defined for the
terms that the time and date-time cases build: `strtod` is interpreted on the
texts that begin with a period, the only ones that `parse_partial_seconds`
hands to it. -/
def Dbl.value : Dbl → Option DVal
  | Dbl.NA_REAL => some DVal.nan
  | Dbl.ofInt n => some (roundDouble (n : ℚ))
  | Dbl.strtod s => (decimalRead s).map roundDouble
  | Dbl.add a b =>
    match a.value, b.value with
    | some p, some q => some (p.add q)
    | _, _ => none
  | Dbl.dateOf _ => none

/-- The schema with the single nullable time field `x`. -/
def schema_time : Json := schemaOf [fieldNode "x" "TIME" "NULLABLE"]

/-- A page of three rows for `schema_time`: a text that is no time, a time and
a null. -/
def page_times : Json :=
  pageOf [[Json.string "garbage"], [Json.string "12:30:45"], [Json.null]]
/-! ## Scalar decoding -/

/-- The node is a text that holds a NUL character. -/
def Json.hasNul : Json → Bool
  | Json.string s => decide ('\x00' ∈ s.toList)
  | _ => false

/-- The scalar decoding of a wire value by a type: the value that the case of
the type in the switch of `vectorSet` (lines 146 to 206) computes for the
node, or the error that it raises, before anything is stored.  `none` for
`RECORD`, which is no scalar type. -/
def scalarCell (ty : BqType) (v : Json) : Option (Except Fault Cell) :=
  match ty, v with
  | BqType.BQ_INTEGER, Json.string s => some (pure (Cell.int (atoi s)))
  | BqType.BQ_INTEGER, _ => some (pure (Cell.int NA_INTEGER))
  | BqType.BQ_FLOAT, Json.string s => some (pure (Cell.real (atof s)))
  | BqType.BQ_FLOAT, _ => some (pure (Cell.real Dbl.NA_REAL))
  | BqType.BQ_TIMESTAMP, Json.string s => some (pure (Cell.real (atof s)))
  | BqType.BQ_TIMESTAMP, _ => some (pure (Cell.real Dbl.NA_REAL))
  | BqType.BQ_BOOLEAN, Json.string s => some (pure (Cell.int (if strncmp_T_1 s then 1 else 0)))
  | BqType.BQ_BOOLEAN, _ => some (pure (Cell.int NA_LOGICAL))
  | BqType.BQ_STRING, Json.string s =>
    some (if '\x00' ∈ s.toList then throw Fault.rError else pure (Cell.str (RString.mk s)))
  | BqType.BQ_STRING, _ => some (pure (Cell.str RString.NA_STRING))
  | BqType.BQ_TIME, Json.string s =>
    match strptime s.toList fmtTime dtm0 with
    | none => some (pure (Cell.real Dbl.NA_REAL))
    | some (dtm, parsed) =>
      some (pure (Cell.real (Dbl.add
        (Dbl.ofInt (dtm.tm_hour * 3600 + dtm.tm_min * 60 + dtm.tm_sec))
        (parse_partial_seconds parsed))))
  | BqType.BQ_TIME, _ => some (pure (Cell.real Dbl.NA_REAL))
  | BqType.BQ_DATE, Json.string s => some (pure (Cell.real (Dbl.dateOf (std_string s))))
  | BqType.BQ_DATE, _ => some (pure (Cell.real Dbl.NA_REAL))
  | BqType.BQ_DATETIME, Json.string s =>
    match strptime s.toList fmtDateTime dtm0 with
    | none => some (pure (Cell.real Dbl.NA_REAL))
    | some (dtm, parsed) =>
      some (pure (Cell.real (Dbl.add (Dbl.ofInt (timegm dtm)) (parse_partial_seconds parsed))))
  | BqType.BQ_DATETIME, _ => some (pure (Cell.real Dbl.NA_REAL))
  | BqType.BQ_RECORD, _ => none

section Basics

theorem bind_eq_ok {α β : Type} (m : Except Fault α) (f : α → Except Fault β) (b : β) :
    (m >>= f) = Except.ok b ↔ ∃ a, m = Except.ok a ∧ f a = Except.ok b := by
  cases m with
  | error e => simp [bind, Except.bind]
  | ok a => simp [bind, Except.bind]

theorem forEachFrom_nil {α σ : Type} (body : Nat → α → σ → Except Fault σ) (i : Nat) (s : σ) :
    forEachFrom body i [] s = Except.ok s := rfl

theorem forEachFrom_cons {α σ : Type} (body : Nat → α → σ → Except Fault σ) (i : Nat) (a : α)
    (rest : List α) (s : σ) :
    forEachFrom body i (a :: rest) s = (body i a s >>= fun s1 => forEachFrom body (i + 1) rest s1) := rfl

/-- Total correctness of a counted loop from an invariant. -/
theorem forEachFrom_total {α σ : Type} (body : Nat → α → σ → Except Fault σ)
    (P : Nat → σ → Prop) (xs : List α) :
    ∀ (i : Nat) (s : σ), P 0 s →
      (∀ k a s, xs.get? k = some a → P k s → ∃ s1, body (i + k) a s = Except.ok s1 ∧ P (k + 1) s1) →
      ∃ s1, forEachFrom body i xs s = Except.ok s1 ∧ P xs.length s1 := by
  induction xs generalizing P with
  | nil => intro i s h0 _; exact ⟨s, rfl, h0⟩
  | cons a rest ih =>
    intro i s h0 hstep
    obtain ⟨s1, hb, hP1⟩ := hstep 0 a s rfl h0
    have hb1 : body i a s = Except.ok s1 := by simpa using hb
    obtain ⟨s2, hl, hP2⟩ := ih (fun k t => P (k + 1) t) (i + 1) s1 hP1 (by
      intro k b t hk hPk
      have := hstep (k + 1) b t (by simpa using hk) hPk
      simpa [Nat.add_assoc, Nat.add_comm 1 k] using this)
    refine ⟨s2, ?_, by simpa using hP2⟩
    rw [forEachFrom_cons, hb1]
    exact hl

/-- Partial correctness of a counted loop from an invariant. -/
theorem forEachFrom_partial {α σ : Type} (body : Nat → α → σ → Except Fault σ)
    (P : Nat → σ → Prop) (xs : List α) :
    ∀ (i : Nat) (s s2 : σ), P 0 s →
      (∀ k a s s1, xs.get? k = some a → P k s → body (i + k) a s = Except.ok s1 → P (k + 1) s1) →
      forEachFrom body i xs s = Except.ok s2 → P xs.length s2 := by
  induction xs generalizing P with
  | nil =>
    intro i s s2 h0 _ h
    simp only [forEachFrom_nil, Except.ok.injEq] at h
    subst h
    exact h0
  | cons a rest ih =>
    intro i s s2 h0 hstep h
    rw [forEachFrom_cons, bind_eq_ok] at h
    obtain ⟨s1, hb, hl⟩ := h
    have hP1 := hstep 0 a s s1 rfl h0 (by simpa using hb)
    have := ih (fun k t => P (k + 1) t) (i + 1) s1 s2 hP1 (by
      intro k b t t1 hk hPk hbk
      exact hstep (k + 1) b t t1 (by simpa using hk) hPk
        (by simpa [Nat.add_assoc, Nat.add_comm 1 k] using hbk)) hl
    simpa using this

end Basics


section Store

theorem SameShape_refl (x : SEXP) : x.SameShape x := by
  cases x <;> simp [SEXP.SameShape]

theorem SameShape_trans {x y z : SEXP} (h1 : x.SameShape y) (h2 : y.SameShape z) :
    x.SameShape z := by
  cases x <;> cases y <;> cases z <;> simp_all [SEXP.SameShape]

theorem SameShape_symm {x y : SEXP} (h1 : x.SameShape y) : y.SameShape x := by
  cases x <;> cases y <;> simp_all [SEXP.SameShape]

theorem SameShape_length {x y : SEXP} (h : x.SameShape y) : x.length = y.length := by
  cases x <;> cases y <;> simp_all [SEXP.SameShape, SEXP.length]

theorem SameShape_accepts {x y : SEXP} (h : x.SameShape y) (c : Cell) :
    x.accepts c = y.accepts c := by
  cases x <;> cases y <;> cases c <;> simp_all [SEXP.SameShape, SEXP.accepts]

/-- What a successful store does: the vector keeps its shape, the cell
written holds the value, every other cell is as before. -/
theorem ite_ok_eq {α : Type} {p : Prop} [Decidable p] {a b : α} {e : Fault}
    (h : (if p then (pure a : Except Fault α) else throw e) = Except.ok b) : p ∧ a = b := by
  by_cases hp : p
  · rw [if_pos hp] at h
    exact ⟨hp, by injection h⟩
  · rw [if_neg hp] at h
    cases h

theorem store_ok {x x1 : SEXP} {i : Nat} {c : Cell} (h : x.store i c = Except.ok x1) :
    x.accepts c = true ∧ i < x.length ∧ x.SameShape x1 ∧ x1.cell? i = some c ∧
      ∀ k, k ≠ i → x1.cell? k = x.cell? k := by
  cases c <;> cases x <;>
    simp only [SEXP.store, INTEGER_set, REAL_set, SET_STRING_ELT, SET_VECTOR_ELT] at h <;>
    first
    | (cases h)
    | (obtain ⟨hi, rfl⟩ := ite_ok_eq h
       simp [SEXP.accepts, SEXP.length, SEXP.SameShape, SEXP.cell?, hi, List.getElem?_set]
       intro k hk
       simp [Ne.symm hk])

/-- A store succeeds when the vector takes the kind of cell and is long
enough. -/
theorem store_total {x : SEXP} {i : Nat} {c : Cell} (ha : x.accepts c = true)
    (hi : i < x.length) : ∃ x1, x.store i c = Except.ok x1 := by
  cases c <;> cases x <;>
    simp_all [SEXP.store, INTEGER_set, REAL_set, SET_STRING_ELT, SET_VECTOR_ELT, pure, Except.pure,
      SEXP.accepts, SEXP.length]

end Store


section Decode

theorem bind_congr_ok {α β : Type} (m : Except Fault α) (f g : α → Except Fault β)
    (h : ∀ a, m = Except.ok a → f a = g a) : (m >>= f) = (m >>= g) := by
  cases m with
  | error e => rfl
  | ok a => exact h a rfl

/-- The switch on a scalar type factors into the decoding of the value and the
store of the decoded cell. -/
theorem vectorSetSwitch_eq (rv : Json → Except Fault SEXP) (ty : BqType) (x : SEXP) (i : Nat)
    (v : Json) (y : SEXP) (hy : y = (BqField.mk "" ty false []).vectorInit 1 false) :
    vectorSetSwitch rv ty x i v =
      ((vectorSetSwitch rv ty y 0 v >>= fun z =>
        match z.cell? 0 with
        | some c => pure c
        | none => throw Fault.undefined) >>= fun c => x.store i c) := by
  subst hy
  cases ty <;> simp only [vectorSetSwitch, BqField.vectorInit, BqField.type_] <;>
    first
    | rfl
    | (cases v <;> first | rfl | (simp only [Rf_mkCharLenCE]; split <;> rfl))
    | (cases rv v <;> rfl)

/-- The central factorisation: `vectorSet` decodes the wire value into a cell,
independently of the column and the index, and then stores the cell. -/
theorem vectorSet_eq (self : BqField) (x : SEXP) (i : Nat) (v : Json) (a : Bool) :
    self.vectorSet x i v a = (self.decodeCell v a >>= fun c => x.store i c) := by
  obtain ⟨name, ty, arr, fs⟩ := self
  unfold BqField.decodeCell BqField.vectorSet vectorSetWith
  by_cases hc : (a = true ∧ ty ≠ BqType.BQ_RECORD)
  · simp only [BqField.type_, hc, and_self, ne_eq, not_false_eq_true, if_true]
    cases v <;> try rfl
    simp only [Json.IsArray, Json.elements, BqField.vectorInit, BqField.type_]
    simp only [Bool.true_eq_false, if_false, if_true, pure, Except.pure, bind, Except.bind]
    cases forEachFrom _ 0 _ _ <;> rfl
  · simp only [BqField.type_, hc, if_false]
    have hy : (BqField.mk name ty arr fs).vectorInit 1 a
        = (BqField.mk "" ty false []).vectorInit 1 false := by
      cases a
      · rfl
      · have : ty = BqType.BQ_RECORD := by
          by_contra h
          exact hc ⟨rfl, h⟩
        subst this
        rfl
    exact vectorSetSwitch_eq _ ty x i v _ hy

end Decode


section Rows

theorem setRow_nil (j i : Nat) (f : Json) (out : SEXP) :
    BqField.setRow [] j i f out = Except.ok out := rfl

/-- One step of the field loop, with `vectorSet` factored. -/
theorem setRow_cons (field : BqField) (rest : List BqField) (j i : Nat) (f : Json)
    (a : ListAttr) (cols : List SEXP) :
    BqField.setRow (field :: rest) j i f (SEXP.VECSXP a cols) =
      match cols.get? j with
      | none => Except.error Fault.undefined
      | some x =>
        f.wrapped j >>= fun e => field.decodeCell e field.array_ >>= fun c =>
          x.store i c >>= fun x1 =>
            BqField.setRow rest (j + 1) i f (SEXP.VECSXP a (cols.set j x1)) := by
  rw [BqField.setRow]
  cases hx : cols.get? j with
  | none => rfl
  | some x =>
    have hj : j < cols.length := by
      rw [List.get?_eq_some] at hx
      exact hx.1
    simp only [bind, Except.bind, pure, Except.pure, Json.wrapped]
    cases f.index j with
    | error e => rfl
    | ok w =>
      simp only []
      cases w.member "v" with
      | error e => rfl
      | ok e =>
        simp only []
        have := vectorSet_eq field x i e field.array_
        unfold BqField.vectorSet at this
        rw [this]
        cases field.decodeCell e field.array_ with
        | error e => rfl
        | ok c =>
          simp only [bind, Except.bind]
          cases x.store i c with
          | error e => rfl
          | ok x1 => simp [SET_VECTOR_ELT, hj, pure, Except.pure]

/-- If the field loop returns, it has done `RowDone`. -/
theorem setRow_partial (fields : List BqField) (i : Nat) (f : Json) (a : ListAttr) :
    ∀ (j : Nat) (cols : List SEXP) (out1 : SEXP),
      BqField.setRow fields j i f (SEXP.VECSXP a cols) = Except.ok out1 →
      ∃ cols1, out1 = SEXP.VECSXP a cols1 ∧ RowDone fields j i f cols cols1 := by
  induction fields with
  | nil =>
    intro j cols out1 h
    rw [setRow_nil] at h
    injection h with h
    subst h
    refine ⟨cols, rfl, rfl, ?_, ?_⟩
    · intro m x hx
      exact ⟨x, hx, SameShape_refl x, fun _ _ => rfl⟩
    · intro m fld hm
      simp at hm
  | cons field rest ih =>
    intro j cols out1 h
    rw [setRow_cons] at h
    cases hx : cols.get? j with
    | none => rw [hx] at h; cases h
    | some x =>
      rw [hx] at h
      simp only [] at h
      obtain ⟨e, he, h⟩ := (bind_eq_ok _ _ _).1 h
      obtain ⟨c, hc, h⟩ := (bind_eq_ok _ _ _).1 h
      obtain ⟨x1, hs, h⟩ := (bind_eq_ok _ _ _).1 h
      obtain ⟨cols1, rfl, hlen, hframe, hdec⟩ := ih (j + 1) (cols.set j x1) out1 h
      obtain ⟨_, _, hshape, hci, hck⟩ := store_ok hs
      have hj : j < cols.length := by
        rw [List.get?_eq_some] at hx
        exact hx.1
      refine ⟨cols1, rfl, ?_, ?_, ?_⟩
      · simpa using hlen
      · intro m y hy
        by_cases hmj : m = j
        · subst hmj
          have hy1 : y = x := by
            rw [hx] at hy
            injection hy with hy
            exact hy.symm
          subst hy1
          obtain ⟨x2, hx2, hsh2, hcell2⟩ := hframe m x1 (by simp [hj])
          refine ⟨x2, hx2, SameShape_trans hshape hsh2, ?_⟩
          intro k hk
          rw [hcell2 k (Or.inr (Or.inl (Nat.lt_succ_self m)))]
          rcases hk with hk | hk | hk
          · exact hck k hk
          · exact absurd hk (Nat.lt_irrefl m)
          · simp at hk
        · obtain ⟨x2, hx2, hsh2, hcell2⟩ := hframe m y (by
            simp only [List.get?_eq_getElem?] at hy ⊢
            rw [List.getElem?_set_ne (Ne.symm hmj)]
            exact hy)
          refine ⟨x2, hx2, hsh2, ?_⟩
          intro k hk
          apply hcell2 k
          rcases hk with hk | hk | hk
          · exact Or.inl hk
          · exact Or.inr (Or.inl (by omega))
          · simp at hk
            exact Or.inr (Or.inr (by omega))
      · intro m fld hm
        cases m with
        | zero =>
          simp at hm
          subst hm
          obtain ⟨x2, hx2, hsh2, hcell2⟩ := hframe j x1 (by simp [hj])
          refine ⟨e, c, he, hc, x2, hx2, ?_⟩
          rw [hcell2 i (Or.inr (Or.inl (Nat.lt_succ_self j)))]
          exact hci
        | succ m =>
          obtain ⟨e1, c1, he1, hc1, x2, hx2, hcell⟩ := hdec m fld (by simpa using hm)
          have hidx : j + 1 + m = j + (m + 1) := by omega
          rw [hidx] at he1 hx2
          exact ⟨e1, c1, he1, hc1, x2, hx2, hcell⟩

/-- The field loop returns when every wrapped value is there and decodes, and
every column takes the decoded cell at row `i`. -/
theorem setRow_total (fields : List BqField) (i : Nat) (f : Json) (a : ListAttr) :
    ∀ (j : Nat) (cols : List SEXP),
      (∀ m fld, fields.get? m = some fld → ∃ e c x, f.wrapped (j + m) = Except.ok e ∧
        fld.decodeCell e fld.array_ = Except.ok c ∧ cols.get? (j + m) = some x ∧
        x.accepts c = true ∧ i < x.length) →
      ∃ out1, BqField.setRow fields j i f (SEXP.VECSXP a cols) = Except.ok out1 := by
  induction fields with
  | nil =>
    intro j cols _
    exact ⟨_, setRow_nil _ _ _ _⟩
  | cons field rest ih =>
    intro j cols h
    obtain ⟨e, c, x, he, hc, hx, hacc, hlen⟩ := h 0 field rfl
    simp only [Nat.add_zero] at he hx
    obtain ⟨x1, hs⟩ := store_total hacc hlen
    rw [setRow_cons, hx]
    simp only [he, hc, hs, bind, Except.bind]
    apply ih (j + 1) (cols.set j x1)
    intro m fld hm
    obtain ⟨e1, c1, y, he1, hc1, hy, hacc1, hlen1⟩ := h (m + 1) fld (by simpa using hm)
    have hidx : j + 1 + m = j + (m + 1) := by omega
    refine ⟨e1, c1, y, by rw [hidx]; exact he1, hc1, ?_, hacc1, hlen1⟩
    rw [hidx]
    simp only [List.get?_eq_getElem?] at hy ⊢
    rw [List.getElem?_set_ne (by omega)]
    exact hy

theorem PageInv_zero (getF : Json → Except Fault Json) (fields : List BqField) (offset : Nat)
    (elems : List Json) (cols : List SEXP) : PageInv getF fields offset elems 0 cols cols := by
  refine ⟨rfl, ?_, ?_⟩
  · intro m x hx
    exact ⟨x, hx, SameShape_refl x, fun _ _ => rfl⟩
  · intro r e hr
    omega

/-- One more row keeps the invariant of the row loop. -/
theorem PageInv_step (getF : Json → Except Fault Json) (fields : List BqField) (offset : Nat)
    (elems : List Json) (n : Nat) (cols cols1 cols2 : List SEXP) (e f : Json)
    (he : elems.get? n = some e) (hf : getF e = Except.ok f)
    (hinv : PageInv getF fields offset elems n cols cols1)
    (hrow : RowDone fields 0 (n + offset) f cols1 cols2) :
    PageInv getF fields offset elems (n + 1) cols cols2 := by
  obtain ⟨hlen, hframe, hdec⟩ := hinv
  obtain ⟨rlen, rframe, rdec⟩ := hrow
  refine ⟨by rw [rlen, hlen], ?_, ?_⟩
  · intro m x hx
    obtain ⟨x1, hx1, hsh1, hc1⟩ := hframe m x hx
    obtain ⟨x2, hx2, hsh2, hc2⟩ := rframe m x1 hx1
    refine ⟨x2, hx2, SameShape_trans hsh1 hsh2, ?_⟩
    intro k hk
    rw [hc2 k (by omega), hc1 k (by omega)]
  · intro r e1 hr he1
    by_cases hrn : r = n
    · subst hrn
      rw [he] at he1
      injection he1 with he1
      subst he1
      refine ⟨f, hf, ?_⟩
      intro m fld hm
      obtain ⟨w, c, hw, hc, x1, hx1, hcell⟩ := rdec m fld hm
      simp only [Nat.zero_add] at hw hx1
      exact ⟨w, c, hw, hc, x1, hx1, by rw [Nat.add_comm]; exact hcell⟩
    · obtain ⟨f1, hf1, hall⟩ := hdec r e1 (by omega) he1
      refine ⟨f1, hf1, ?_⟩
      intro m fld hm
      obtain ⟨w, c, hw, hc, x1, hx1, hcell⟩ := hall m fld hm
      obtain ⟨x2, hx2, _, hc2⟩ := rframe m x1 hx1
      refine ⟨w, c, hw, hc, x2, hx2, ?_⟩
      rw [hc2 (offset + r) (Or.inl (by omega))]
      exact hcell

/-- If the row loop returns, it has done `PageDone`. -/
theorem pageLoop_partial (getF : Json → Except Fault Json) (fields : List BqField) (offset : Nat)
    (elems : List Json) (a : ListAttr) (cols : List SEXP) (out1 : SEXP)
    (h : pageLoop getF fields offset elems (SEXP.VECSXP a cols) = Except.ok out1) :
    ∃ cols1, out1 = SEXP.VECSXP a cols1 ∧ PageDone getF fields offset elems cols cols1 := by
  have := forEachFrom_partial
    (fun i e out => getF e >>= fun f => BqField.setRow fields 0 (i + offset) f out)
    (fun n s => ∃ cols1, s = SEXP.VECSXP a cols1 ∧ PageInv getF fields offset elems n cols cols1)
    elems 0 (SEXP.VECSXP a cols) out1 ⟨cols, rfl, PageInv_zero _ _ _ _ _⟩ (by
      intro n e s s1 he hP hb
      obtain ⟨cols1, rfl, hinv⟩ := hP
      obtain ⟨f, hf, hrow⟩ := (bind_eq_ok _ _ _).1 hb
      simp only [Nat.zero_add] at hrow
      obtain ⟨cols2, rfl, hdone⟩ := setRow_partial fields _ f a 0 cols1 s1 hrow
      exact ⟨cols2, rfl, PageInv_step getF fields offset elems n cols cols1 cols2 e f he hf hinv hdone⟩)
    h
  exact this

/-- The row loop returns when every row can be written. -/
theorem pageLoop_total (getF : Json → Except Fault Json) (fields : List BqField) (offset : Nat)
    (elems : List Json) (a : ListAttr) (cols : List SEXP)
    (h : PageReady getF fields offset elems cols) :
    ∃ cols1, pageLoop getF fields offset elems (SEXP.VECSXP a cols) = Except.ok (SEXP.VECSXP a cols1) ∧
      PageDone getF fields offset elems cols cols1 := by
  have := forEachFrom_total
    (fun i e out => getF e >>= fun f => BqField.setRow fields 0 (i + offset) f out)
    (fun _ s => ∃ cols1, s = SEXP.VECSXP a cols1 ∧
      ∀ m x, cols.get? m = some x → ∃ x1, cols1.get? m = some x1 ∧ x.SameShape x1)
    elems 0 (SEXP.VECSXP a cols) ⟨cols, rfl, fun m x hx => ⟨x, hx, SameShape_refl x⟩⟩ (by
      intro n e s he hP
      obtain ⟨cols1, rfl, hshape⟩ := hP
      obtain ⟨f, hf, hall⟩ := h n e he
      obtain ⟨out1, hrow⟩ := setRow_total fields (n + offset) f a 0 cols1 (by
        intro m fld hm
        obtain ⟨w, c, x, hw, hc, hx, hacc, hlen⟩ := hall m fld hm
        obtain ⟨x1, hx1, hsh⟩ := hshape m x hx
        refine ⟨w, c, x1, by simpa using hw, hc, by simpa using hx1, ?_, ?_⟩
        · rw [← SameShape_accepts hsh]
          exact hacc
        · rw [← SameShape_length hsh]
          omega)
      obtain ⟨cols2, rfl, hdone⟩ := setRow_partial fields _ f a 0 cols1 out1 hrow
      refine ⟨_, by simp only [Nat.zero_add, hf, bind, Except.bind]; exact hrow, cols2, rfl, ?_⟩
      intro m x hx
      obtain ⟨x1, hx1, hsh⟩ := hshape m x hx
      obtain ⟨x2, hx2, hsh2, _⟩ := hdone.2.1 m x1 hx1
      exact ⟨x2, hx2, SameShape_trans hsh hsh2⟩)
  obtain ⟨s1, hs1, cols1, rfl, _⟩ := this
  obtain ⟨cols2, heq, hdone⟩ := pageLoop_partial getF fields offset elems a cols _ hs1
  injection heq with _ heq
  subst heq
  exact ⟨cols1, hs1, hdone⟩

end Rows


section Tables

theorem cell?_accepts {x : SEXP} {k : Nat} {c : Cell} (h : x.cell? k = some c) :
    x.accepts c = true := by
  cases x <;> simp only [SEXP.cell?] at h <;>
    first
    | (cases h)
    | (obtain ⟨_, _, rfl⟩ := Option.map_eq_some.1 h; rfl)

theorem vectorInit_accepts (fld : BqField) (n m : Nat) (a : Bool) (c : Cell) :
    (fld.vectorInit n a).accepts c = (fld.vectorInit m a).accepts c := by
  obtain ⟨name, ty, arr, fs⟩ := fld
  cases a <;> cases ty <;> cases c <;> rfl

theorem vectorInit_length (fld : BqField) (n : Nat) (a : Bool) :
    (fld.vectorInit n a).length = n := by
  obtain ⟨name, ty, arr, fs⟩ := fld
  cases a <;> cases ty <;> simp [BqField.vectorInit, BqField.type_, SEXP.length]

/-- A decoded cell is of the kind that the field's columns take. -/
theorem decodeCell_accepts {fld : BqField} {v : Json} {a : Bool} {c : Cell} (n : Nat)
    (h : fld.decodeCell v a = Except.ok c) : (fld.vectorInit n a).accepts c = true := by
  have h1 := h
  unfold BqField.decodeCell at h1
  obtain ⟨x, hx, hm⟩ := (bind_eq_ok _ _ _).1 h1
  rw [vectorSet_eq] at hx
  obtain ⟨c0, _, hs⟩ := (bind_eq_ok _ _ _).1 hx
  obtain ⟨_, _, hshape, _, _⟩ := store_ok hs
  cases hc : x.cell? 0 with
  | none => rw [hc] at hm; cases hm
  | some c1 =>
    rw [hc] at hm
    injection hm with hm
    subst hm
    rw [vectorInit_accepts fld n 1 a, SameShape_accepts hshape]
    exact cell?_accepts hc

/-- The decoding of a wire value by a non-repeated scalar field is the scalar
decoding of the value by the type of the field. -/
theorem decodeCell_scalar (fld : BqField) (v : Json) (h : fld.type_ ≠ BqType.BQ_RECORD) :
    scalarCell fld.type_ v = some (fld.decodeCell v false) := by
  obtain ⟨name, ty, arr, fs⟩ := fld
  unfold BqField.decodeCell BqField.vectorSet vectorSetWith
  simp only [Bool.false_eq_true, false_and, if_false]
  cases ty <;> simp only [BqField.type_] at h ⊢ <;>
    first
    | exact absurd rfl h
    | (cases v <;> first
        | rfl
        | (simp only [scalarCell, vectorSetSwitch, BqField.vectorInit, BqField.type_, Rf_mkCharLenCE]
           split <;> rfl)
        | (simp only [scalarCell, vectorSetSwitch, BqField.vectorInit, BqField.type_, fmtTime,
             fmtDateTime]
           split <;> rfl))

theorem scalarCell_ok (ty : BqType) (v : Json) (h : ty ≠ BqType.BQ_RECORD)
    (hn : ty = BqType.BQ_STRING → v.hasNul = false) :
    ∃ c, scalarCell ty v = some (Except.ok c) := by
  cases ty <;>
    first
    | exact absurd rfl h
    | (cases v <;> first
        | exact ⟨_, rfl⟩
        | (simp only [scalarCell]
           split <;> exact ⟨_, rfl⟩)
        | (have h1 := hn rfl
           simp only [Json.hasNul, decide_eq_false_iff_not] at h1
           simp only [scalarCell, h1, if_false]
           exact ⟨_, rfl⟩))

/-- A non-repeated scalar field decodes every wire value, a text with a NUL
character under the type `STRING` apart. -/
theorem decodeCell_scalar_ok (fld : BqField) (v : Json) (h : fld.type_ ≠ BqType.BQ_RECORD)
    (hn : fld.type_ = BqType.BQ_STRING → v.hasNul = false) :
    ∃ c, fld.decodeCell v false = Except.ok c ∧ scalarCell fld.type_ v = some (Except.ok c) := by
  obtain ⟨c, hc⟩ := scalarCell_ok fld.type_ v h hn
  have hd := decodeCell_scalar fld v h
  rw [hc] at hd
  exact ⟨c, (Option.some.inj hd).symm, hc⟩

/-- A page that decodes can be written at `offset` into a table that fits the
schema and has room for it. -/
theorem PageReady_of (getF : Json → Except Fault Json) (fields : List BqField) (offset n : Nat)
    (elems : List Json) (cols : List SEXP) (hd : PageDecodes getF fields elems)
    (ht : TableFor fields n cols) (hn : offset + elems.length ≤ n) :
    PageReady getF fields offset elems cols := by
  intro r e he
  obtain ⟨f, hf, hall⟩ := hd r e he
  refine ⟨f, hf, ?_⟩
  intro m fld hm
  obtain ⟨w, c, hw, hc⟩ := hall m fld hm
  obtain ⟨x, hx, hsh⟩ := ht m fld hm
  have hr : r < elems.length := by
    rw [List.get?_eq_some] at he
    exact he.1
  refine ⟨w, c, x, hw, hc, hx, ?_, ?_⟩
  · rw [← SameShape_accepts hsh]
    exact decodeCell_accepts n hc
  · rw [← SameShape_length hsh]
    unfold BqField.vectorInitOwn
    rw [vectorInit_length]
    omega

/-- A page that was written decodes. -/
theorem PageDecodes_of (getF : Json → Except Fault Json) (fields : List BqField) (offset : Nat)
    (elems : List Json) (cols cols1 : List SEXP)
    (h : PageDone getF fields offset elems cols cols1) : PageDecodes getF fields elems := by
  intro r e he
  have hr : r < elems.length := by
    rw [List.get?_eq_some] at he
    exact he.1
  obtain ⟨f, hf, hall⟩ := h.2.2 r e hr he
  refine ⟨f, hf, ?_⟩
  intro m fld hm
  obtain ⟨w, c, hw, hc, _⟩ := hall m fld hm
  exact ⟨w, c, hw, hc⟩

/-- Writing keeps the fit of a table to a schema. -/
theorem TableFor_of (getF : Json → Except Fault Json) (fields : List BqField) (offset n : Nat)
    (elems : List Json) (cols cols1 : List SEXP) (ht : TableFor fields n cols)
    (h : PageDone getF fields offset elems cols cols1) : TableFor fields n cols1 := by
  intro m fld hm
  obtain ⟨x, hx, hsh⟩ := ht m fld hm
  obtain ⟨x1, hx1, hsh1, _⟩ := h.2.1 m x hx
  exact ⟨x1, hx1, SameShape_trans hsh hsh1⟩

theorem TableFor_init (fields : List BqField) (n : Nat) :
    TableFor fields n (fields.map (fun field => field.vectorInitOwn n)) := by
  intro m fld hm
  refine ⟨fld.vectorInitOwn n, ?_, SameShape_refl _⟩
  simp only [List.get?_eq_getElem?, List.getElem?_map] at hm ⊢
  rw [hm]
  rfl

/-- The source's `bq_fields_set` is the row loop over the rows of the page. -/
theorem bq_fields_set_eq (data : Json) (out : SEXP) (fields : List BqField) (offset : Nat) :
    bq_fields_set data out fields offset =
      (data.rows >>= fun elems => pageLoop rowF fields offset elems out >>= fun out1 =>
        pure (elems.length, out1)) := by
  unfold bq_fields_set Json.rows
  cases data.HasMember "rows" with
  | error e => rfl
  | ok b =>
    cases b with
    | true =>
      simp only [bind, Except.bind, Bool.true_eq_false, if_false]
      cases data.member "rows" with
      | error e => rfl
      | ok rows =>
        simp only []
        cases rows.elements with
        | error e => rfl
        | ok elems => rfl
    | false => rfl

theorem bq_fields_set_partial {data : Json} {fields : List BqField} {offset n : Nat}
    {a : ListAttr} {cols : List SEXP} {out1 : SEXP}
    (h : bq_fields_set data (SEXP.VECSXP a cols) fields offset = Except.ok (n, out1)) :
    ∃ elems cols1, data.rows = Except.ok elems ∧ n = elems.length ∧
      out1 = SEXP.VECSXP a cols1 ∧ PageDone rowF fields offset elems cols cols1 := by
  rw [bq_fields_set_eq] at h
  obtain ⟨elems, he, h⟩ := (bind_eq_ok _ _ _).1 h
  obtain ⟨out2, hl, h⟩ := (bind_eq_ok _ _ _).1 h
  injection h with h
  injection h with h1 h2
  subst h1 h2
  obtain ⟨cols1, rfl, hdone⟩ := pageLoop_partial _ _ _ _ _ _ _ hl
  exact ⟨elems, cols1, he, rfl, rfl, hdone⟩

theorem bq_fields_set_total {data : Json} {fields : List BqField} {offset : Nat}
    {a : ListAttr} {cols : List SEXP} {elems : List Json} (he : data.rows = Except.ok elems)
    (h : PageReady rowF fields offset elems cols) :
    ∃ cols1, bq_fields_set data (SEXP.VECSXP a cols) fields offset
        = Except.ok (elems.length, SEXP.VECSXP a cols1) ∧
      PageDone rowF fields offset elems cols cols1 := by
  obtain ⟨cols1, hl, hdone⟩ := pageLoop_total rowF fields offset elems a cols h
  refine ⟨cols1, ?_, hdone⟩
  rw [bq_fields_set_eq, he]
  simp only [bind, Except.bind, hl]
  rfl

end Tables


section Claims

theorem at?_mk (a : ListAttr) (cols : List SEXP) (j i : Nat) (x : SEXP)
    (h : cols.get? j = some x) : (SEXP.VECSXP a cols).at? j i = x.cell? i := by
  simp only [SEXP.at?, SEXP.columns, h]

theorem get?_isSome_of_lt {α : Type} (xs : List α) (j : Nat) (h : j < xs.length) :
    ∃ x, xs.get? j = some x :=
  ⟨xs.get ⟨j, h⟩, List.get?_eq_get h⟩

/-- C2. Two pages written one after the other into a table allocated for
both: when page `A` of `a` rows and page `B` of `b` rows each decode alone,
writing `A` at offset `0` and then `B` at offset `a` into the table that
`bq_fields_init` allocates for `a + b` rows returns `a` and `b`, the table
keeps the attributes of the allocation and one column per field, every column
has `a + b` rows, rows `0 .. a - 1` hold the cells of `A` decoded alone and
rows `a .. a + b - 1` hold the cells of `B` decoded alone. -/
theorem bq_fields_set_pages (fields : List BqField) (A B : Json) (a b : Nat) (TA TB : SEXP)
    (hA : bq_fields_set A (bq_fields_init fields a) fields 0 = Except.ok (a, TA))
    (hB : bq_fields_set B (bq_fields_init fields b) fields 0 = Except.ok (b, TB)) :
    ∃ T1 T, bq_fields_set A (bq_fields_init fields (a + b)) fields 0 = Except.ok (a, T1) ∧
      bq_fields_set B T1 fields a = Except.ok (b, T) ∧
      T.attrib = (bq_fields_init fields (a + b)).attrib ∧
      T.columns.length = fields.length ∧
      (∀ j col, T.columns.get? j = some col → col.length = a + b) ∧
      (∀ j i, j < fields.length → i < a → ∃ c, TA.at? j i = some c ∧ T.at? j i = some c) ∧
      (∀ j i, j < fields.length → i < b → ∃ c, TB.at? j i = some c ∧ T.at? j (a + i) = some c) := by
  unfold bq_fields_init at hA hB ⊢
  obtain ⟨elemsA, colsA, hrA, rfl, rfl, doneA⟩ := bq_fields_set_partial hA
  obtain ⟨elemsB, colsB, hrB, rfl, rfl, doneB⟩ := bq_fields_set_partial hB
  have hdA := PageDecodes_of _ _ _ _ _ _ doneA
  have hdB := PageDecodes_of _ _ _ _ _ _ doneB
  obtain ⟨cols1, h1, done1⟩ := bq_fields_set_total hrA
    (PageReady_of rowF fields 0 (elemsA.length + elemsB.length) elemsA _ hdA
      (TableFor_init fields _) (by omega))
  have tf1 := TableFor_of _ _ _ _ _ _ _ (TableFor_init fields _) done1
  obtain ⟨cols2, h2, done2⟩ := bq_fields_set_total hrB
    (PageReady_of rowF fields elemsA.length (elemsA.length + elemsB.length) elemsB cols1 hdB
      tf1 (by omega))
  have tf2 := TableFor_of _ _ _ _ _ _ _ tf1 done2
  have hlen2 : cols2.length = fields.length := by
    rw [done2.1, done1.1, List.length_map]
  refine ⟨_, _, h1, h2, rfl, hlen2, ?_, ?_, ?_⟩
  · intro j col hcol
    have hj : j < fields.length := by
      rw [← hlen2]
      simp only [SEXP.columns] at hcol
      rw [List.get?_eq_some] at hcol
      exact hcol.1
    obtain ⟨fld, hfld⟩ := get?_isSome_of_lt fields j hj
    obtain ⟨x, hx, hsh⟩ := tf2 j fld hfld
    simp only [SEXP.columns] at hcol
    rw [hx] at hcol
    injection hcol with hcol
    subst hcol
    rw [← SameShape_length hsh]
    exact vectorInit_length _ _ _
  · intro j i hj hi
    obtain ⟨fld, hfld⟩ := get?_isSome_of_lt fields j hj
    obtain ⟨e, he⟩ := get?_isSome_of_lt elemsA i hi
    obtain ⟨f, hf, hall⟩ := doneA.2.2 i e hi he
    obtain ⟨w, c, hw, hc, x, hx, hcell⟩ := hall j fld hfld
    obtain ⟨f1, hf1, hall1⟩ := done1.2.2 i e hi he
    obtain ⟨w1, c1, hw1, hc1, x1, hx1, hcell1⟩ := hall1 j fld hfld
    rw [hf] at hf1
    injection hf1 with hf1
    subst hf1
    rw [hw] at hw1
    injection hw1 with hw1
    subst hw1
    rw [hc] at hc1
    injection hc1 with hc1
    subst hc1
    obtain ⟨x2, hx2, _, hframe2⟩ := done2.2.1 j x1 hx1
    simp only [Nat.zero_add] at hcell hcell1
    refine ⟨c, ?_, ?_⟩
    · rw [at?_mk _ _ _ _ _ hx]
      exact hcell
    · rw [at?_mk _ _ _ _ _ hx2, hframe2 i (Or.inl hi)]
      exact hcell1
  · intro j i hj hi
    obtain ⟨fld, hfld⟩ := get?_isSome_of_lt fields j hj
    obtain ⟨e, he⟩ := get?_isSome_of_lt elemsB i hi
    obtain ⟨f, hf, hall⟩ := doneB.2.2 i e hi he
    obtain ⟨w, c, hw, hc, x, hx, hcell⟩ := hall j fld hfld
    obtain ⟨f1, hf1, hall1⟩ := done2.2.2 i e hi he
    obtain ⟨w1, c1, hw1, hc1, x1, hx1, hcell1⟩ := hall1 j fld hfld
    rw [hf] at hf1
    injection hf1 with hf1
    subst hf1
    rw [hw] at hw1
    injection hw1 with hw1
    subst hw1
    rw [hc] at hc1
    injection hc1 with hc1
    subst hc1
    simp only [Nat.zero_add] at hcell
    refine ⟨c, ?_, ?_⟩
    · rw [at?_mk _ _ _ _ _ hx]
      exact hcell
    · rw [at?_mk _ _ _ _ _ hx1]
      exact hcell1

theorem TableFor_x (n : Nat) (xs : List Int) (h : xs.length = n) :
    TableFor [field_x] n [SEXP.INTSXP xs] := by
  intro m fld hm
  cases m with
  | zero =>
    simp only [List.get?_cons_zero, Option.some.injEq] at hm
    subst hm
    refine ⟨_, rfl, ?_⟩
    simp [BqField.vectorInitOwn, BqField.vectorInit, field_x, BqField.type_, BqField.array_,
      SEXP.SameShape, h]
  | succ m => simp at hm

/-- A two-row page at offset `0` and a three-row page at offset `2` in a
five-row table. -/
theorem bq_fields_set_pages_witness :
    bq_fields_set page_A (bq_fields_init [field_x] 2) [field_x] 0
      = Except.ok (2, SEXP.VECSXP (attr_x 2) [SEXP.INTSXP [1, 2]]) ∧
    bq_fields_set page_B (bq_fields_init [field_x] 3) [field_x] 0
      = Except.ok (3, SEXP.VECSXP (attr_x 3) [SEXP.INTSXP [3, NA_INTEGER, 5]]) ∧
    bq_fields_set page_B (SEXP.VECSXP (attr_x 5) [SEXP.INTSXP [1, 2, 0, 0, 0]]) [field_x] 2
      = Except.ok (3, SEXP.VECSXP (attr_x 5) [SEXP.INTSXP [1, 2, 3, NA_INTEGER, 5]]) ∧
    ∃ T1 T, bq_fields_set page_A (bq_fields_init [field_x] (2 + 3)) [field_x] 0
        = Except.ok (2, T1) ∧
      bq_fields_set page_B T1 [field_x] 2 = Except.ok (3, T) ∧
      T.attrib = (bq_fields_init [field_x] (2 + 3)).attrib ∧
      T.columns.length = [field_x].length ∧
      (∀ j col, T.columns.get? j = some col → col.length = 2 + 3) ∧
      (∀ j i, j < [field_x].length → i < 2 →
        ∃ c, (SEXP.VECSXP (attr_x 2) [SEXP.INTSXP [1, 2]]).at? j i = some c ∧ T.at? j i = some c) ∧
      (∀ j i, j < [field_x].length → i < 3 →
        ∃ c, (SEXP.VECSXP (attr_x 3) [SEXP.INTSXP [3, NA_INTEGER, 5]]).at? j i = some c ∧
          T.at? j (2 + i) = some c) :=
  ⟨rfl, rfl, rfl, bq_fields_set_pages [field_x] page_A page_B 2 3 _ _ rfl rfl⟩

/-- The repeated branch of `recordValue` is the row loop over the structs. -/
theorem recordValue_repeated_eq (name : String) (ty : BqType) (fs : List BqField) (v : Json) :
    (BqField.mk name ty true fs).recordValue v
      = pageLoop structF fs 0 v.structs (nestedInit fs v.structs.length) := by
  have key : ∀ elems : List Json,
      (if elems.length = 0 then
        (pure (nestedInit fs elems.length) : Except Fault SEXP)
      else
        forEachFrom (fun i e out => do
          let f ← (← e.member "v").member "f"
          if f.IsArray = false then throw (Fault.stop "Not an array [3]")
          else BqField.setRow fs 0 i f out) 0 elems (nestedInit fs elems.length))
        = pageLoop structF fs 0 elems (nestedInit fs elems.length) := by
    intro elems
    by_cases hn : elems.length = 0
    · rw [if_pos hn]
      have : elems = [] := List.length_eq_zero.1 hn
      rw [this]
      rfl
    · rw [if_neg hn]
      unfold pageLoop
      congr 1
      funext i e out
      unfold structF
      simp only [bind, Except.bind, Nat.add_zero]
      cases e.member "v" with
      | error err => rfl
      | ok ev =>
        simp only []
        cases ev.member "f" with
        | error err => rfl
        | ok f =>
          simp only []
          cases hf : f.IsArray <;> simp [pure, Except.pure, throw, throwThe, MonadExceptOf.throw]
  cases v <;> rw [BqField.recordValue] <;>
    first
    | (intro xs h; cases h)
    | (simp only [Bool.true_eq_false, if_false]; first | exact key [] | exact key _)

/-- A page that the row loop wrote decodes. -/
theorem PageDecodes_of_loop {getF : Json → Except Fault Json} {fields : List BqField}
    {offset : Nat} {elems : List Json} {a : ListAttr} {cols : List SEXP} {out1 : SEXP}
    (h : pageLoop getF fields offset elems (SEXP.VECSXP a cols) = Except.ok out1) :
    PageDecodes getF fields elems := by
  obtain ⟨cols1, _, hdone⟩ := pageLoop_partial _ _ _ _ _ _ _ h
  exact PageDecodes_of _ _ _ _ _ _ hdone

/-- A repeated Record field that decodes a single struct, as the non-repeated
branch of `recordValue` makes it do for each element of a repeated child:
whatever the struct holds, the cell stored is the nested table of zero rows. -/
theorem vectorSet_struct_of_repeated_record (child : BqField) (w : Json) (col : SEXP) (k : Nat)
    (hrep : child.array_ = true) (hty : child.type_ = BqType.BQ_RECORD)
    (hw : w.IsArray = false) :
    child.vectorSet col k w false = SET_VECTOR_ELT col k (nestedInit child.fields_ 0) := by
  obtain ⟨name, ty, arr, fs⟩ := child
  simp only [BqField.array_] at hrep
  simp only [BqField.type_] at hty
  subst hrep hty
  unfold BqField.vectorSet vectorSetWith
  simp only [Bool.false_eq_true, false_and, if_false, BqField.type_, vectorSetSwitch]
  rw [recordValue_repeated_eq]
  have : w.structs = [] := by
    cases w <;> first | rfl | cases hw
  rw [this]
  rfl

/-- C7. A repeated Record child inside a non-repeated Record: `recordValue`
hands each struct of the child's array to the child's own `recordValue`, which
takes its repeated branch, finds no array and returns the nested table of zero
rows.  The column stored for the child has one entry per struct, and every
entry is that empty table: the values `1` and `2` of the structs are not in
the result.  The same structs decoded by the non-repeated record give the
nested rows `x = 1` and `x = 2`. -/
theorem recordValue_nested_repeated_record :
    record_outer.recordValue struct_outer
      = Except.ok (SEXP.VECSXP ⟨some ["c"], none, none⟩
          [SEXP.VECSXP noAttr [nestedInit [field_x] 0, nestedInit [field_x] 0]]) ∧
    nestedInit [field_x] 0 = SEXP.VECSXP (attr_x 0) [SEXP.INTSXP []] ∧
    (record_x false).recordValue (rowOf [Json.string "1"])
      = Except.ok (SEXP.VECSXP ⟨some ["x"], none, none⟩ [SEXP.INTSXP [1]]) ∧
    (record_x false).recordValue (rowOf [Json.string "2"])
      = Except.ok (SEXP.VECSXP ⟨some ["x"], none, none⟩ [SEXP.INTSXP [2]]) :=
  ⟨rfl, rfl, rfl, rfl⟩

/-- C8, as stated, fails: the record with the integer child `x` decodes a null
node to a list whose only cell is `NULL` under the empty name; there is no
cell named `x` that holds `NA_INTEGER`. -/
theorem recordValue_not_object_counterexample :
    (record_x false).recordValue Json.null
      = Except.ok (SEXP.VECSXP ⟨some [""], none, none⟩ [SEXP.NULL]) ∧
    ¬ ∃ a cols col, (record_x false).recordValue Json.null = Except.ok (SEXP.VECSXP a cols) ∧
        a.names = some ["x"] ∧ cols.get? 0 = some col ∧
        col.cell? 0 = some BqType.BQ_INTEGER.null := by
  refine ⟨rfl, ?_⟩
  rintro ⟨a, cols, col, h, hn, _, _⟩
  have h1 : (record_x false).recordValue Json.null
      = Except.ok (SEXP.VECSXP ⟨some [""], none, none⟩ [SEXP.NULL]) := rfl
  rw [h1] at h
  injection h with h
  injection h with ha _
  subst ha
  simp at hn

/-- C8, amended. A non-repeated Record field and a wire node that is not an
object: `recordValue` raises no error and returns a generic vector with one
cell per child field, every cell `NULL` and every name the empty string. -/
theorem recordValue_not_object (fld : BqField) (v : Json) (hrep : fld.array_ = false)
    (hv : v.IsObject = false) :
    fld.recordValue v
      = Except.ok (SEXP.VECSXP ⟨some (List.replicate fld.fields_.length ""), none, none⟩
          (List.replicate fld.fields_.length SEXP.NULL)) ∧
    ∀ (x : SEXP) (i : Nat), fld.type_ = BqType.BQ_RECORD →
      fld.vectorSetOwn x i v
        = SET_VECTOR_ELT x i (SEXP.VECSXP ⟨some (List.replicate fld.fields_.length ""), none, none⟩
            (List.replicate fld.fields_.length SEXP.NULL)) := by
  obtain ⟨name, ty, arr, fs⟩ := fld
  simp only [BqField.array_] at hrep
  subst hrep
  have h1 : (BqField.mk name ty false fs).recordValue v
      = Except.ok (SEXP.VECSXP ⟨some (List.replicate fs.length ""), none, none⟩
          (List.replicate fs.length SEXP.NULL)) := by
    cases v <;>
      first
      | (rw [BqField.recordValue] <;> first | rfl | (intro xs h; cases h))
      | cases hv
  refine ⟨h1, ?_⟩
  intro x i hty
  simp only [BqField.type_] at hty
  subst hty
  unfold BqField.vectorSetOwn BqField.vectorSet vectorSetWith
  simp only [BqField.type_, BqField.array_, ne_eq, not_true_eq_false, and_false, if_false,
    vectorSetSwitch, BqField.fields_]
  rw [h1]
  rfl

/-- The record with the children of `record_ab`, not repeated, on a null
node. -/
theorem recordValue_not_object_witness :
    (BqField.mk "r" BqType.BQ_RECORD false record_ab.fields_).recordValue Json.null
      = Except.ok (SEXP.VECSXP ⟨some ["", ""], none, none⟩ [SEXP.NULL, SEXP.NULL]) ∧
    ((BqField.mk "r" BqType.BQ_RECORD false record_ab.fields_).recordValue Json.null
      = Except.ok (SEXP.VECSXP ⟨some (List.replicate
            (BqField.mk "r" BqType.BQ_RECORD false record_ab.fields_).fields_.length ""), none, none⟩
          (List.replicate (BqField.mk "r" BqType.BQ_RECORD false record_ab.fields_).fields_.length
            SEXP.NULL)) ∧
    ∀ (x : SEXP) (i : Nat),
      (BqField.mk "r" BqType.BQ_RECORD false record_ab.fields_).type_ = BqType.BQ_RECORD →
      (BqField.mk "r" BqType.BQ_RECORD false record_ab.fields_).vectorSetOwn x i Json.null
        = SET_VECTOR_ELT x i (SEXP.VECSXP ⟨some (List.replicate
              (BqField.mk "r" BqType.BQ_RECORD false record_ab.fields_).fields_.length ""), none, none⟩
            (List.replicate (BqField.mk "r" BqType.BQ_RECORD false record_ab.fields_).fields_.length
              SEXP.NULL))) :=
  ⟨rfl, recordValue_not_object (BqField.mk "r" BqType.BQ_RECORD false record_ab.fields_) Json.null
    rfl rfl⟩

theorem parse_bq_type_known (t : String) :
    SchemaOutcome (knownType t) (parse_bq_type t) := by
  constructor
  · intro hk
    unfold knownType at hk
    simp only [Bool.or_eq_true, decide_eq_true_eq] at hk
    rcases hk with ((((((((h | h) | h) | h) | h) | h) | h) | h) | h) <;> subst h <;> exact ⟨_, rfl⟩
  · intro hk
    refine ⟨t, hk, ?_⟩
    unfold knownType at hk
    simp only [Bool.or_eq_false_iff, decide_eq_false_iff_not] at hk
    obtain ⟨⟨⟨⟨⟨⟨⟨⟨h1, h2⟩, h3⟩, h4⟩, h5⟩, h6⟩, h7⟩, h8⟩, h9⟩ := hk
    unfold parse_bq_type
    simp only [h1, h2, h3, h4, h5, h6, h7, h8, h9, if_false]
    rfl

theorem isText_some {o : Option Json} (h : isText o = true) : ∃ s, o = some (Json.string s) := by
  cases o with
  | none => cases h
  | some v => cases v <;> first | exact ⟨_, rfl⟩ | cases h

theorem fieldNodeOk_object (ms : List (String × Json)) :
    fieldNodeOk (Json.object ms) =
      (isText (Json.findMember "name" ms) && isText (Json.findMember "mode" ms) &&
        isText (Json.findMember "type" ms) && childNodesOk ms) := rfl

theorem fieldNodeOk_isObject {v : Json} (h : fieldNodeOk v = true) : ∃ ms, v = Json.object ms := by
  cases v <;> first | exact ⟨_, rfl⟩ | cases h

theorem childNodesOk_cons (k : String) (v : Json) (rest : List (String × Json)) :
    childNodesOk ((k, v) :: rest) =
      if k = "fields" then
        match v with
        | Json.array xs => nodesOk xs
        | _ => false
      else childNodesOk rest := by
  cases v <;> rfl

theorem typesKnown_object (ms : List (String × Json)) :
    typesKnown (Json.object ms) =
      ((match Json.findMember "type" ms with
        | some (Json.string t) => knownType (std_string t)
        | _ => true) && typesKnownChildren ms) := rfl

theorem typesKnownChildren_cons (k : String) (v : Json) (rest : List (String × Json)) :
    typesKnownChildren ((k, v) :: rest) =
      if k = "fields" then
        match v with
        | Json.array xs => typesKnownNodes xs
        | _ => true
      else typesKnownChildren rest := by
  cases v <;> rfl

theorem ofMembers_cons (k : String) (v : Json) (rest : List (String × Json)) :
    BqField.ofMembers ((k, v) :: rest) =
      if k = "fields" then
        match v with
        | Json.array xs => BqField.ofElements xs
        | _ => throw Fault.undefined
      else BqField.ofMembers rest := by
  cases v <;> rfl

theorem ofValue_object (ms : List (String × Json)) :
    BqField.ofValue (Json.object ms) = (do
      let name_ := std_string (← (← (Json.object ms).member "name").GetString)
      let mode := std_string (← (← (Json.object ms).member "mode").GetString)
      let array_ := decide (mode = "REPEATED")
      let type_ ← parse_bq_type (std_string (← (← (Json.object ms).member "type").GetString))
      let fields_ ← BqField.ofMembers ms
      pure (BqField.mk name_ type_ array_ fields_)) := rfl

mutual
/-- The constructor of `BqField` on a well-formed field node. -/
theorem ofValue_outcome : ∀ (node : Json), fieldNodeOk node = true →
    SchemaOutcome (typesKnown node) (BqField.ofValue node)
  | Json.object ms, h => by
    rw [fieldNodeOk_object] at h
    simp only [Bool.and_eq_true] at h
    obtain ⟨⟨⟨hn, hm⟩, ht⟩, hc⟩ := h
    obtain ⟨n, hn⟩ := isText_some hn
    obtain ⟨m, hm⟩ := isText_some hm
    obtain ⟨t, ht⟩ := isText_some ht
    have ih := ofMembers_outcome ms hc
    have hp := parse_bq_type_known (std_string t)
    rw [typesKnown_object, ofValue_object]
    simp only [Json.member, hn, hm, ht, Json.GetString, bind, Except.bind, pure, Except.pure]
    cases hk : knownType (std_string t) with
    | false =>
      obtain ⟨t1, ht1, hp1⟩ := hp.2 hk
      rw [hp1]
      exact ⟨by simp, fun _ => ⟨t1, ht1, rfl⟩⟩
    | true =>
      obtain ⟨ty, hp1⟩ := hp.1 hk
      rw [hp1]
      simp only [Bool.true_and]
      cases hkc : typesKnownChildren ms with
      | false =>
        obtain ⟨t1, ht1, hr⟩ := ih.2 hkc
        rw [hr]
        exact ⟨by simp, fun _ => ⟨t1, ht1, rfl⟩⟩
      | true =>
        obtain ⟨fs, hr⟩ := ih.1 hkc
        rw [hr]
        exact ⟨fun _ => ⟨_, rfl⟩, by simp⟩
  | Json.null, h => by cases h
  | Json.bool _, h => by cases h
  | Json.number _, h => by cases h
  | Json.string _, h => by cases h
  | Json.array _, h => by cases h
/-- The children of a well-formed field node. -/
theorem ofMembers_outcome : ∀ (ms : List (String × Json)), childNodesOk ms = true →
    SchemaOutcome (typesKnownChildren ms) (BqField.ofMembers ms)
  | [], _ => ⟨fun _ => ⟨_, rfl⟩, fun h => by cases h⟩
  | (k, v) :: rest, h => by
    rw [childNodesOk_cons] at h
    rw [typesKnownChildren_cons, ofMembers_cons]
    by_cases hk : k = "fields"
    · simp only [hk, if_true] at h ⊢
      cases v with
      | array xs => exact ofElements_outcome xs h
      | null => cases h
      | bool _ => cases h
      | number _ => cases h
      | string _ => cases h
      | object _ => cases h
    · simp only [hk, if_false] at h ⊢
      exact ofMembers_outcome rest h
/-- A list of well-formed field nodes. -/
theorem ofElements_outcome : ∀ (xs : List Json), nodesOk xs = true →
    SchemaOutcome (typesKnownNodes xs) (BqField.ofElements xs)
  | [], _ => ⟨fun _ => ⟨_, rfl⟩, fun h => by cases h⟩
  | x :: xs, h => by
    have h1 : fieldNodeOk x = true ∧ nodesOk xs = true := by
      have : (fieldNodeOk x && nodesOk xs) = true := h
      simpa using this
    have ihx := ofValue_outcome x h1.1
    have ihxs := ofElements_outcome xs h1.2
    have e1 : typesKnownNodes (x :: xs) = (typesKnown x && typesKnownNodes xs) := rfl
    have e2 : BqField.ofElements (x :: xs) = (BqField.ofValue x >>= fun b =>
        BqField.ofElements xs >>= fun bs => pure (b :: bs)) := rfl
    rw [e1, e2]
    simp only [bind, Except.bind, pure, Except.pure]
    cases hk : typesKnown x with
    | false =>
      obtain ⟨t1, ht1, hr⟩ := ihx.2 hk
      rw [hr]
      exact ⟨by simp, fun _ => ⟨t1, ht1, rfl⟩⟩
    | true =>
      obtain ⟨b, hr⟩ := ihx.1 hk
      rw [hr]
      simp only [Bool.true_and]
      cases hks : typesKnownNodes xs with
      | false =>
        obtain ⟨t1, ht1, hr1⟩ := ihxs.2 hks
        rw [hr1]
        exact ⟨by simp, fun _ => ⟨t1, ht1, rfl⟩⟩
      | true =>
        obtain ⟨bs, hr1⟩ := ihxs.1 hks
        rw [hr1]
        exact ⟨fun _ => ⟨_, rfl⟩, by simp⟩
end

theorem bq_fields_parse_eq (meta_d : Json) :
    bq_fields_parse meta_d = (schemaNodes meta_d >>= fun nodes => BqField.ofElements nodes) := by
  unfold bq_fields_parse schemaNodes
  simp only [bind, Except.bind]
  cases meta_d.member "schema" with
  | error e => rfl
  | ok s =>
    simp only []
    cases s.member "fields" with
    | error e => rfl
    | ok f => rfl

/-- C9, as stated, fails: the type string `INTEGER`, NUL, `x` is not one of
the nine, and the schema whose only field has it parses to the field
`x: INTEGER`; `bq_parse` returns the table with `x = 42` for the page with the
row `42`.  The source reads the type string through `GetString()` into a
`std::string`, which ends at the first NUL. -/
theorem schema_type_nul_counterexample :
    knownType "INTEGER\x00x" = false ∧
    typesKnownNodes [fieldNode "x" "INTEGER\x00x" "NULLABLE"] = true ∧
    bq_fields_parse schema_nul = Except.ok [field_x] ∧
    bq_parse schema_nul page_42 = Except.ok (SEXP.VECSXP (attr_x 1) [SEXP.INTSXP [42]]) :=
  ⟨by decide, rfl, rfl, rfl⟩

/-- C9, amended. Schema parsing and type strings, each type string taken up
to its first NUL character.  For a schema document of well-formed field nodes:
when some field, at any nesting depth, has a type string that is not one of
the nine, `bq_fields_parse` fails with the error `Unknown type` for an unknown
type string and returns no schema, and `bq_parse` fails with the same error
for every data document, before `bq_fields_init` is reached; when every type
string is one of the nine, `bq_fields_parse` returns a schema. -/
theorem bq_fields_parse_types (meta_d : Json) (nodes : List Json)
    (hm : schemaNodes meta_d = Except.ok nodes) (hok : nodesOk nodes = true) :
    (typesKnownNodes nodes = false →
      ∃ t, knownType t = false ∧
        bq_fields_parse meta_d = Except.error (Fault.stop ("Unknown type " ++ t)) ∧
        ∀ data, bq_parse meta_d data = Except.error (Fault.stop ("Unknown type " ++ t))) ∧
    (typesKnownNodes nodes = true → ∃ fields, bq_fields_parse meta_d = Except.ok fields) := by
  have h := ofElements_outcome nodes hok
  have heq : bq_fields_parse meta_d = BqField.ofElements nodes := by
    rw [bq_fields_parse_eq, hm]
    rfl
  constructor
  · intro hk
    obtain ⟨t, ht, hr⟩ := h.2 hk
    refine ⟨t, ht, by rw [heq, hr], ?_⟩
    intro data
    unfold bq_parse
    rw [heq, hr]
    rfl
  · intro hk
    obtain ⟨fields, hr⟩ := h.1 hk
    exact ⟨fields, by rw [heq, hr]⟩

section Structural

/-- A loop that fails has a pass that fails. -/
theorem forEachFrom_error {α σ : Type} (body : Nat → α → σ → Except Fault σ) :
    ∀ (xs : List α) (i : Nat) (s : σ) (e : Fault), forEachFrom body i xs s = Except.error e →
      ∃ k a s1, xs.get? k = some a ∧ body (i + k) a s1 = Except.error e := by
  intro xs
  induction xs with
  | nil => intro i s e h; cases h
  | cons a rest ih =>
    intro i s e h
    rw [forEachFrom_cons] at h
    cases hb : body i a s with
    | error e1 =>
      rw [hb] at h
      injection h with h
      subst h
      exact ⟨0, a, s, rfl, hb⟩
    | ok s1 =>
      rw [hb] at h
      obtain ⟨k, b, s2, hk, hbk⟩ := ih (i + 1) s1 e h
      refine ⟨k + 1, b, s2, by simpa using hk, ?_⟩
      have : i + (k + 1) = i + 1 + k := by omega
      rw [this]
      exact hbk

theorem bind_eq_error {α β : Type} {m : Except Fault α} {f : α → Except Fault β} {e : Fault}
    (h : (m >>= f) = Except.error e) :
    m = Except.error e ∨ ∃ a, m = Except.ok a ∧ f a = Except.error e := by
  cases m with
  | error e1 =>
    left
    simpa [bind, Except.bind] using h
  | ok a =>
    right
    exact ⟨a, rfl, by simpa [bind, Except.bind] using h⟩

/-- A store raises no `Rcpp::stop`. -/
theorem store_no_stop (x : SEXP) (i : Nat) (c : Cell) (msg : String) :
    x.store i c ≠ Except.error (Fault.stop msg) := by
  intro h
  cases c <;> cases x <;>
    simp only [SEXP.store, INTEGER_set, REAL_set, SET_STRING_ELT, SET_VECTOR_ELT] at h <;>
    first
    | (cases h)
    | (split at h <;> cases h)

theorem scalarCell_no_stop (ty : BqType) (v : Json) (msg : String) :
    scalarCell ty v ≠ some (Except.error (Fault.stop msg)) := by
  intro h
  cases ty <;> cases v <;> simp only [scalarCell] at h <;>
    first
    | (cases h)
    | (split at h <;> cases h)

/-- The decoding of a wire node by a scalar type raises no `Rcpp::stop`. -/
theorem vectorSetSwitch_no_stop (rv : Json → Except Fault SEXP) (ty : BqType) (x : SEXP)
    (i : Nat) (v : Json) (msg : String) (hty : ty ≠ BqType.BQ_RECORD) :
    vectorSetSwitch rv ty x i v ≠ Except.error (Fault.stop msg) := by
  intro h
  have hfld : (BqField.mk "" ty false []).type_ ≠ BqType.BQ_RECORD := hty
  have hsc := decodeCell_scalar (BqField.mk "" ty false []) v hfld
  have h1 := vectorSetSwitch_eq rv ty x i v _ rfl
  have h2 : (BqField.mk "" ty false []).decodeCell v false
      = (vectorSetSwitch rv ty ((BqField.mk "" ty false []).vectorInit 1 false) 0 v >>= fun z =>
        match z.cell? 0 with
        | some c => pure c
        | none => throw Fault.undefined) := by
    unfold BqField.decodeCell BqField.vectorSet vectorSetWith
    simp only [Bool.false_eq_true, false_and, if_false, BqField.type_]
    cases ty <;> first | exact absurd rfl hty | rfl
  rw [← h2] at h1
  rw [h1] at h
  rcases bind_eq_error h with h3 | ⟨c, _, h3⟩
  · rw [h3] at hsc
    exact scalarCell_no_stop _ _ _ hsc
  · exact store_no_stop x i c msg h3

/-- An error of `Rcpp::stop` raised by `vectorSet` comes from a location that requires an
array, given that this holds of the field's `recordValue`. -/
theorem vectorSetWith_stop (fld : BqField) (x : SEXP) (i : Nat) (v : Json) (a : Bool)
    (msg : String)
    (hrec : ∀ v msg, fld.recordValue v = Except.error (Fault.stop msg) →
      fld.type_ = BqType.BQ_RECORD → ∀ array, Unheld fld array v)
    (h : vectorSetWith fld.recordValue fld x i v a = Except.error (Fault.stop msg)) :
    Unheld fld a v := by
  unfold vectorSetWith at h
  by_cases hc : (a = true ∧ fld.type_ ≠ BqType.BQ_RECORD)
  · rw [if_pos hc] at h
    obtain ⟨rfl, hty⟩ := hc
    cases hv : v.IsArray with
    | false => exact Unheld.scalar fld v hty hv
    | true =>
      exfalso
      rw [hv] at h
      simp only [Bool.true_eq_false, if_false] at h
      rcases bind_eq_error h with h1 | ⟨elems, _, h1⟩
      · cases v <;> cases h1
      · rcases bind_eq_error h1 with h2 | ⟨out, _, h2⟩
        · obtain ⟨k, e, s1, _, hb⟩ := forEachFrom_error _ _ _ _ _ h2
          rcases bind_eq_error hb with h3 | ⟨w, _, h3⟩
          · cases e <;> simp only [Json.member] at h3 <;>
              first
              | (cases h3)
              | (split at h3 <;> cases h3)
          · exact vectorSetSwitch_no_stop _ _ _ _ _ _ hty h3
        · exact store_no_stop x i (Cell.elt out) msg h2
  · rw [if_neg hc] at h
    by_cases hty : fld.type_ = BqType.BQ_RECORD
    · rw [hty] at h
      simp only [vectorSetSwitch] at h
      rcases bind_eq_error h with h1 | ⟨r, _, h1⟩
      · exact hrec v msg h1 hty a
      · exact absurd h1 (store_no_stop x i (Cell.elt r) msg)
    · exact absurd h (vectorSetSwitch_no_stop _ _ _ _ _ _ hty)

theorem member_no_stop (v : Json) (name msg : String) :
    v.member name ≠ Except.error (Fault.stop msg) := by
  intro h
  cases v <;> simp only [Json.member] at h <;>
    first
    | (cases h)
    | (split at h <;> cases h)

theorem wrapped_no_stop (f : Json) (j : Nat) (msg : String) :
    f.wrapped j ≠ Except.error (Fault.stop msg) := by
  intro h
  unfold Json.wrapped at h
  rcases bind_eq_error h with h1 | ⟨w, _, h1⟩
  · cases f <;> simp only [Json.index] at h1 <;>
      first
      | (cases h1)
      | (split at h1 <;> cases h1)
  · exact member_no_stop _ _ _ h1

theorem elements_ok {v : Json} {es : List Json} (h : v.elements = Except.ok es) :
    v = Json.array es := by
  cases v <;> first | (cases h; done) | (injection h with h; subst h; rfl)

/-- An error of `Rcpp::stop` raised by the decoding of a cell comes from a location that
requires an array. -/
theorem decodeCell_stop (fld : BqField) (v : Json) (a : Bool) (msg : String)
    (hrec : ∀ v msg, fld.recordValue v = Except.error (Fault.stop msg) →
      fld.type_ = BqType.BQ_RECORD → ∀ array, Unheld fld array v)
    (h : fld.decodeCell v a = Except.error (Fault.stop msg)) : Unheld fld a v := by
  unfold BqField.decodeCell at h
  rcases bind_eq_error h with h1 | ⟨x, _, h1⟩
  · exact vectorSetWith_stop fld _ _ v a msg hrec h1
  · exfalso
    split at h1 <;> cases h1

/-- The non-repeated branch of `recordValue`. -/
theorem recordValue_single_eq (name : String) (ty : BqType) (fs : List BqField) (v : Json) :
    (BqField.mk name ty false fs).recordValue v =
      if v.IsObject = false then
        pure (SEXP.VECSXP ⟨some (List.replicate fs.length ""), none, none⟩
          (List.replicate fs.length SEXP.NULL))
      else
        v.member "f" >>= fun f =>
          if f.IsArray = false then throw (Fault.stop "Not array [2]")
          else
            BqField.recordChildren fs 0 f
                (List.replicate fs.length SEXP.NULL, List.replicate fs.length "") >>= fun r =>
              pure (SEXP.VECSXP ⟨some r.2, none, none⟩ r.1) := by
  cases v <;> rfl

theorem recordChildren_cons (field : BqField) (rest : List BqField) (j : Nat) (f : Json)
    (st : List SEXP × List String) :
    BqField.recordChildren (field :: rest) j f st =
      (f.wrapped j >>= fun vs =>
        (if field.array_ then vs.Size else pure 1) >>= fun n =>
          (if field.array_ then
            vs.elements >>= fun es =>
              forEachFrom (fun i e col =>
                e.member "v" >>= fun w => vectorSetWith field.recordValue field col i w false)
                0 es (field.vectorInit n false)
          else vectorSetWith field.recordValue field (field.vectorInit n false) 0 vs field.array_)
            >>= fun col =>
              BqField.recordChildren rest (j + 1) f (st.1.set j col, st.2.set j field.name_)) := by
  rw [BqField.recordChildren]
  unfold Json.wrapped
  simp only [bind, Except.bind]
  cases f.index j with
  | error e => rfl
  | ok w =>
    simp only []
    cases w.member "v" with
    | error e => rfl
    | ok vs =>
      simp only []
      cases field.array_ with
      | false => rfl
      | true =>
        simp only [if_true]
        cases vs.Size with
        | error e => rfl
        | ok n =>
          simp only []
          cases vs.elements <;> rfl

mutual
/-- An error of `Rcpp::stop` raised by `recordValue` comes from a location that requires an
array. -/
theorem recordValue_stop : ∀ (fld : BqField) (v : Json) (msg : String),
    fld.recordValue v = Except.error (Fault.stop msg) →
    fld.type_ = BqType.BQ_RECORD → ∀ array, Unheld fld array v
  | BqField.mk name ty arr fs, v, msg, h, hty, array => by
    cases arr with
    | false =>
      rw [recordValue_single_eq] at h
      cases hv : v.IsObject with
      | false =>
        rw [hv] at h
        cases h
      | true =>
        rw [hv] at h
        simp only [Bool.true_eq_false, if_false] at h
        rcases bind_eq_error h with h1 | ⟨f, hf, h1⟩
        · exact absurd h1 (member_no_stop _ _ _)
        · cases hfa : f.IsArray with
          | false => exact Unheld.record _ array v f hty rfl hf hfa
          | true =>
            rw [hfa] at h1
            simp only [Bool.true_eq_false, if_false] at h1
            rcases bind_eq_error h1 with h2 | ⟨r, _, h2⟩
            · obtain ⟨m, c, w, hc, hw, hcase⟩ := recordChildren_stop fs 0 f _ msg h2
              simp only [Nat.zero_add] at hw
              rcases hcase with ⟨hca, hu⟩ | ⟨hca, es, e, w1, rfl, he, hw1, hu⟩
              · exact Unheld.child _ array v f m c w hty rfl hf hc hw hca hu
              · exact Unheld.element _ array v f m c es e w1 hty rfl hf hc hw hca he hw1 hu
            · cases h2
    | true =>
      rw [recordValue_repeated_eq] at h
      unfold pageLoop at h
      obtain ⟨k, e, s1, he, hb⟩ := forEachFrom_error _ _ _ _ _ h
      have hmem : e ∈ v.structs := List.get?_mem he
      rcases bind_eq_error hb with h1 | ⟨f, hf, h1⟩
      · unfold structF at h1
        rcases bind_eq_error h1 with h2 | ⟨ev, hev, h2⟩
        · exact absurd h2 (member_no_stop _ _ _)
        · rcases bind_eq_error h2 with h3 | ⟨f, hf1, h3⟩
          · exact absurd h3 (member_no_stop _ _ _)
          · cases hfa : f.IsArray with
            | false => exact Unheld.struct _ array v e ev f hty rfl hmem hev hf1 hfa
            | true =>
              rw [hfa] at h3
              cases h3
      · obtain ⟨m, c, w, hc, hw, hu⟩ := setRow_stop fs 0 _ f s1 msg h1
        simp only [Nat.zero_add] at hw
        exact Unheld.structChild _ array v e f m c w hty rfl hmem hf hc hw hu
/-- An error of `Rcpp::stop` raised by the child loop of the non-repeated branch comes from
a location that requires an array. -/
theorem recordChildren_stop : ∀ (fs : List BqField) (j : Nat) (f : Json)
    (st : List SEXP × List String) (msg : String),
    BqField.recordChildren fs j f st = Except.error (Fault.stop msg) →
    ∃ m c w, fs.get? m = some c ∧ f.wrapped (j + m) = Except.ok w ∧
      ((c.array_ = false ∧ Unheld c false w) ∨
        (c.array_ = true ∧ ∃ es e w1, w = Json.array es ∧ e ∈ es ∧
          e.member "v" = Except.ok w1 ∧ Unheld c false w1))
  | [], _, _, _, _, h => by cases h
  | c :: rest, j, f, st, msg, h => by
    rw [recordChildren_cons] at h
    rcases bind_eq_error h with h1 | ⟨vs, hvs, h1⟩
    · exact absurd h1 (wrapped_no_stop _ _ _)
    · rcases bind_eq_error h1 with h2 | ⟨n, _, h2⟩
      · exfalso
        split at h2
        · cases vs <;> cases h2
        · cases h2
      · rcases bind_eq_error h2 with h3 | ⟨col, _, h3⟩
        · refine ⟨0, c, vs, rfl, hvs, ?_⟩
          cases hca : c.array_ with
          | false =>
            rw [hca] at h3
            simp only [Bool.false_eq_true, if_false] at h3
            exact Or.inl ⟨rfl, vectorSetWith_stop c _ _ vs false msg (recordValue_stop c) h3⟩
          | true =>
            rw [hca] at h3
            simp only [if_true] at h3
            rcases bind_eq_error h3 with h4 | ⟨es, hes, h4⟩
            · cases vs <;> cases h4
            · obtain ⟨k, e, s1, he, hb⟩ := forEachFrom_error _ _ _ _ _ h4
              rcases bind_eq_error hb with h5 | ⟨w1, hw1, h5⟩
              · exact absurd h5 (member_no_stop _ _ _)
              · exact Or.inr ⟨rfl, es, e, w1, elements_ok hes, List.get?_mem he, hw1,
                  vectorSetWith_stop c _ _ w1 false msg (recordValue_stop c) h5⟩
        · obtain ⟨m, c1, w, hc1, hw, hcase⟩ := recordChildren_stop rest (j + 1) f _ msg h3
          refine ⟨m + 1, c1, w, by simpa using hc1, ?_, hcase⟩
          have : j + (m + 1) = j + 1 + m := by omega
          rw [this]
          exact hw
/-- An error of `Rcpp::stop` raised by the field loop of a row comes from a location that
requires an array. -/
theorem setRow_stop : ∀ (fs : List BqField) (j i : Nat) (f : Json) (out : SEXP) (msg : String),
    BqField.setRow fs j i f out = Except.error (Fault.stop msg) →
    ∃ m c w, fs.get? m = some c ∧ f.wrapped (j + m) = Except.ok w ∧ Unheld c c.array_ w
  | [], _, _, _, _, _, h => by cases h
  | c :: rest, j, i, f, out, msg, h => by
    cases out with
    | VECSXP a cols =>
      rw [setRow_cons] at h
      cases hx : cols.get? j with
      | none => rw [hx] at h; cases h
      | some x =>
        rw [hx] at h
        simp only [] at h
        rcases bind_eq_error h with h1 | ⟨e, he, h1⟩
        · exact absurd h1 (wrapped_no_stop _ _ _)
        · rcases bind_eq_error h1 with h2 | ⟨cell, _, h2⟩
          · exact ⟨0, c, e, rfl, he, decodeCell_stop c e c.array_ msg (recordValue_stop c) h2⟩
          · rcases bind_eq_error h2 with h3 | ⟨x1, _, h3⟩
            · exact absurd h3 (store_no_stop _ _ _ _)
            · obtain ⟨m, c1, w, hc1, hw, hu⟩ := setRow_stop rest (j + 1) i f _ msg h3
              refine ⟨m + 1, c1, w, by simpa using hc1, ?_, hu⟩
              have : j + (m + 1) = j + 1 + m := by omega
              rw [this]
              exact hw
    | NULL => cases h
    | LGLSXP _ => cases h
    | INTSXP _ => cases h
    | REALSXP _ _ => cases h
    | STRSXP _ => cases h
end

theorem forEachFrom_append {α σ : Type} (body : Nat → α → σ → Except Fault σ) :
    ∀ (xs ys : List α) (i : Nat) (s : σ),
      forEachFrom body i (xs ++ ys) s =
        (forEachFrom body i xs s >>= fun s1 => forEachFrom body (i + xs.length) ys s1) := by
  intro xs
  induction xs with
  | nil => intro ys i s; rfl
  | cons a rest ih =>
    intro ys i s
    rw [List.cons_append, forEachFrom_cons, forEachFrom_cons]
    cases body i a s with
    | error e => rfl
    | ok s1 =>
      simp only [bind, Except.bind]
      have := ih ys (i + 1) s1
      simp only [bind, Except.bind] at this
      rw [this]
      have hidx : i + 1 + rest.length = i + (a :: rest).length := by
        simp only [List.length_cons]
        omega
      rw [hidx]

theorem rows_no_stop (data : Json) (msg : String) :
    data.rows ≠ Except.error (Fault.stop msg) := by
  intro h
  unfold Json.rows at h
  rcases bind_eq_error h with h1 | ⟨b, _, h1⟩
  · cases data <;> cases h1
  · split at h1
    · cases h1
    · rcases bind_eq_error h1 with h2 | ⟨r, _, h2⟩
      · exact member_no_stop _ _ _ h2
      · cases r <;> cases h2

/-- An error of `Rcpp::stop` raised by `bq_fields_set` comes from a location that requires
an array, in the wire value of some top-level field. -/
theorem bq_fields_set_stop (data : Json) (out : SEXP) (fields : List BqField) (offset : Nat)
    (msg : String) (h : bq_fields_set data out fields offset = Except.error (Fault.stop msg)) :
    ∃ m c w, fields.get? m = some c ∧ Unheld c c.array_ w := by
  rw [bq_fields_set_eq] at h
  rcases bind_eq_error h with h1 | ⟨elems, _, h1⟩
  · exact absurd h1 (rows_no_stop _ _)
  · rcases bind_eq_error h1 with h2 | ⟨out1, _, h2⟩
    · unfold pageLoop at h2
      obtain ⟨k, e, s1, _, hb⟩ := forEachFrom_error _ _ _ _ _ h2
      rcases bind_eq_error hb with h3 | ⟨f, _, h3⟩
      · exact absurd h3 (member_no_stop _ _ _)
      · obtain ⟨m, c, w, hc, _, hu⟩ := setRow_stop fields 0 _ f s1 msg h3
        exact ⟨m, c, w, hc, hu⟩
    · cases h2

end Structural

/-- C10, as stated, fails: the error is raised for an input in which no
repeated scalar field and no non-repeated Record field occurs.  The schema
holds the repeated record `c` with the non-repeated integer child `x`; the
only struct of the wire array has a text node as its `f`. -/
theorem structural_error_counterexample :
    (record_x true).array_ = true ∧ (record_x true).type_ = BqType.BQ_RECORD ∧
    (record_x true).fields_ = [field_x] ∧
    field_x.array_ = false ∧ field_x.type_ = BqType.BQ_INTEGER ∧
    bq_fields_parse schema_c = Except.ok [record_x true] ∧
    (record_x true).recordValue (Json.array [struct_text])
      = Except.error (Fault.stop "Not an array [3]") ∧
    bq_parse schema_c (pageOf [[Json.array [struct_text]]])
      = Except.error (Fault.stop "Not an array [3]") :=
  ⟨rfl, rfl, rfl, rfl, rfl, rfl, rfl, rfl⟩

/-- C10, amended. The decoder has three checks for an array and each aborts
the decoding with an error of `Rcpp::stop`: `vectorSet` on a repeated scalar
field whose wire node is not an array; `recordValue` on a non-repeated Record
field whose wire node is an object whose `f` is not an array; `recordValue` on
a repeated Record field whose wire array holds, after structs that decode, a
struct whose `f` is not an array.  Conversely an error of `Rcpp::stop` raised
by `vectorSet`, by `recordValue` of a Record field or by `bq_fields_set` comes
from a location that requires an array and does not hold one. -/
theorem decode_structural_error :
    (∀ (fld : BqField) (x : SEXP) (i : Nat) (v : Json),
      fld.array_ = true → fld.type_ ≠ BqType.BQ_RECORD → v.IsArray = false →
      fld.vectorSetOwn x i v = Except.error (Fault.stop "Not an array [1]")) ∧
    (∀ (fld : BqField) (v f : Json),
      fld.array_ = false → v.member "f" = Except.ok f → f.IsArray = false →
      fld.recordValue v = Except.error (Fault.stop "Not array [2]")) ∧
    (∀ (fld : BqField) (pre post : List Json) (e ev f : Json),
      fld.array_ = true → PageDecodes structF fld.fields_ pre →
      e.member "v" = Except.ok ev → ev.member "f" = Except.ok f → f.IsArray = false →
      fld.recordValue (Json.array (pre ++ e :: post))
        = Except.error (Fault.stop "Not an array [3]")) ∧
    (∀ (fld : BqField) (x : SEXP) (i : Nat) (v : Json) (a : Bool) (msg : String),
      fld.vectorSet x i v a = Except.error (Fault.stop msg) → Unheld fld a v) ∧
    (∀ (fld : BqField) (v : Json) (msg : String),
      fld.type_ = BqType.BQ_RECORD → fld.recordValue v = Except.error (Fault.stop msg) →
      Unheld fld fld.array_ v) ∧
    (∀ (data : Json) (out : SEXP) (fields : List BqField) (offset : Nat) (msg : String),
      bq_fields_set data out fields offset = Except.error (Fault.stop msg) →
      ∃ m c w, fields.get? m = some c ∧ Unheld c c.array_ w) := by
  refine ⟨?_, ?_, ?_, ?_, ?_, ?_⟩
  · intro fld x i v hrep hty hv
    unfold BqField.vectorSetOwn BqField.vectorSet vectorSetWith
    rw [hrep, hv]
    simp only [hty, ne_eq, not_false_eq_true, and_self, if_true]
    rfl
  · intro fld v f hrep hf hfa
    obtain ⟨name, ty, arr, fs⟩ := fld
    simp only [BqField.array_] at hrep
    subst hrep
    rw [recordValue_single_eq]
    have hobj : v.IsObject = true := by
      cases v <;> first | rfl | cases hf
    rw [hobj, hf]
    simp only [Bool.true_eq_false, if_false, bind, Except.bind, hfa, if_true]
    rfl
  · intro fld pre post e ev f hrep hd hev hf hfa
    obtain ⟨name, ty, arr, fs⟩ := fld
    simp only [BqField.array_] at hrep
    subst hrep
    simp only [BqField.fields_] at hd
    rw [recordValue_repeated_eq]
    simp only [Json.structs]
    have hpre := pageLoop_total structF fs 0 pre
      ⟨some (fs.map (fun field => field.name_)), some tbl_df,
        some [NA_INTEGER, -(Int.ofNat (pre ++ e :: post).length)]⟩
      (fs.map (fun field => field.vectorInitOwn (pre ++ e :: post).length))
      (PageReady_of structF fs 0 (pre ++ e :: post).length pre _ hd (TableFor_init fs _)
        (by simp only [List.length_append]; omega))
    obtain ⟨cols1, hl, _⟩ := hpre
    unfold pageLoop at hl ⊢
    unfold nestedInit
    rw [forEachFrom_append, hl]
    simp only [bind, Except.bind]
    rw [forEachFrom_cons]
    have hs : structF e = Except.error (Fault.stop "Not an array [3]") := by
      unfold structF
      rw [hev]
      simp only [bind, Except.bind, hf, hfa, if_true]
      rfl
    rw [hs]
    rfl
  · intro fld x i v a msg h
    exact vectorSetWith_stop fld x i v a msg (recordValue_stop fld) h
  · intro fld v msg hty h
    exact recordValue_stop fld v msg h hty fld.array_
  · intro data out fields offset msg h
    exact bq_fields_set_stop data out fields offset msg h

/-- The three checks on sample inputs, and the origin of the error of the
third. -/
theorem decode_structural_error_witness :
    (BqField.mk "x" BqType.BQ_INTEGER true []).vectorSetOwn (SEXP.VECSXP noAttr [SEXP.NULL]) 0
        Json.null = Except.error (Fault.stop "Not an array [1]") ∧
    (record_x false).recordValue (Json.object [("f", Json.string "oops")])
      = Except.error (Fault.stop "Not array [2]") ∧
    (record_x true).recordValue (Json.array ([wrap (rowOf [Json.string "1"])] ++ struct_text :: []))
      = Except.error (Fault.stop "Not an array [3]") ∧
    Unheld (record_x true) true (Json.array [struct_text]) ∧
    Unheld (record_x true) (record_x true).array_ (Json.array [struct_text]) ∧
    (∃ m c w, [record_x true].get? m = some c ∧ Unheld c c.array_ w) :=
  ⟨decode_structural_error.1 (BqField.mk "x" BqType.BQ_INTEGER true []) _ 0 Json.null rfl
      (by decide) rfl,
    decode_structural_error.2.1 (record_x false) _ (Json.string "oops") rfl rfl rfl,
    decode_structural_error.2.2.1 (record_x true) [wrap (rowOf [Json.string "1"])] [] struct_text
      (Json.object [("f", Json.string "oops")]) (Json.string "oops") rfl
      (PageDecodes_of_loop
        (show pageLoop structF (record_x true).fields_ 0 [wrap (rowOf [Json.string "1"])]
            (nestedInit (record_x true).fields_ 1)
          = Except.ok (SEXP.VECSXP (attr_x 1) [SEXP.INTSXP [1]]) from rfl))
      rfl rfl rfl,
    decode_structural_error.2.2.2.1 (record_x true) (SEXP.VECSXP noAttr [SEXP.NULL]) 0
      (Json.array [struct_text]) true "Not an array [3]" rfl,
    decode_structural_error.2.2.2.2.1 (record_x true) (Json.array [struct_text])
      "Not an array [3]" rfl rfl,
    decode_structural_error.2.2.2.2.2 (pageOf [[Json.array [struct_text]]])
      (bq_fields_init [record_x true] 1) [record_x true] 0 "Not an array [3]" rfl⟩

/-- Schema documents with an unknown type string at depth two, and with known
type strings only. -/
theorem bq_fields_parse_types_witness :
    bq_fields_parse schema_int64 = Except.error (Fault.stop "Unknown type INT64") ∧
    (∃ t, knownType t = false ∧
      bq_fields_parse schema_int64 = Except.error (Fault.stop ("Unknown type " ++ t)) ∧
      ∀ data, bq_parse schema_int64 data = Except.error (Fault.stop ("Unknown type " ++ t))) ∧
    (∃ fields, bq_fields_parse schema_x = Except.ok fields) :=
  ⟨rfl,
    (bq_fields_parse_types schema_int64
      [fieldNode "x" "INTEGER" "NULLABLE", recordNode "r" "NULLABLE" [fieldNode "y" "INT64" "NULLABLE"]]
      rfl rfl).1 rfl,
    (bq_fields_parse_types schema_x [fieldNode "x" "INTEGER" "NULLABLE"] rfl rfl).2 rfl⟩

/-- C4. A wire node that is not a text node decodes, for every scalar type,
to the null value of the type: `vectorSet` with `array = false` is the store
of that null value, no error is raised by the decoding, and in a column that
`vectorInit` made for the type the cell written holds the null value while
the column keeps its length and its other cells. -/
theorem vectorSet_null (fld : BqField) (v : Json) (hty : fld.type_ ≠ BqType.BQ_RECORD)
    (hv : v.IsString = false) :
    fld.decodeCell v false = Except.ok fld.type_.null ∧
    (∀ (x : SEXP) (i : Nat), fld.vectorSet x i v false = x.store i fld.type_.null) ∧
    ∀ (n i : Nat), i < n → ∃ x1, fld.vectorSet (fld.vectorInit n false) i v false = Except.ok x1 ∧
      x1.cell? i = some fld.type_.null ∧ x1.length = n ∧
      ∀ k, k ≠ i → x1.cell? k = (fld.vectorInit n false).cell? k := by
  have hdec : fld.decodeCell v false = Except.ok fld.type_.null := by
    obtain ⟨name, ty, arr, fs⟩ := fld
    unfold BqField.decodeCell BqField.vectorSet vectorSetWith
    simp only [Bool.false_eq_true, false_and, if_false]
    cases ty <;> first | exact absurd rfl hty | (cases v <;> first | rfl | cases hv)
  have hset : ∀ (x : SEXP) (i : Nat), fld.vectorSet x i v false = x.store i fld.type_.null := by
    intro x i
    rw [vectorSet_eq, hdec]
    rfl
  refine ⟨hdec, hset, ?_⟩
  intro n i hi
  obtain ⟨x1, hx1⟩ := store_total (x := fld.vectorInit n false) (i := i) (c := fld.type_.null)
    (decodeCell_accepts n hdec) (by rw [vectorInit_length]; exact hi)
  obtain ⟨_, _, hsh, hcell, hother⟩ := store_ok hx1
  refine ⟨x1, by rw [hset]; exact hx1, hcell, ?_, hother⟩
  rw [← SameShape_length hsh, vectorInit_length]

/-- A null node decoded by a `TIMESTAMP` field into the second cell of a
three-cell column. -/
theorem vectorSet_null_witness :
    (BqField.mk "t" BqType.BQ_TIMESTAMP false []).vectorSet
        (SEXP.REALSXP RealAttr.POSIXct_UTC [Dbl.ofInt 0, Dbl.ofInt 0, Dbl.ofInt 0]) 1 Json.null false
      = Except.ok (SEXP.REALSXP RealAttr.POSIXct_UTC [Dbl.ofInt 0, Dbl.NA_REAL, Dbl.ofInt 0]) ∧
    (BqField.mk "t" BqType.BQ_TIMESTAMP false []).decodeCell Json.null false
      = Except.ok (BqField.mk "t" BqType.BQ_TIMESTAMP false []).type_.null ∧
    (∀ (x : SEXP) (i : Nat), (BqField.mk "t" BqType.BQ_TIMESTAMP false []).vectorSet x i Json.null false
      = x.store i (BqField.mk "t" BqType.BQ_TIMESTAMP false []).type_.null) ∧
    ∀ (n i : Nat), i < n →
      ∃ x1, (BqField.mk "t" BqType.BQ_TIMESTAMP false []).vectorSet
          ((BqField.mk "t" BqType.BQ_TIMESTAMP false []).vectorInit n false) i Json.null false
        = Except.ok x1 ∧
      x1.cell? i = some (BqField.mk "t" BqType.BQ_TIMESTAMP false []).type_.null ∧ x1.length = n ∧
      ∀ k, k ≠ i →
        x1.cell? k = ((BqField.mk "t" BqType.BQ_TIMESTAMP false []).vectorInit n false).cell? k :=
  ⟨rfl, vectorSet_null (BqField.mk "t" BqType.BQ_TIMESTAMP false []) Json.null (by decide) rfl⟩

end Claims

section Cells

theorem ok_int_ne {a b : Int} (h : a ≠ b) :
    (Except.ok (Cell.int a) : Except Fault Cell) ≠ Except.ok (Cell.int b) := by
  intro heq
  injection heq with heq
  injection heq with heq
  exact h heq

theorem decodeCell_integer (s : String) :
    (scalarField BqType.BQ_INTEGER).decodeCell (Json.string s) false
      = Except.ok (Cell.int (atoi s)) := rfl

theorem decodeCell_boolean (s : String) :
    (scalarField BqType.BQ_BOOLEAN).decodeCell (Json.string s) false
      = Except.ok (Cell.int (if strncmp_T_1 s then 1 else 0)) := rfl

/-- C20. The integer null sentinel collides with data: the text
`-2147483648` is a valid base-10 integer, and decoding it as a non-repeated
Integer field stores the very cell that a null node stores, in every column
and at every index. -/
theorem integer_sentinel_collision :
    decimalText (-2147483648) = "-2147483648" ∧
    (scalarField BqType.BQ_INTEGER).decodeCell (Json.string "-2147483648") false
      = (scalarField BqType.BQ_INTEGER).decodeCell Json.null false ∧
    (scalarField BqType.BQ_INTEGER).decodeCell (Json.string "-2147483648") false
      = Except.ok BqType.BQ_INTEGER.null ∧
    ∀ (x : SEXP) (i : Nat),
      (scalarField BqType.BQ_INTEGER).vectorSet x i (Json.string "-2147483648") false
        = (scalarField BqType.BQ_INTEGER).vectorSet x i Json.null false := by
  refine ⟨by decide, rfl, rfl, ?_⟩
  intro x i
  rw [vectorSet_eq, vectorSet_eq]
  rfl

/-- C13, as stated, fails: the text `true` begins with `t` and decoding it as a
Boolean field stores false, as it does for `false`; `True` stores true. -/
theorem boolean_lowercase_counterexample :
    ("true".toList.head? = some 't') ∧
    (scalarField BqType.BQ_BOOLEAN).decodeCell (Json.string "true") false
      = Except.ok (Cell.int 0) ∧
    (scalarField BqType.BQ_BOOLEAN).decodeCell (Json.string "false") false
      = Except.ok (Cell.int 0) ∧
    (scalarField BqType.BQ_BOOLEAN).decodeCell (Json.string "True") false
      = Except.ok (Cell.int 1) :=
  ⟨rfl, rfl, rfl, rfl⟩

/-- C13, amended. For every text node, decoding it as a non-repeated Boolean
field stores true when the first character of the text is `T` and false for
every other text, the empty text and the texts that begin with `t` included;
the cell is never the null value and no error is raised by the decoding. -/
theorem boolean_first_byte (s : String) :
    (s.toList.head? = some 'T' →
      (scalarField BqType.BQ_BOOLEAN).decodeCell (Json.string s) false = Except.ok (Cell.int 1)) ∧
    (s.toList.head? ≠ some 'T' →
      (scalarField BqType.BQ_BOOLEAN).decodeCell (Json.string s) false = Except.ok (Cell.int 0)) ∧
    (scalarField BqType.BQ_BOOLEAN).decodeCell (Json.string s) false
      ≠ Except.ok BqType.BQ_BOOLEAN.null ∧
    ∀ (x : SEXP) (i : Nat),
      (scalarField BqType.BQ_BOOLEAN).vectorSet x i (Json.string s) false
        = x.store i (Cell.int (if s.toList.head? = some 'T' then 1 else 0)) := by
  have hdec : (scalarField BqType.BQ_BOOLEAN).decodeCell (Json.string s) false
      = Except.ok (Cell.int (if s.toList.head? = some 'T' then 1 else 0)) := by
    rw [decodeCell_boolean]
    unfold strncmp_T_1
    cases s.toList with
    | nil => rfl
    | cons c rest =>
      by_cases hc : c = 'T'
      · subst hc
        rfl
      · have h1 : (c :: rest).head? ≠ some 'T' := by
          intro h
          injection h with h
          exact hc h
        rw [if_neg h1]
        simp only [hc, decide_False, Bool.false_eq_true, if_false]
  refine ⟨?_, ?_, ?_, ?_⟩
  · intro h
    rw [hdec, if_pos h]
  · intro h
    rw [hdec, if_neg h]
  · rw [hdec]
    by_cases h : s.toList.head? = some 'T'
    · rw [if_pos h]
      exact ok_int_ne (by decide)
    · rw [if_neg h]
      exact ok_int_ne (by decide)
  · intro x i
    rw [vectorSet_eq, hdec]
    rfl

/-- The texts `T`, `t` and the empty text decoded as Boolean. -/
theorem boolean_first_byte_witness :
    (scalarField BqType.BQ_BOOLEAN).decodeCell (Json.string "TRUE") false
      = Except.ok (Cell.int 1) ∧
    (scalarField BqType.BQ_BOOLEAN).decodeCell (Json.string "t") false
      = Except.ok (Cell.int 0) ∧
    (scalarField BqType.BQ_BOOLEAN).decodeCell (Json.string "") false
      = Except.ok (Cell.int 0) :=
  ⟨(boolean_first_byte "TRUE").1 rfl, (boolean_first_byte "t").2.1 (by decide),
    (boolean_first_byte "").2.1 (by decide)⟩

theorem scanDigits_no_digit (acc : Nat) (l : List Char)
    (h : ∀ c rest, l = c :: rest → isdigit c = false) : scanDigits acc l = acc := by
  cases l with
  | nil => rfl
  | cons c rest =>
    have hc := h c rest rfl
    simp [scanDigits, hc]

/-- `strtol` reads the digits at `numberStart` and negates after a minus
sign. -/
theorem strtol10_no_digit (s : List Char)
    (h : ∀ c rest, numberStart s = c :: rest → isdigit c = false) : strtol10 s = 0 := by
  unfold strtol10
  unfold numberStart at h
  split
  · rename_i rest heq
    rw [heq] at h
    rw [scanDigits_no_digit 0 rest h]
    decide
  · rename_i rest heq
    rw [heq] at h
    rw [scanDigits_no_digit 0 rest h]
    decide
  · rename_i rest h1 h2
    have h3 : ∀ c r, skipSpace s = c :: r → isdigit c = false := by
      intro c r hcr
      apply h c r
      split
      · rename_i r1 heq
        exact absurd heq (h1 r1)
      · rename_i r1 heq
        exact absurd heq (h2 r1)
      · exact hcr
    rw [scanDigits_no_digit 0 _ h3]
    decide

/-- C11, as stated, fails: the texts `abc` and the empty text are not base-10
integers, and decoding them as a non-repeated Integer field stores the number
`0`, which is not the Integer null value. -/
theorem integer_text_counterexample :
    (scalarField BqType.BQ_INTEGER).decodeCell (Json.string "abc") false
      = Except.ok (Cell.int 0) ∧
    (scalarField BqType.BQ_INTEGER).decodeCell (Json.string "") false
      = Except.ok (Cell.int 0) ∧
    (scalarField BqType.BQ_INTEGER).decodeCell (Json.string "abc") false
      ≠ Except.ok BqType.BQ_INTEGER.null ∧
    (scalarField BqType.BQ_INTEGER).vectorSet (SEXP.INTSXP [7]) 0 (Json.string "abc") false
      = Except.ok (SEXP.INTSXP [0]) :=
  ⟨rfl, rfl, ok_int_ne (by decide), rfl⟩

/-- C11, amended. For every text node, decoding it as a non-repeated Integer
field raises no error and stores the result of `atoi`; for every text that
has no digit where the number is expected (after leading white space and an
optional sign), `abc` and the empty text among them, the cell stored is the
number `0`, not the Integer null value. -/
theorem integer_text (s : String) :
    (scalarField BqType.BQ_INTEGER).decodeCell (Json.string s) false
      = Except.ok (Cell.int (atoi s)) ∧
    (∀ (x : SEXP) (i : Nat),
      (scalarField BqType.BQ_INTEGER).vectorSet x i (Json.string s) false
        = x.store i (Cell.int (atoi s))) ∧
    ((∀ c rest, numberStart s.toList = c :: rest → isdigit c = false) →
      (scalarField BqType.BQ_INTEGER).decodeCell (Json.string s) false = Except.ok (Cell.int 0) ∧
      (scalarField BqType.BQ_INTEGER).decodeCell (Json.string s) false
        ≠ Except.ok BqType.BQ_INTEGER.null) := by
  refine ⟨rfl, ?_, ?_⟩
  · intro x i
    rw [vectorSet_eq]
    rfl
  · intro h
    have h0 : atoi s = 0 := by
      unfold atoi
      rw [strtol10_no_digit _ h]
      decide
    rw [decodeCell_integer, h0]
    exact ⟨rfl, ok_int_ne (by decide)⟩

/-- The text `abc` has no digit where the number is expected. -/
theorem integer_text_witness :
    (∀ c rest, numberStart "abc".toList = c :: rest → isdigit c = false) ∧
    (scalarField BqType.BQ_INTEGER).decodeCell (Json.string "abc") false
      = Except.ok (Cell.int 0) ∧
    (scalarField BqType.BQ_INTEGER).decodeCell (Json.string "abc") false
      ≠ Except.ok BqType.BQ_INTEGER.null :=
  have h : ∀ c rest, numberStart "abc".toList = c :: rest → isdigit c = false := by
    intro c rest heq
    have h1 : numberStart "abc".toList = ['a', 'b', 'c'] := by decide
    rw [h1] at heq
    injection heq with hc _
    subst hc
    decide
  ⟨h, (integer_text "abc").2.2 h⟩

end Cells

section Decimal

theorem digitChar_digit (m : Nat) (h : m < 10) :
    isdigit (Nat.digitChar m) = true ∧ digitValue (Nat.digitChar m) = m := by
  interval_cases m <;> exact ⟨by decide, by decide⟩

theorem isdigit_not_special {c : Char} (h : isdigit c = true) :
    isspace c = false ∧ c ≠ '-' ∧ c ≠ '+' := by
  refine ⟨?_, ?_, ?_⟩
  · unfold isspace
    simp only [Bool.or_eq_false_iff, decide_eq_false_iff_not]
    refine ⟨⟨⟨⟨⟨?_, ?_⟩, ?_⟩, ?_⟩, ?_⟩, ?_⟩ <;>
      (intro hc
       subst hc
       revert h
       decide)
  · intro hc
    subst hc
    revert h
    decide
  · intro hc
    subst hc
    revert h
    decide

theorem scanDigits_cons_digit (acc m : Nat) (h : m < 10) (rest : List Char) :
    scanDigits acc (Nat.digitChar m :: rest) = scanDigits (acc * 10 + m) rest := by
  obtain ⟨h1, h2⟩ := digitChar_digit m h
  simp [scanDigits, h1, h2]

/-- Reading back the digits that `Nat.toDigitsCore` writes. -/
theorem scanDigits_toDigitsCore : ∀ (fuel n : Nat) (ds : List Char), n < fuel →
    scanDigits 0 (Nat.toDigitsCore 10 fuel n ds) = scanDigits n ds := by
  intro fuel
  induction fuel with
  | zero => intro n ds h; omega
  | succ fuel ih =>
    intro n ds h
    unfold Nat.toDigitsCore
    simp only []
    by_cases h0 : n / 10 = 0
    · rw [if_pos h0, scanDigits_cons_digit 0 (n % 10) (Nat.mod_lt _ (by decide))]
      have : 0 * 10 + n % 10 = n := by omega
      rw [this]
    · rw [if_neg h0, ih (n / 10) _ (by omega),
        scanDigits_cons_digit (n / 10) (n % 10) (Nat.mod_lt _ (by decide))]
      have : n / 10 * 10 + n % 10 = n := by omega
      rw [this]

theorem scanDigits_nil (acc : Nat) : scanDigits acc [] = acc := rfl

theorem scanDigits_toDigits (n : Nat) : scanDigits 0 (Nat.toDigits 10 n) = n := by
  unfold Nat.toDigits
  rw [scanDigits_toDigitsCore (n + 1) n [] (by omega), scanDigits_nil]

/-- The digits that `Nat.toDigitsCore` writes begin with a digit. -/
theorem toDigitsCore_head : ∀ (fuel n : Nat) (ds : List Char),
    (0 < fuel ∨ ∃ c r, ds = c :: r ∧ isdigit c = true) →
    ∃ c r, Nat.toDigitsCore 10 fuel n ds = c :: r ∧ isdigit c = true := by
  intro fuel
  induction fuel with
  | zero =>
    intro n ds h
    rcases h with h | h
    · omega
    · exact h
  | succ fuel ih =>
    intro n ds _
    unfold Nat.toDigitsCore
    simp only []
    have hd := (digitChar_digit (n % 10) (Nat.mod_lt _ (by decide))).1
    by_cases h0 : n / 10 = 0
    · rw [if_pos h0]
      exact ⟨_, _, rfl, hd⟩
    · rw [if_neg h0]
      exact ih (n / 10) _ (Or.inr ⟨_, _, rfl, hd⟩)

theorem strtol10_digits (l : List Char) (c : Char) (r : List Char) (hl : l = c :: r)
    (hc : isdigit c = true) :
    strtol10 l = max (-(2 ^ 63)) (min (scanDigits 0 l : Int) (2 ^ 63 - 1)) := by
  obtain ⟨hs, hm, hp⟩ := isdigit_not_special hc
  have hskip : skipSpace l = l := by
    subst hl
    simp [skipSpace, hs]
  unfold strtol10
  rw [hskip]
  subst hl
  split
  · rename_i rest heq
    injection heq with h1 _
    exact absurd h1 hm
  · rename_i rest heq
    injection heq with h1 _
    exact absurd h1 hp
  · rfl

theorem strtol10_minus (l : List Char) :
    strtol10 ('-' :: l) = max (-(2 ^ 63)) (min (-(scanDigits 0 l : Int)) (2 ^ 63 - 1)) := by
  have hskip : skipSpace ('-' :: l) = '-' :: l := by
    simp [skipSpace, isspace]
  unfold strtol10
  rw [hskip]
  split
  · rename_i rest heq
    injection heq with _ h2
    subst h2
    rfl
  · rename_i rest heq
    injection heq with h1 _
    exact absurd h1 (by decide)
  · rename_i rest h1 _
    exact absurd rfl (h1 l)

theorem toDigits_head (m : Nat) :
    ∃ c r, Nat.toDigits 10 m = c :: r ∧ isdigit c = true :=
  toDigitsCore_head (m + 1) m [] (Or.inl (by omega))

theorem atoi_decimalText (k : Int) (hlo : -2147483648 ≤ k) (hhi : k < 2147483648) :
    atoi (decimalText k) = k := by
  unfold atoi toInt32
  cases k with
  | ofNat m =>
    have hl : (decimalText (Int.ofNat m)).toList = Nat.toDigits 10 m := rfl
    obtain ⟨c, r, hcr, hc⟩ := toDigits_head m
    rw [hl, strtol10_digits _ c r hcr hc, scanDigits_toDigits]
    simp only [Int.ofNat_eq_coe] at hhi hlo ⊢
    have e1 : (2 : Int) ^ 63 = 9223372036854775808 := by norm_num
    have e2 : (2 : Int) ^ 31 = 2147483648 := by norm_num
    have e3 : (2 : Int) ^ 32 = 4294967296 := by norm_num
    rw [e1, e2, e3]
    omega
  | negSucc m =>
    have hl : (decimalText (Int.negSucc m)).toList = '-' :: Nat.toDigits 10 (m + 1) := rfl
    rw [hl, strtol10_minus, scanDigits_toDigits]
    have e1 : (2 : Int) ^ 63 = 9223372036854775808 := by norm_num
    have e2 : (2 : Int) ^ 31 = 2147483648 := by norm_num
    have e3 : (2 : Int) ^ 32 = 4294967296 := by norm_num
    rw [e1, e2, e3]
    have hk : Int.negSucc m = -((m : Int) + 1) := Int.negSucc_eq m
    rw [hk] at hlo ⊢
    push_cast
    omega

/-- C12, as stated, fails: the integers `2147483648` and `-2147483648` lie in
the 64-bit signed range; the base-10 text of the first decodes to
`-2147483648`, not to the integer, and both decode to the Integer null value.
The largest 64-bit integer decodes to `-1`. -/
theorem integer_range_counterexample :
    decimalText 2147483648 = "2147483648" ∧
    (scalarField BqType.BQ_INTEGER).decodeCell (Json.string (decimalText 2147483648)) false
      = Except.ok (Cell.int (-2147483648)) ∧
    (scalarField BqType.BQ_INTEGER).decodeCell (Json.string (decimalText 2147483648)) false
      = Except.ok BqType.BQ_INTEGER.null ∧
    (scalarField BqType.BQ_INTEGER).decodeCell (Json.string (decimalText (-2147483648))) false
      = Except.ok BqType.BQ_INTEGER.null ∧
    (scalarField BqType.BQ_INTEGER).decodeCell
        (Json.string (decimalText 9223372036854775807)) false
      = Except.ok (Cell.int (-1)) := by
  refine ⟨by decide, ?_, ?_, ?_, ?_⟩ <;>
    (rw [decodeCell_integer]
     have : ∀ a b : Int, a = b → (Except.ok (Cell.int a) : Except Fault Cell)
         = Except.ok (Cell.int b) := fun a b h => by rw [h]
     apply this
     decide)

/-- C12, amended. For every integer `k` with `-2147483648 < k < 2147483648`,
the range of a 32-bit `int` without its smallest value, decoding the base-10
text of `k` as a non-repeated Integer field stores a cell that is not the null
value and whose value is exactly `k`. -/
theorem integer_roundtrip (k : Int) (hlo : -2147483648 < k) (hhi : k < 2147483648) :
    (scalarField BqType.BQ_INTEGER).decodeCell (Json.string (decimalText k)) false
      = Except.ok (Cell.int k) ∧
    (scalarField BqType.BQ_INTEGER).decodeCell (Json.string (decimalText k)) false
      ≠ Except.ok BqType.BQ_INTEGER.null ∧
    ∀ (x : SEXP) (i : Nat),
      (scalarField BqType.BQ_INTEGER).vectorSet x i (Json.string (decimalText k)) false
        = x.store i (Cell.int k) := by
  have h : atoi (decimalText k) = k := atoi_decimalText k (by omega) hhi
  refine ⟨by rw [decodeCell_integer, h], ?_, ?_⟩
  · rw [decodeCell_integer, h]
    apply ok_int_ne
    unfold NA_INTEGER
    omega
  · intro x i
    rw [vectorSet_eq, decodeCell_integer, h]
    rfl

/-- The integers `-17` and `2147483647`. -/
theorem integer_roundtrip_witness :
    decimalText (-17) = "-17" ∧
    (scalarField BqType.BQ_INTEGER).decodeCell (Json.string (decimalText (-17))) false
      = Except.ok (Cell.int (-17)) ∧
    (scalarField BqType.BQ_INTEGER).decodeCell (Json.string (decimalText 2147483647)) false
      = Except.ok (Cell.int 2147483647) :=
  ⟨by decide, (integer_roundtrip (-17) (by decide) (by decide)).1,
    (integer_roundtrip 2147483647 (by decide) (by decide)).1⟩

end Decimal

section Init

theorem vectorInit_cell (fld : BqField) (n i : Nat) (hty : fld.type_ ≠ BqType.BQ_RECORD)
    (hi : i < n) : (fld.vectorInit n false).cell? i = some fld.type_.zero := by
  obtain ⟨name, ty, arr, fs⟩ := fld
  cases ty <;>
    first
    | exact absurd rfl hty
    | simp [BqField.vectorInit, BqField.type_, SEXP.cell?, BqType.zero,
        List.getElem?_replicate, hi]

theorem zero_ne_null (ty : BqType) (hty : ty ≠ BqType.BQ_RECORD) : ty.zero ≠ ty.null := by
  cases ty <;> first | exact absurd rfl hty | (intro h; cases h)

/-- C17, as stated, fails: a new Integer column of two cells holds the number
`0` in both, not the null value, and after a one-row page is written into a
two-row table the row that no call wrote reads `0`. -/
theorem vectorInit_counterexample :
    (scalarField BqType.BQ_INTEGER).vectorInit 2 false = SEXP.INTSXP [0, 0] ∧
    ((scalarField BqType.BQ_INTEGER).vectorInit 2 false).cell? 0 = some (Cell.int 0) ∧
    ((scalarField BqType.BQ_INTEGER).vectorInit 2 false).cell? 0
      ≠ some BqType.BQ_INTEGER.null ∧
    bq_fields_set page_42 (bq_fields_init [field_x] 2) [field_x] 0
      = Except.ok (1, SEXP.VECSXP (attr_x 2) [SEXP.INTSXP [42, 0]]) := by
  refine ⟨rfl, rfl, ?_, rfl⟩
  intro h
  injection h with h
  injection h with h
  revert h
  decide

/-- C17, amended. For every scalar field type and every `n`, `vectorInit(n,
false)` returns a column of exactly `n` cells in which every cell is the zero
value of the type (`0`, `FALSE`, `0.0` or the empty string), which is not the
type's null value; so in a table allocated by `bq_fields_init` every cell of a
non-repeated scalar column reads as that zero value, and after a call of
`bq_fields_set` every row that the call did not write still does. -/
theorem vectorInit_zero :
    (∀ (fld : BqField) (n : Nat), fld.type_ ≠ BqType.BQ_RECORD →
      (fld.vectorInit n false).length = n ∧
      (∀ i, i < n → (fld.vectorInit n false).cell? i = some fld.type_.zero) ∧
      fld.type_.zero ≠ fld.type_.null) ∧
    (∀ (fields : List BqField) (n j i : Nat) (fld : BqField),
      fields.get? j = some fld → fld.array_ = false → fld.type_ ≠ BqType.BQ_RECORD → i < n →
      (bq_fields_init fields n).at? j i = some fld.type_.zero) ∧
    (∀ (fields : List BqField) (n : Nat) (data : Json) (offset m : Nat) (out1 : SEXP)
      (j i : Nat) (fld : BqField),
      bq_fields_set data (bq_fields_init fields n) fields offset = Except.ok (m, out1) →
      fields.get? j = some fld → fld.array_ = false → fld.type_ ≠ BqType.BQ_RECORD → i < n →
      (i < offset ∨ offset + m ≤ i) → out1.at? j i = some fld.type_.zero) := by
  have hinit : ∀ (fields : List BqField) (n j i : Nat) (fld : BqField),
      fields.get? j = some fld → fld.array_ = false → fld.type_ ≠ BqType.BQ_RECORD → i < n →
      (fields.map (fun field => field.vectorInitOwn n)).get? j = some (fld.vectorInit n false) ∧
      (fld.vectorInit n false).cell? i = some fld.type_.zero := by
    intro fields n j i fld hj hrep hty hi
    refine ⟨?_, vectorInit_cell fld n i hty hi⟩
    simp only [List.get?_eq_getElem?, List.getElem?_map] at hj ⊢
    rw [hj]
    simp [BqField.vectorInitOwn, hrep]
  refine ⟨?_, ?_, ?_⟩
  · intro fld n hty
    exact ⟨vectorInit_length fld n false, fun i hi => vectorInit_cell fld n i hty hi,
      zero_ne_null _ hty⟩
  · intro fields n j i fld hj hrep hty hi
    obtain ⟨hcol, hcell⟩ := hinit fields n j i fld hj hrep hty hi
    unfold bq_fields_init
    rw [at?_mk _ _ _ _ _ hcol]
    exact hcell
  · intro fields n data offset m out1 j i fld h hj hrep hty hi hout
    obtain ⟨hcol, hcell⟩ := hinit fields n j i fld hj hrep hty hi
    unfold bq_fields_init at h
    obtain ⟨elems, cols1, _, rfl, rfl, _, hframe, _⟩ := bq_fields_set_partial h
    obtain ⟨x1, hx1, _, hsame⟩ := hframe j _ hcol
    rw [at?_mk _ _ _ _ _ hx1, hsame i (by
      rcases hout with h1 | h1
      · exact Or.inl h1
      · exact Or.inr (Or.inl h1))]
    exact hcell

/-- A Time column of three cells, and the unwritten second row of a two-row
table. -/
theorem vectorInit_zero_witness :
    ((scalarField BqType.BQ_TIME).vectorInit 3 false).length = 3 ∧
    (∀ i, i < 3 → ((scalarField BqType.BQ_TIME).vectorInit 3 false).cell? i
      = some (scalarField BqType.BQ_TIME).type_.zero) ∧
    (scalarField BqType.BQ_TIME).type_.zero ≠ (scalarField BqType.BQ_TIME).type_.null ∧
    (bq_fields_init [field_x] 2).at? 0 1 = some field_x.type_.zero ∧
    (SEXP.VECSXP (attr_x 2) [SEXP.INTSXP [42, 0]]).at? 0 1 = some field_x.type_.zero :=
  ⟨(vectorInit_zero.1 (scalarField BqType.BQ_TIME) 3 (by decide)).1,
    (vectorInit_zero.1 (scalarField BqType.BQ_TIME) 3 (by decide)).2.1,
    (vectorInit_zero.1 (scalarField BqType.BQ_TIME) 3 (by decide)).2.2,
    vectorInit_zero.2.1 [field_x] 2 0 1 field_x rfl rfl (by decide) (by decide),
    vectorInit_zero.2.2 [field_x] 2 page_42 0 1 _ 0 1 field_x
      (show bq_fields_set page_42 (bq_fields_init [field_x] 2) [field_x] 0
        = Except.ok (1, SEXP.VECSXP (attr_x 2) [SEXP.INTSXP [42, 0]]) from rfl)
      rfl rfl (by decide) (by decide) (Or.inr (by decide))⟩

end Init

section Schema

theorem findMember_cons (name k : String) (v : Json) (rest : List (String × Json)) :
    Json.findMember name ((k, v) :: rest)
      = if k = name then some v else Json.findMember name rest := rfl

/-- The children of a field node are built from the first member named
`fields`. -/
theorem ofMembers_eq (ms : List (String × Json)) :
    BqField.ofMembers ms =
      match Json.findMember "fields" ms with
      | none => pure []
      | some (Json.array xs) => BqField.ofElements xs
      | some _ => throw Fault.undefined := by
  induction ms with
  | nil => rfl
  | cons kv rest ih =>
    obtain ⟨k, v⟩ := kv
    rw [ofMembers_cons, findMember_cons]
    by_cases hk : k = "fields"
    · rw [if_pos hk, if_pos hk]
      cases v <;> rfl
    · rw [if_neg hk, if_neg hk]
      exact ih

/-- The loop over the elements builds one field per element, in order. -/
theorem ofElements_ok (xs : List Json) : ∀ (cs : List BqField),
    BqField.ofElements xs = Except.ok cs ↔
      List.Forall₂ (fun x c => BqField.ofValue x = Except.ok c) xs cs := by
  induction xs with
  | nil =>
    intro cs
    constructor
    · intro h
      have h1 : BqField.ofElements [] = Except.ok [] := rfl
      rw [h1] at h
      injection h with h
      subst h
      exact List.Forall₂.nil
    · intro h
      cases h
      rfl
  | cons x xs ih =>
    intro cs
    have e2 : BqField.ofElements (x :: xs) = (BqField.ofValue x >>= fun b =>
        BqField.ofElements xs >>= fun bs => pure (b :: bs)) := rfl
    rw [e2]
    constructor
    · intro h
      obtain ⟨b, hb, h⟩ := (bind_eq_ok _ _ _).1 h
      obtain ⟨bs, hbs, h⟩ := (bind_eq_ok _ _ _).1 h
      injection h with h
      subst h
      exact List.Forall₂.cons hb ((ih bs).1 hbs)
    · intro h
      cases h with
      | cons hb hbs =>
        rw [hb]
        simp only [bind, Except.bind]
        rw [(ih _).2 hbs]
        rfl

theorem std_string_of_no_nul (s : String) (h : '\x00' ∉ s.toList) : std_string s = s := by
  unfold std_string
  have h1 : s.toList.takeWhile (fun c => decide (c ≠ '\x00')) = s.toList := by
    rw [List.takeWhile_eq_self_iff]
    intro c hc
    simp only [ne_eq, decide_not, Bool.not_eq_true', decide_eq_false_iff_not]
    intro hcn
    subst hcn
    exact h hc
  rw [h1]
  cases s
  rfl

/-- C19, as stated, fails: the field node with the name `x`, NUL, `y`, the
type `INTEGER` and the mode `REPEATED`, NUL, `z` gives the field with the name
`x` that is repeated, though the mode is not exactly `REPEATED` and the name
of the node is not `x`.  The source reads the three texts through
`GetString()` into a `std::string`, which ends at the first NUL. -/
theorem ofValue_nul_counterexample :
    BqField.ofValue (fieldNode "x\x00y" "INTEGER" "REPEATED\x00z")
      = Except.ok (BqField.mk "x" BqType.BQ_INTEGER true []) ∧
    "REPEATED\x00z" ≠ "REPEATED" ∧ "x\x00y" ≠ "x" :=
  ⟨rfl, by decide, by decide⟩

/-- C19, amended. The `BqField` built from a schema field node whose `name`,
`mode` and `type` are the texts `n`, `m` and `t`, each taken up to its first
NUL character (the text itself when it has none), with `t` so taken a
recognized type string: it has the name `n`, the type that `parse_bq_type`
gives for `t`, is repeated if and only if `m` is exactly `REPEATED`, has no
children when the node has no `fields` member, and otherwise has as children
the fields built from the elements of `fields`, one per element in the same
order, whatever the type is.  `bq_fields_parse` builds the top-level fields
from the elements of `schema.fields` in the same way. -/
theorem ofValue_members (ms : List (String × Json)) (n m t : String) (ty : BqType)
    (hn : Json.findMember "name" ms = some (Json.string n))
    (hm : Json.findMember "mode" ms = some (Json.string m))
    (ht : Json.findMember "type" ms = some (Json.string t))
    (hty : parse_bq_type (std_string t) = Except.ok ty) :
    (Json.findMember "fields" ms = none →
      BqField.ofValue (Json.object ms)
        = Except.ok (BqField.mk (std_string n) ty (decide (std_string m = "REPEATED")) [])) ∧
    (∀ xs cs, Json.findMember "fields" ms = some (Json.array xs) →
      List.Forall₂ (fun x c => BqField.ofValue x = Except.ok c) xs cs →
      BqField.ofValue (Json.object ms)
        = Except.ok (BqField.mk (std_string n) ty (decide (std_string m = "REPEATED")) cs)) ∧
    (∀ xs fld, Json.findMember "fields" ms = some (Json.array xs) →
      BqField.ofValue (Json.object ms) = Except.ok fld →
      fld.name_ = std_string n ∧ fld.type_ = ty ∧
        (fld.array_ = true ↔ std_string m = "REPEATED") ∧
        List.Forall₂ (fun x c => BqField.ofValue x = Except.ok c) xs fld.fields_) ∧
    (∀ (meta_d : Json) (nodes : List Json) (fields : List BqField),
      schemaNodes meta_d = Except.ok nodes →
      (bq_fields_parse meta_d = Except.ok fields ↔
        List.Forall₂ (fun x c => BqField.ofValue x = Except.ok c) nodes fields)) ∧
    (∀ s : String, '\x00' ∉ s.toList → std_string s = s) := by
  have hval : BqField.ofValue (Json.object ms) = (BqField.ofMembers ms >>= fun fields_ =>
      pure (BqField.mk (std_string n) ty (decide (std_string m = "REPEATED")) fields_)) := by
    rw [ofValue_object]
    simp only [Json.member, hn, hm, ht, Json.GetString, bind, Except.bind, pure, Except.pure, hty]
  refine ⟨?_, ?_, ?_, ?_, std_string_of_no_nul⟩
  · intro hf
    rw [hval, ofMembers_eq, hf]
    rfl
  · intro xs cs hf hcs
    rw [hval, ofMembers_eq, hf]
    simp only []
    rw [(ofElements_ok xs cs).2 hcs]
    rfl
  · intro xs fld hf h
    rw [hval, ofMembers_eq, hf] at h
    simp only [] at h
    obtain ⟨cs, hcs, h⟩ := (bind_eq_ok _ _ _).1 h
    injection h with h
    subst h
    exact ⟨rfl, rfl, by simp [BqField.array_], (ofElements_ok xs cs).1 hcs⟩
  · intro meta_d nodes fields hnodes
    rw [bq_fields_parse_eq, hnodes]
    exact ofElements_ok nodes fields

/-- A node of type `INTEGER` and mode `REPEATED` with a `fields` member, and
the node of `schema_x`, which has none and whose mode is `NULLABLE`. -/
theorem ofValue_members_witness :
    BqField.ofValue (Json.object members_a)
      = Except.ok (BqField.mk "a" BqType.BQ_INTEGER true
          [BqField.mk "b" BqType.BQ_STRING false []]) ∧
    BqField.ofValue (fieldNode "x" "INTEGER" "NULLABLE")
      = Except.ok (BqField.mk "x" BqType.BQ_INTEGER false []) ∧
    (bq_fields_parse schema_x = Except.ok [field_x] ↔
      List.Forall₂ (fun x c => BqField.ofValue x = Except.ok c)
        [fieldNode "x" "INTEGER" "NULLABLE"] [field_x]) :=
  ⟨(ofValue_members members_a "a" "REPEATED" "INTEGER" BqType.BQ_INTEGER rfl rfl rfl rfl).2.1
      [fieldNode "b" "STRING" "NULLABLE"] [BqField.mk "b" BqType.BQ_STRING false []] rfl
      (List.Forall₂.cons rfl List.Forall₂.nil),
    (ofValue_members [("name", Json.string "x"), ("type", Json.string "INTEGER"),
      ("mode", Json.string "NULLABLE")] "x" "NULLABLE" "INTEGER" BqType.BQ_INTEGER
      rfl rfl rfl rfl).1 rfl,
    (ofValue_members members_a "a" "REPEATED" "INTEGER" BqType.BQ_INTEGER rfl rfl rfl rfl).2.2.2.1
      schema_x [fieldNode "x" "INTEGER" "NULLABLE"] [field_x] rfl⟩

end Schema

section Shape

/-- A write by `vectorSet` keeps the shape of the column. -/
theorem vectorSet_shape {fld : BqField} {x x1 : SEXP} {i : Nat} {v : Json} {a : Bool}
    (h : fld.vectorSet x i v a = Except.ok x1) : x.SameShape x1 := by
  rw [vectorSet_eq] at h
  obtain ⟨c, _, hs⟩ := (bind_eq_ok _ _ _).1 h
  exact (store_ok hs).2.2.1

/-- The child loop of the non-repeated branch of `recordValue`: it keeps the
lengths of `out` and `names`, leaves the entries outside
`[j, j + fields.length)` alone, names entry `j + m` after child `m` and stores
there a column of the shape that `vectorInit` gives the child. -/
theorem recordChildren_ok : ∀ (fs : List BqField) (j : Nat) (f : Json)
    (out : List SEXP) (names : List String) (r : List SEXP × List String),
    BqField.recordChildren fs j f (out, names) = Except.ok r →
    r.1.length = out.length ∧ r.2.length = names.length ∧
    (∀ m, (m < j ∨ j + fs.length ≤ m) → r.1.get? m = out.get? m ∧ r.2.get? m = names.get? m) ∧
    ∀ m c, fs.get? m = some c → j + m < out.length → j + m < names.length →
      r.2.get? (j + m) = some c.name_ ∧
      ∃ col n, r.1.get? (j + m) = some col ∧ (c.vectorInit n false).SameShape col := by
  intro fs
  induction fs with
  | nil =>
    intro j f out names r h
    have h1 : BqField.recordChildren [] j f (out, names) = Except.ok (out, names) := rfl
    rw [h1] at h
    injection h with h
    subst h
    refine ⟨rfl, rfl, fun _ _ => ⟨rfl, rfl⟩, ?_⟩
    intro m c hc
    simp at hc
  | cons c rest ih =>
    intro j f out names r h
    rw [recordChildren_cons] at h
    obtain ⟨vs, _, h⟩ := (bind_eq_ok _ _ _).1 h
    obtain ⟨n, _, h⟩ := (bind_eq_ok _ _ _).1 h
    obtain ⟨col, hcol, h⟩ := (bind_eq_ok _ _ _).1 h
    have hshape : (c.vectorInit n false).SameShape col := by
      cases hca : c.array_ with
      | true =>
        rw [hca] at hcol
        simp only [if_true] at hcol
        obtain ⟨es, _, hloop⟩ := (bind_eq_ok _ _ _).1 hcol
        exact forEachFrom_partial _ (fun _ s => (c.vectorInit n false).SameShape s) es 0 _ col
          (SameShape_refl _) (by
            intro k e s s1 _ hP hb
            obtain ⟨w, _, hw⟩ := (bind_eq_ok _ _ _).1 hb
            exact SameShape_trans hP (@vectorSet_shape c _ _ _ _ _ hw)) hloop
      | false =>
        rw [hca] at hcol
        simp only [Bool.false_eq_true, if_false] at hcol
        exact @vectorSet_shape c _ _ _ _ _ hcol
    obtain ⟨hl1, hl2, hframe, hrest⟩ := ih (j + 1) f _ _ r h
    simp only [List.length_set] at hl1 hl2
    refine ⟨hl1, hl2, ?_, ?_⟩
    · intro m hm
      obtain ⟨h1, h2⟩ := hframe m (by
        rcases hm with hm | hm
        · exact Or.inl (by omega)
        · simp only [List.length_cons] at hm
          exact Or.inr (by omega))
      have hne : j ≠ m := by
        rcases hm with hm | hm
        · omega
        · simp only [List.length_cons] at hm
          omega
      simp only [List.get?_eq_getElem?] at h1 h2 ⊢
      rw [List.getElem?_set_ne hne] at h1 h2
      exact ⟨h1, h2⟩
    · intro m c1 hc1 ho hn
      cases m with
      | zero =>
        simp only [List.get?_cons_zero, Option.some.injEq] at hc1
        subst hc1
        obtain ⟨h1, h2⟩ := hframe j (Or.inl (by omega))
        simp only [Nat.add_zero] at ho hn ⊢
        simp only [List.get?_eq_getElem?] at h1 h2 ⊢
        rw [List.getElem?_set_self ho] at h1
        rw [List.getElem?_set_self hn] at h2
        exact ⟨h2, col, n, h1, hshape⟩
      | succ m =>
        have hidx : j + (m + 1) = j + 1 + m := by omega
        rw [hidx] at ho hn ⊢
        exact hrest m c1 (by simpa using hc1) (by simpa using ho) (by simpa using hn)

theorem names_of_children (fs : List BqField) (names : List String)
    (hlen : names.length = fs.length)
    (h : ∀ m c, fs.get? m = some c → names.get? m = some c.name_) :
    names = fs.map (fun c => c.name_) := by
  apply List.ext_get?
  intro m
  by_cases hm : m < fs.length
  · obtain ⟨c, hc⟩ := get?_isSome_of_lt fs m hm
    rw [h m c hc]
    simp only [List.get?_eq_getElem?, List.getElem?_map] at hc ⊢
    rw [hc]
    rfl
  · have h1 : names.get? m = none := by
      rw [List.get?_eq_none]
      omega
    have h2 : (fs.map (fun c => c.name_)).get? m = none := by
      rw [List.get?_eq_none, List.length_map]
      omega
    rw [h1, h2]

/-- C18. The shape of a table is invariant under writing.  The table that
`bq_fields_init` allocates fits the schema; a call of `bq_fields_set` that
returns leaves the attributes (names, class, row names) and the number of
columns as they were and keeps the fit, so that after any number of calls the
table has one column per schema field, in schema order, of the field's column
type and of exactly `n` rows.  Every nested table that `recordValue` returns,
which is what a Record or repeated-Record cell holds, has one column per
child field in child-schema order: for a repeated Record the columns are
named by the children and fit the child schema for the number of structs; for
a non-repeated Record with an object node column `j` is named by child `j`
and has the shape of a column of child `j`; for a non-repeated Record with
another node the cells are `NULL`, one per child. -/
theorem table_shape_invariant :
    (∀ (fields : List BqField) (n : Nat),
      TableFor fields n (bq_fields_init fields n).columns ∧
      (bq_fields_init fields n).columns.length = fields.length ∧
      (bq_fields_init fields n).attrib
        = some ⟨some (fields.map (fun fld => fld.name_)), some tbl_df,
            some [NA_INTEGER, -(Int.ofNat n)]⟩) ∧
    (∀ (fields : List BqField) (n : Nat) (a : ListAttr) (cols : List SEXP) (data : Json)
      (offset m : Nat) (out1 : SEXP),
      TableFor fields n cols →
      bq_fields_set data (SEXP.VECSXP a cols) fields offset = Except.ok (m, out1) →
      out1.attrib = some a ∧ out1.columns.length = cols.length ∧
      TableFor fields n out1.columns ∧
      ∀ j fld, fields.get? j = some fld →
        ∃ col, out1.columns.get? j = some col ∧ (fld.vectorInitOwn n).SameShape col ∧
          col.length = n) ∧
    (∀ (fld : BqField) (v : Json) (r : SEXP), fld.array_ = true →
      fld.recordValue v = Except.ok r →
      r.attrib = some ⟨some (fld.fields_.map (fun c => c.name_)), some tbl_df,
          some [NA_INTEGER, -(Int.ofNat v.structs.length)]⟩ ∧
        r.columns.length = fld.fields_.length ∧
        TableFor fld.fields_ v.structs.length r.columns) ∧
    (∀ (fld : BqField) (v : Json) (r : SEXP), fld.array_ = false → v.IsObject = true →
      fld.recordValue v = Except.ok r →
      r.attrib = some ⟨some (fld.fields_.map (fun c => c.name_)), none, none⟩ ∧
        r.columns.length = fld.fields_.length ∧
        ∀ j c, fld.fields_.get? j = some c →
          ∃ col n, r.columns.get? j = some col ∧ (c.vectorInit n false).SameShape col) ∧
    (∀ (fld : BqField) (v : Json) (r : SEXP), fld.array_ = false → v.IsObject = false →
      fld.recordValue v = Except.ok r →
      r.columns = List.replicate fld.fields_.length SEXP.NULL) := by
  refine ⟨?_, ?_, ?_, ?_, ?_⟩
  · intro fields n
    exact ⟨TableFor_init fields n, by simp [bq_fields_init, SEXP.columns], rfl⟩
  · intro fields n a cols data offset m out1 ht h
    obtain ⟨elems, cols1, _, _, rfl, hdone⟩ := bq_fields_set_partial h
    have tf := TableFor_of _ _ _ _ _ _ _ ht hdone
    refine ⟨rfl, hdone.1, tf, ?_⟩
    intro j fld hj
    obtain ⟨x, hx, hsh⟩ := tf j fld hj
    refine ⟨x, hx, hsh, ?_⟩
    rw [← SameShape_length hsh]
    exact vectorInit_length _ _ _
  · intro fld v r hrep h
    obtain ⟨name, ty, arr, fs⟩ := fld
    simp only [BqField.array_] at hrep
    subst hrep
    rw [recordValue_repeated_eq] at h
    unfold nestedInit at h
    obtain ⟨cols1, rfl, hdone⟩ := pageLoop_partial _ _ _ _ _ _ _ h
    exact ⟨rfl, by simp [SEXP.columns, BqField.fields_, hdone.1],
      TableFor_of _ _ _ _ _ _ _ (TableFor_init fs _) hdone⟩
  · intro fld v r hrep hv h
    obtain ⟨name, ty, arr, fs⟩ := fld
    simp only [BqField.array_] at hrep
    subst hrep
    rw [recordValue_single_eq, hv] at h
    simp only [Bool.true_eq_false, if_false] at h
    obtain ⟨f, _, h⟩ := (bind_eq_ok _ _ _).1 h
    cases hfa : f.IsArray with
    | false =>
      rw [hfa] at h
      cases h
    | true =>
      rw [hfa] at h
      simp only [Bool.true_eq_false, if_false] at h
      obtain ⟨res, hres, h⟩ := (bind_eq_ok _ _ _).1 h
      injection h with h
      subst h
      obtain ⟨hl1, hl2, _, hall⟩ := recordChildren_ok fs 0 f _ _ res hres
      simp only [List.length_replicate] at hl1 hl2
      have hnames : res.2 = fs.map (fun c => c.name_) := by
        apply names_of_children fs res.2 hl2
        intro m c hc
        have hm : m < fs.length := by
          rw [List.get?_eq_some] at hc
          exact hc.1
        have := (hall m c hc (by simpa using hm) (by simpa using hm)).1
        simpa using this
      refine ⟨by simp [SEXP.attrib, BqField.fields_, hnames], by simpa [SEXP.columns] using hl1, ?_⟩
      intro j c hc
      have hm : j < fs.length := by
        rw [List.get?_eq_some] at hc
        exact hc.1
      obtain ⟨_, col, n, hcol, hsh⟩ := hall j c hc (by simpa using hm) (by simpa using hm)
      exact ⟨col, n, by simpa [SEXP.columns] using hcol, hsh⟩
  · intro fld v r hrep hv h
    obtain ⟨name, ty, arr, fs⟩ := fld
    simp only [BqField.array_] at hrep
    subst hrep
    rw [recordValue_single_eq, hv] at h
    simp only [if_true] at h
    injection h with h
    subst h
    rfl

/-- A three-row page written at offset `2` of a five-row table, and the
nested tables of a repeated record, of a record on a struct and of a record on
a null node. -/
theorem table_shape_invariant_witness :
    TableFor [field_x] 5 (bq_fields_init [field_x] 5).columns ∧
    ((SEXP.VECSXP (attr_x 5) [SEXP.INTSXP [1, 2, 3, NA_INTEGER, 5]]).attrib = some (attr_x 5) ∧
      (SEXP.VECSXP (attr_x 5) [SEXP.INTSXP [1, 2, 3, NA_INTEGER, 5]]).columns.length
        = [SEXP.INTSXP [1, 2, 0, 0, 0]].length ∧
      TableFor [field_x] 5 (SEXP.VECSXP (attr_x 5) [SEXP.INTSXP [1, 2, 3, NA_INTEGER, 5]]).columns ∧
      ∀ j fld, [field_x].get? j = some fld →
        ∃ col, (SEXP.VECSXP (attr_x 5) [SEXP.INTSXP [1, 2, 3, NA_INTEGER, 5]]).columns.get? j
            = some col ∧ (fld.vectorInitOwn 5).SameShape col ∧ col.length = 5) ∧
    (table_ab.attrib = some ⟨some (record_ab.fields_.map (fun c => c.name_)), some tbl_df,
          some [NA_INTEGER, -(Int.ofNat (Json.array structs_ab).structs.length)]⟩ ∧
      table_ab.columns.length = record_ab.fields_.length ∧
      TableFor record_ab.fields_ (Json.array structs_ab).structs.length table_ab.columns) ∧
    ((SEXP.VECSXP ⟨some ["x"], none, none⟩ [SEXP.INTSXP [1]]).attrib
        = some ⟨some ((record_x false).fields_.map (fun c => c.name_)), none, none⟩ ∧
      (SEXP.VECSXP ⟨some ["x"], none, none⟩ [SEXP.INTSXP [1]]).columns.length
        = (record_x false).fields_.length ∧
      ∀ j c, (record_x false).fields_.get? j = some c →
        ∃ col n, (SEXP.VECSXP ⟨some ["x"], none, none⟩ [SEXP.INTSXP [1]]).columns.get? j = some col ∧
          (c.vectorInit n false).SameShape col) ∧
    (SEXP.VECSXP ⟨some [""], none, none⟩ [SEXP.NULL]).columns
      = List.replicate (record_x false).fields_.length SEXP.NULL :=
  ⟨(table_shape_invariant.1 [field_x] 5).1,
    table_shape_invariant.2.1 [field_x] 5 (attr_x 5) [SEXP.INTSXP [1, 2, 0, 0, 0]] page_B 2 3 _
      (TableFor_x 5 _ rfl)
      (show bq_fields_set page_B (SEXP.VECSXP (attr_x 5) [SEXP.INTSXP [1, 2, 0, 0, 0]]) [field_x] 2
        = Except.ok (3, SEXP.VECSXP (attr_x 5) [SEXP.INTSXP [1, 2, 3, NA_INTEGER, 5]]) from rfl),
    table_shape_invariant.2.2.1 record_ab (Json.array structs_ab) table_ab rfl rfl,
    table_shape_invariant.2.2.2.1 (record_x false) (rowOf [Json.string "1"]) _ rfl rfl rfl,
    table_shape_invariant.2.2.2.2 (record_x false) Json.null
      (SEXP.VECSXP ⟨some [""], none, none⟩ [SEXP.NULL]) rfl rfl rfl⟩

end Shape

section Time

theorem skipSpace_digit (c : Char) (rest : List Char) (h : isdigit c = true) :
    skipSpace (c :: rest) = c :: rest := by
  have h1 := (isdigit_not_special h).1
  simp [skipSpace, h1]

theorem get_number_pad2 (lo hi n : Nat) (rest : List Char) (hn : n < 100) (hlo : lo ≤ n)
    (hhi : n ≤ hi) : get_number lo hi 2 (pad2 n ++ rest) = some (n, rest) := by
  have ha := digitChar_digit (n / 10) (by omega)
  have hb := digitChar_digit (n % 10) (Nat.mod_lt _ (by decide))
  have h10 : n / 10 * 10 ≤ hi := by omega
  have hv : n / 10 * 10 + n % 10 = n := by omega
  unfold get_number pad2
  rw [List.cons_append, List.cons_append, List.nil_append, skipSpace_digit _ _ ha.1]
  simp only [ha.1, ha.2, if_true]
  show (if lo ≤ (getDigits 1 hi (n / 10) (Nat.digitChar (n % 10) :: rest)).1 ∧
      (getDigits 1 hi (n / 10) (Nat.digitChar (n % 10) :: rest)).1 ≤ hi
    then some (getDigits 1 hi (n / 10) (Nat.digitChar (n % 10) :: rest)) else none) = _
  have hg : getDigits 1 hi (n / 10) (Nat.digitChar (n % 10) :: rest) = (n, rest) := by
    simp only [getDigits, h10, hb.1, hb.2, and_self, if_true, hv]
  rw [hg, if_pos ⟨hlo, hhi⟩]

theorem strptime_H (rp fmt : List Char) (t : tm) :
    strptime rp ('%' :: 'H' :: fmt) t =
      match get_number 0 23 2 rp with
      | some (v, rp1) => strptime rp1 fmt { t with tm_hour := v }
      | none => none := rfl

theorem strptime_M (rp fmt : List Char) (t : tm) :
    strptime rp ('%' :: 'M' :: fmt) t =
      match get_number 0 59 2 rp with
      | some (v, rp1) => strptime rp1 fmt { t with tm_min := v }
      | none => none := rfl

theorem strptime_S (rp fmt : List Char) (t : tm) :
    strptime rp ('%' :: 'S' :: fmt) t =
      match get_number 0 61 2 rp with
      | some (v, rp1) => strptime rp1 fmt { t with tm_sec := v }
      | none => none := rfl

theorem strptime_Y (rp fmt : List Char) (t : tm) :
    strptime rp ('%' :: 'Y' :: fmt) t =
      match get_number 0 9999 4 rp with
      | some (v, rp1) => strptime rp1 fmt { t with tm_year := (v : Int) - 1900 }
      | none => none := rfl

theorem strptime_colon (rp fmt : List Char) (t : tm) :
    strptime (':' :: rp) (':' :: fmt) t = strptime rp fmt t := rfl

theorem strptime_nil (rp : List Char) (t : tm) : strptime rp [] t = some (t, rp) := by
  cases rp <;> rfl

/-- The scan of `%H:%M:%S` over a text `HH:MM:SS` followed by anything. -/
theorem strptime_timeText (h m s : Nat) (rest : List Char) (t : tm)
    (hh : h ≤ 23) (hm : m ≤ 59) (hs : s ≤ 61) :
    strptime (timeText h m s rest).toList fmtTime t
      = some (⟨s, m, h, t.tm_mday, t.tm_mon, t.tm_year⟩, rest) := by
  show strptime (pad2 h ++ (':' :: (pad2 m ++ (':' :: (pad2 s ++ rest)))))
    ('%' :: 'H' :: ':' :: '%' :: 'M' :: ':' :: '%' :: 'S' :: []) t = _
  rw [strptime_H, get_number_pad2 0 23 h _ (by omega) (Nat.zero_le _) hh]
  simp only []
  rw [strptime_colon, strptime_M, get_number_pad2 0 59 m _ (by omega) (Nat.zero_le _) hm]
  simp only []
  rw [strptime_colon, strptime_S, get_number_pad2 0 61 s _ (by omega) (Nat.zero_le _) hs]
  simp only []
  rw [strptime_nil]

theorem decodeCell_time_none (s : String) (h : strptime s.toList fmtTime dtm0 = none) :
    (scalarField BqType.BQ_TIME).decodeCell (Json.string s) false
      = Except.ok (Cell.real Dbl.NA_REAL) := by
  unfold scalarField BqField.decodeCell BqField.vectorSet vectorSetWith
  simp only [Bool.false_eq_true, false_and, if_false, vectorSetSwitch, BqField.type_]
  unfold fmtTime at h
  rw [h]
  rfl

theorem decodeCell_time_some (s : String) (dtm : tm) (parsed : List Char)
    (h : strptime s.toList fmtTime dtm0 = some (dtm, parsed)) :
    (scalarField BqType.BQ_TIME).decodeCell (Json.string s) false
      = Except.ok (Cell.real (Dbl.add
          (Dbl.ofInt (dtm.tm_hour * 3600 + dtm.tm_min * 60 + dtm.tm_sec))
          (parse_partial_seconds parsed))) := by
  unfold scalarField BqField.decodeCell BqField.vectorSet vectorSetWith
  simp only [Bool.false_eq_true, false_and, if_false, vectorSetSwitch, BqField.type_]
  unfold fmtTime at h
  rw [h]
  rfl

theorem decodeCell_datetime_none (s : String)
    (h : strptime s.toList fmtDateTime dtm0 = none) :
    (scalarField BqType.BQ_DATETIME).decodeCell (Json.string s) false
      = Except.ok (Cell.real Dbl.NA_REAL) := by
  unfold scalarField BqField.decodeCell BqField.vectorSet vectorSetWith
  simp only [Bool.false_eq_true, false_and, if_false, vectorSetSwitch, BqField.type_]
  unfold fmtDateTime at h
  rw [h]
  rfl

theorem decodeCell_datetime_some (s : String) (dtm : tm) (parsed : List Char)
    (h : strptime s.toList fmtDateTime dtm0 = some (dtm, parsed)) :
    (scalarField BqType.BQ_DATETIME).decodeCell (Json.string s) false
      = Except.ok (Cell.real (Dbl.add (Dbl.ofInt (timegm dtm))
          (parse_partial_seconds parsed))) := by
  unfold scalarField BqField.decodeCell BqField.vectorSet vectorSetWith
  simp only [Bool.false_eq_true, false_and, if_false, vectorSetSwitch, BqField.type_]
  unfold fmtDateTime at h
  rw [h]
  rfl

theorem ok_real_ne {a b : Dbl} (h : a ≠ b) :
    (Except.ok (Cell.real a) : Except Fault Cell) ≠ Except.ok (Cell.real b) := by
  intro heq
  injection heq with heq
  injection heq with heq
  exact h heq

/-- A numeric conversion fails on a text whose first non-blank character is
not a digit. -/
theorem get_number_no_digit (lo hi n : Nat) (rp : List Char)
    (h : ∀ c rest, skipSpace rp = c :: rest → isdigit c = false) :
    get_number lo hi n rp = none := by
  unfold get_number
  split
  · rfl
  · rename_i c rest heq
    rw [h c rest heq]
    rfl

theorem strptime_no_digit (s : List Char) (t : tm)
    (h : ∀ c rest, skipSpace s = c :: rest → isdigit c = false) :
    strptime s fmtTime t = none ∧ strptime s fmtDateTime t = none := by
  constructor
  · show strptime s ('%' :: 'H' :: ':' :: '%' :: 'M' :: ':' :: '%' :: 'S' :: []) t = _
    rw [strptime_H, get_number_no_digit 0 23 2 s h]
  · show strptime s ('%' :: 'Y' :: '-' :: '%' :: 'm' :: '-' :: '%' :: 'd' :: 'T' ::
      '%' :: 'H' :: ':' :: '%' :: 'M' :: ':' :: '%' :: 'S' :: []) t = _
    rw [strptime_Y, get_number_no_digit 0 9999 4 s h]

/-- The null value is stored for a time exactly when the scan fails. -/
theorem decodeCell_time_null_iff (s : String) :
    (scalarField BqType.BQ_TIME).decodeCell (Json.string s) false
        = Except.ok (Cell.real Dbl.NA_REAL) ↔ strptime s.toList fmtTime dtm0 = none := by
  constructor
  · intro h
    cases hs : strptime s.toList fmtTime dtm0 with
    | none => rfl
    | some r =>
      obtain ⟨dtm, parsed⟩ := r
      rw [decodeCell_time_some s dtm parsed hs] at h
      exact absurd h (ok_real_ne (by intro h1; cases h1))
  · exact decodeCell_time_none s

/-- The null value is stored for a date-time exactly when the scan fails. -/
theorem decodeCell_datetime_null_iff (s : String) :
    (scalarField BqType.BQ_DATETIME).decodeCell (Json.string s) false
        = Except.ok (Cell.real Dbl.NA_REAL) ↔ strptime s.toList fmtDateTime dtm0 = none := by
  constructor
  · intro h
    cases hs : strptime s.toList fmtDateTime dtm0 with
    | none => rfl
    | some r =>
      obtain ⟨dtm, parsed⟩ := r
      rw [decodeCell_datetime_some s dtm parsed hs] at h
      exact absurd h (ok_real_ne (by intro h1; cases h1))
  · exact decodeCell_datetime_none s

end Time

section Doubles

theorem log2Fuel_spec : ∀ (fuel n : Nat), 0 < n → n ≤ fuel →
    2 ^ log2Fuel fuel n ≤ n ∧ n < 2 ^ (log2Fuel fuel n + 1)
  | 0, n, h0, h => by omega
  | fuel + 1, n, h0, h => by
    unfold log2Fuel
    by_cases h2 : n < 2
    · rw [if_pos h2]
      simp only [pow_zero, zero_add, pow_one]
      omega
    · rw [if_neg h2]
      have ih := log2Fuel_spec fuel (n / 2) (by omega) (by omega)
      have e1 : 2 ^ (log2Fuel fuel (n / 2) + 1) = 2 * 2 ^ log2Fuel fuel (n / 2) := by
        rw [pow_succ, mul_comm]
      have e2 : 2 ^ (log2Fuel fuel (n / 2) + 1 + 1) = 4 * 2 ^ log2Fuel fuel (n / 2) := by
        rw [pow_succ, e1]
        omega
      rw [e1] at ih
      rw [e1, e2]
      generalize 2 ^ log2Fuel fuel (n / 2) = a at ih ⊢
      omega

theorem ilog2_spec (n : Nat) (h : 0 < n) : 2 ^ ilog2 n ≤ n ∧ n < 2 ^ (ilog2 n + 1) :=
  log2Fuel_spec n n h (Nat.le_refl n)

theorem ilog2_lt (n k : Nat) (h : 0 < n) (hk : n < 2 ^ k) : ilog2 n < k := by
  have h1 := (ilog2_spec n h).1
  exact (Nat.pow_lt_pow_iff_right (by decide : 1 < 2)).1 (Nat.lt_of_le_of_lt h1 hk)

theorem floorLog2_one (n : Nat) (h : 0 < n) : floorLog2 n 1 = (ilog2 n : Int) := by
  unfold floorLog2
  have h1 : ilog2 1 = 0 := by decide
  have h2 := (ilog2_spec n h).1
  simp only [h1, Int.ofNat_zero, Nat.cast_zero, sub_zero, Int.natCast_nonneg, if_true,
    Int.toNat_ofNat, one_mul, h2]

/-- A positive integer below `2^53` is a `double`. -/
theorem roundPos_nat (n : Nat) (h : 0 < n) (hn : n < 2 ^ 53) :
    roundPos n 1 = DVal.finite (n : ℚ) := by
  have hl := ilog2_lt n 53 h hn
  unfold roundPos
  rw [floorLog2_one n h]
  have hmax : max (ilog2 n : Int) (-1022) = (ilog2 n : Int) := by omega
  rw [hmax]
  have hs : (52 : Int) - (ilog2 n : Int) = ((52 - ilog2 n : Nat) : Int) := by omega
  rw [hs]
  simp only [Int.natCast_nonneg, if_true, Int.toNat_ofNat, Nat.div_one, Nat.mod_one, mul_zero,
    Nat.not_lt_zero, false_or, OfNat.zero_ne_ofNat, false_and, if_false,
    show ((0 : Nat) = 1) = False from by decide]
  have hx : ((n * 2 ^ (52 - ilog2 n) : Nat) : ℚ) * (2 : ℚ) ^ (-((52 - ilog2 n : Nat) : Int))
      = (n : ℚ) := by
    push_cast
    rw [zpow_neg, zpow_natCast, mul_assoc, mul_inv_cancel₀ (by positivity), mul_one]
  rw [hx]
  have hlt : ¬ ((2 : ℚ) ^ (1024 : Nat) ≤ (n : ℚ)) := by
    have h1 : (n : ℚ) < (2 : ℚ) ^ (53 : Nat) := by exact_mod_cast hn
    have h2 : (2 : ℚ) ^ (53 : Nat) ≤ (2 : ℚ) ^ (1024 : Nat) :=
      pow_le_pow_right₀ (by norm_num) (by norm_num)
    linarith
  rw [if_neg hlt]

/-- An integer of magnitude below `2^53` is a `double`: its conversion is
exact. -/
theorem roundDouble_int (n : Int) (hlo : -(2 ^ 53) < n) (hhi : n < 2 ^ 53) :
    roundDouble (n : ℚ) = DVal.finite (n : ℚ) := by
  unfold roundDouble
  by_cases h0 : n = 0
  · subst h0
    simp
  · have hq : (n : ℚ) ≠ 0 := by exact_mod_cast h0
    rw [if_neg hq]
    simp only [Rat.num_intCast, Rat.den_intCast]
    have hnat : n.natAbs < 2 ^ 53 := by omega
    have hpos : 0 < n.natAbs := by omega
    rw [roundPos_nat n.natAbs hpos hnat]
    by_cases hp : 0 < n
    · have hq1 : (0 : ℚ) < (n : ℚ) := by exact_mod_cast hp
      rw [if_pos hq1]
      congr 1
      have h3 : ((n.natAbs : Nat) : Int) = n := by omega
      rw [← Int.cast_natCast, h3]
    · have hq1 : ¬ ((0 : ℚ) < (n : ℚ)) := by
        intro hh
        exact hp (by exact_mod_cast hh)
      rw [if_neg hq1]
      simp only []
      congr 1
      have h3 : -((n.natAbs : Nat) : Int) = n := by omega
      rw [← Int.cast_natCast, ← Int.cast_neg, h3]

/-- The rounding at sample points: a number that is no `double`, the largest
`double` and the overflow just above it, and the ties among the smallest
`double`s. -/
theorem roundDouble_samples :
    roundDouble (1 / 10) = DVal.finite (3602879701896397 / 36028797018963968) ∧
    roundDouble (2 ^ 1024 - 2 ^ 970 - 1) = DVal.finite (2 ^ 1024 - 2 ^ 971) ∧
    roundDouble (2 ^ 1024 - 2 ^ 970) = DVal.inf false ∧
    roundDouble (-(2 ^ 1024)) = DVal.inf true ∧
    roundDouble (1 / 2 ^ 1074) = DVal.finite (1 / 2 ^ 1074) ∧
    roundDouble (1 / 2 ^ 1075) = DVal.finite 0 ∧
    roundDouble (3 / 2 ^ 1075) = DVal.finite (1 / 2 ^ 1073) ∧
    roundDouble (2 ^ 53 + 1) = DVal.finite (2 ^ 53) ∧
    roundDouble (2 ^ 53 + 3) = DVal.finite (2 ^ 53 + 4) := by
  refine ⟨by decide!, by decide!, by decide!, by decide!, by decide!, by decide!, by decide!,
    by decide!, by decide!⟩

end Doubles

section TimeClaims

theorem parse_partial_seconds_no_period (rest : List Char) (h : rest.head? ≠ some '.') :
    parse_partial_seconds rest = Dbl.ofInt 0 := by
  unfold parse_partial_seconds
  split
  · rename_i r
    exact absurd rfl h
  · rfl

/-- Without a period after the prefix the value stored is the integer. -/
theorem value_no_period (n : Int) (hlo : -(2 ^ 53) < n) (hhi : n < 2 ^ 53) (rest : List Char)
    (h : rest.head? ≠ some '.') :
    (Dbl.add (Dbl.ofInt n) (parse_partial_seconds rest)).value = some (DVal.finite (n : ℚ)) := by
  rw [parse_partial_seconds_no_period rest h]
  have h0 : roundDouble (0 : ℚ) = DVal.finite 0 := by
    unfold roundDouble
    rw [if_pos rfl]
  simp only [Dbl.value, roundDouble_int n hlo hhi, Int.cast_zero, h0, DVal.add, add_zero]

theorem scanFraction_count : ∀ (l : List Char) (acc k : Nat),
    k ≤ (scanFraction acc k l).2.1 ∧
      ((scanFraction acc k l).2.1 = k → (scanFraction acc k l).1 = acc)
  | [], acc, k => ⟨Nat.le_refl _, fun _ => rfl⟩
  | c :: rest, acc, k => by
    unfold scanFraction
    by_cases hc : isdigit c = true
    · rw [if_pos hc]
      have ih := scanFraction_count rest (acc * 10 + digitValue c) (k + 1)
      exact ⟨by omega, fun h => by omega⟩
    · rw [if_neg hc]
      exact ⟨Nat.le_refl _, fun _ => rfl⟩

theorem decimalRead_period (r : List Char) :
    ∃ q, decimalRead ('.' :: r) = some q ∧
      (scanExponent (scanFraction 0 0 r).2.2 = 0 → plainFraction ('.' :: r) = some q) := by
  by_cases h0 : (scanFraction 0 0 r).2.1 = 0
  · refine ⟨0, by simp [decimalRead, h0], ?_⟩
    intro _
    have h1 := (scanFraction_count r 0 0).2 h0
    simp [plainFraction, h0, h1]
  · refine ⟨((scanFraction 0 0 r).1 : ℚ) / (10 : ℚ) ^ (scanFraction 0 0 r).2.1
        * (10 : ℚ) ^ scanExponent (scanFraction 0 0 r).2.2, by simp [decimalRead, h0], ?_⟩
    intro he
    simp [plainFraction, he]

/-- With a period after the prefix the value stored is the rounded sum of the
integer and the `double` nearest to the decimal number read. -/
theorem value_period (n : Int) (hlo : -(2 ^ 53) < n) (hhi : n < 2 ^ 53) (r : List Char) :
    ∃ q, decimalRead ('.' :: r) = some q ∧
      (Dbl.add (Dbl.ofInt n) (parse_partial_seconds ('.' :: r))).value
        = some ((DVal.finite (n : ℚ)).add (roundDouble q)) ∧
      (scanExponent (scanFraction 0 0 r).2.2 = 0 → plainFraction ('.' :: r) = some q) := by
  obtain ⟨q, hq, hp⟩ := decimalRead_period r
  refine ⟨q, hq, ?_, hp⟩
  simp only [Dbl.value, parse_partial_seconds, hq, Option.map_some', roundDouble_int n hlo hhi]

/-- C14, as stated, fails: the text `12:30:45.5e1` begins with `12:30:45`, the
decimal fraction that starts at the period is `.5`, and the characters `e1`
follow the fraction; the cell stored holds `45045 + strtod(".5e1")`, which is
`45050`, not `45045.5`. -/
theorem time_fraction_counterexample :
    timeText 12 30 45 ".5e1".toList = "12:30:45.5e1" ∧
    plainFraction ".5e1".toList = some (1 / 2) ∧
    (scalarField BqType.BQ_TIME).decodeCell (Json.string "12:30:45.5e1") false
      = Except.ok (Cell.real (Dbl.add (Dbl.ofInt 45045) (Dbl.strtod ".5e1".toList))) ∧
    (Dbl.add (Dbl.ofInt 45045) (Dbl.strtod ".5e1".toList)).value = some (DVal.finite 45050) ∧
    (some (DVal.finite 45050) : Option DVal) ≠ some (DVal.finite (45045 + 1 / 2)) := by
  refine ⟨by decide, by decide!, rfl, by decide!, by decide!⟩

/-- C14, amended. For every text that begins with `HH:MM:SS` (hour 0-23,
minute 0-59, second 0-59), decoding it as a non-repeated Time field raises no
error and stores the sum, in `double` arithmetic, of
`hour*3600 + minute*60 + second` and the fractional contribution.  The
contribution is zero when the character right after the prefix is not a
period, and the value stored is then the integer.  Otherwise the contribution
is the `double` that `strtod` returns for the text from the period on: the
`double` nearest to the decimal fraction times ten to the exponent that
follows its digits, so to the decimal fraction itself when no exponent
follows; the value stored is the rounded sum, an infinity when the number is
too large for a `double`; what comes after the number is ignored. -/
theorem time_seconds (h m s : Nat) (rest : List Char) (hh : h ≤ 23) (hm : m ≤ 59)
    (hs : s ≤ 59) :
    (scalarField BqType.BQ_TIME).decodeCell (Json.string (timeText h m s rest)) false
      = Except.ok (Cell.real (Dbl.add (Dbl.ofInt ((h : Int) * 3600 + (m : Int) * 60 + (s : Int)))
          (parse_partial_seconds rest))) ∧
    (rest.head? ≠ some '.' →
      (Dbl.add (Dbl.ofInt ((h : Int) * 3600 + (m : Int) * 60 + (s : Int)))
          (parse_partial_seconds rest)).value
        = some (DVal.finite ((((h : Int) * 3600 + (m : Int) * 60 + (s : Int) : Int)) : ℚ))) ∧
    (∀ r, rest = '.' :: r → ∃ q, decimalRead rest = some q ∧
      (Dbl.add (Dbl.ofInt ((h : Int) * 3600 + (m : Int) * 60 + (s : Int)))
          (parse_partial_seconds rest)).value
        = some ((DVal.finite ((((h : Int) * 3600 + (m : Int) * 60 + (s : Int) : Int)) : ℚ)).add
            (roundDouble q)) ∧
      (scanExponent (scanFraction 0 0 r).2.2 = 0 → plainFraction rest = some q)) ∧
    ∀ (x : SEXP) (i : Nat),
      (scalarField BqType.BQ_TIME).vectorSet x i (Json.string (timeText h m s rest)) false
        = x.store i (Cell.real (Dbl.add
            (Dbl.ofInt ((h : Int) * 3600 + (m : Int) * 60 + (s : Int)))
            (parse_partial_seconds rest))) := by
  have hdec := decodeCell_time_some (timeText h m s rest) _ rest
    (strptime_timeText h m s rest dtm0 hh hm (by omega))
  have hlo : -(2 ^ 53) < (h : Int) * 3600 + (m : Int) * 60 + (s : Int) := by omega
  have hhi : (h : Int) * 3600 + (m : Int) * 60 + (s : Int) < 2 ^ 53 := by omega
  refine ⟨hdec, value_no_period _ hlo hhi rest, ?_, ?_⟩
  · intro r hr
    subst hr
    exact value_period _ hlo hhi r
  · intro x i
    rw [vectorSet_eq, hdec]
    rfl

/-- The texts `12:30:45.5`, which decodes to `45045.5`, and `12:30:45`, which
decodes to `45045`; the text `12:30:45.1`, whose value is the `double` nearest
to `45045.1`, and the text `12:30:45.5e400`, whose value is the infinity. -/
theorem time_seconds_witness :
    timeText 12 30 45 ".5".toList = "12:30:45.5" ∧
    timeText 12 30 45 [] = "12:30:45" ∧
    (scalarField BqType.BQ_TIME).decodeCell (Json.string "12:30:45.5") false
      = Except.ok (Cell.real (Dbl.add (Dbl.ofInt 45045) (Dbl.strtod ".5".toList))) ∧
    (Dbl.add (Dbl.ofInt 45045) (Dbl.strtod ".5".toList)).value
      = some (DVal.finite (45045 + 1 / 2)) ∧
    (scalarField BqType.BQ_TIME).decodeCell (Json.string "12:30:45") false
      = Except.ok (Cell.real (Dbl.add (Dbl.ofInt 45045) (Dbl.ofInt 0))) ∧
    (Dbl.add (Dbl.ofInt 45045) (Dbl.ofInt 0)).value = some (DVal.finite 45045) ∧
    (Dbl.add (Dbl.ofInt 45045) (Dbl.strtod ".1".toList)).value
      = some (DVal.finite (6190951403041587 / 137438953472)) ∧
    (Dbl.add (Dbl.ofInt 45045) (Dbl.strtod ".5e400".toList)).value = some (DVal.inf false) :=
  ⟨by decide, by decide,
    (time_seconds 12 30 45 ".5".toList (by decide) (by decide) (by decide)).1,
    by decide!,
    (time_seconds 12 30 45 [] (by decide) (by decide) (by decide)).1,
    (time_seconds 12 30 45 [] (by decide) (by decide) (by decide)).2.1 (by decide),
    by decide!, by decide!⟩

theorem not_digit_of_digitChar (n : Nat) (hn : n < 10) (c : Char) (hc : isdigit c = false) :
    Nat.digitChar n ≠ c := by
  intro h
  have h1 := (digitChar_digit n hn).1
  rw [h, hc] at h1
  cases h1

/-- C15, as stated, fails: the texts `1:2:3` and `2020-1-1T0:0:0` are not of
the form `HH:MM:SS...` and `YYYY-MM-DDTHH:MM:SS...`, yet decoding them stores
numbers, `3723` and `1577836800`, not the null value; the text `12:30:60` is
not of the form `HH:MM:SS...` with a second from 0 to 59 and decodes to
`45060`. -/
theorem time_pattern_counterexample :
    (∀ h m s rest, timeText h m s rest ≠ "1:2:3") ∧
    (scalarField BqType.BQ_TIME).decodeCell (Json.string "1:2:3") false
      = Except.ok (Cell.real (Dbl.add (Dbl.ofInt 3723) (Dbl.ofInt 0))) ∧
    (scalarField BqType.BQ_TIME).decodeCell (Json.string "1:2:3") false
      ≠ Except.ok BqType.BQ_TIME.null ∧
    (∀ h m s rest, s ≤ 59 → timeText h m s rest ≠ "12:30:60") ∧
    (scalarField BqType.BQ_TIME).decodeCell (Json.string "12:30:60") false
      = Except.ok (Cell.real (Dbl.add (Dbl.ofInt 45060) (Dbl.ofInt 0))) ∧
    (∀ y mo d h m s rest, dateTimeText y mo d h m s rest ≠ "2020-1-1T0:0:0") ∧
    (scalarField BqType.BQ_DATETIME).decodeCell (Json.string "2020-1-1T0:0:0") false
      = Except.ok (Cell.real (Dbl.add (Dbl.ofInt 1577836800) (Dbl.ofInt 0))) ∧
    (scalarField BqType.BQ_DATETIME).decodeCell (Json.string "2020-1-1T0:0:0") false
      ≠ Except.ok BqType.BQ_DATETIME.null := by
  refine ⟨?_, rfl, ok_real_ne (by decide), ?_, rfl, ?_, rfl, ok_real_ne (by decide)⟩
  · intro h m s rest heq
    have h1 : (timeText h m s rest).toList = ['1', ':', '2', ':', '3'] := by rw [heq]; rfl
    simp only [timeText, pad2, List.cons_append, List.nil_append] at h1
    injection h1 with _ h1
    injection h1 with h1 _
    exact not_digit_of_digitChar (h % 10) (Nat.mod_lt _ (by decide)) ':' (by decide) h1
  · intro h m s rest hs heq
    have h1 : (timeText h m s rest).toList = ['1', '2', ':', '3', '0', ':', '6', '0'] := by
      rw [heq]; rfl
    simp only [timeText, pad2, List.cons_append, List.nil_append] at h1
    injection h1 with _ h1
    injection h1 with _ h1
    injection h1 with _ h1
    injection h1 with _ h1
    injection h1 with _ h1
    injection h1 with _ h1
    injection h1 with h1 _
    have h2 := (digitChar_digit (s / 10) (by omega)).2
    rw [h1] at h2
    have h3 : digitValue '6' = 6 := by decide
    omega
  · intro y mo d h m s rest heq
    have h1 : (dateTimeText y mo d h m s rest).toList
        = ['2', '0', '2', '0', '-', '1', '-', '1', 'T', '0', ':', '0', ':', '0'] := by
      rw [heq]; rfl
    simp only [dateTimeText, pad4, pad2, List.cons_append, List.nil_append] at h1
    injection h1 with _ h1
    injection h1 with _ h1
    injection h1 with _ h1
    injection h1 with _ h1
    injection h1 with _ h1
    injection h1 with _ h1
    injection h1 with h1 _
    exact not_digit_of_digitChar (mo % 10) (Nat.mod_lt _ (by decide)) '-' (by decide) h1

/-- C15, amended. For every text, decoding it as a non-repeated Time field
stores the null value exactly when the scan of `%H:%M:%S` over the text fails,
and decoding it as a non-repeated DateTime field stores the null value exactly
when the scan of `%Y-%m-%dT%H:%M:%S` fails; both scans fail on every text
whose first non-blank character is not a digit, `garbage` and the empty text
among them; in every case the decoding raises no error and the cell is stored
like any other.  The scan itself takes one or two digits for a field (up to
four for the year) after optional white space, and seconds up to 61. -/
theorem malformed_time_null (s : String) :
    ((scalarField BqType.BQ_TIME).decodeCell (Json.string s) false
        = Except.ok BqType.BQ_TIME.null ↔ strptime s.toList fmtTime dtm0 = none) ∧
    ((scalarField BqType.BQ_DATETIME).decodeCell (Json.string s) false
        = Except.ok BqType.BQ_DATETIME.null ↔ strptime s.toList fmtDateTime dtm0 = none) ∧
    ((∀ c rest, skipSpace s.toList = c :: rest → isdigit c = false) →
      (scalarField BqType.BQ_TIME).decodeCell (Json.string s) false
        = Except.ok BqType.BQ_TIME.null ∧
      (scalarField BqType.BQ_DATETIME).decodeCell (Json.string s) false
        = Except.ok BqType.BQ_DATETIME.null) ∧
    (∃ c, (scalarField BqType.BQ_TIME).decodeCell (Json.string s) false = Except.ok c) ∧
    (∃ c, (scalarField BqType.BQ_DATETIME).decodeCell (Json.string s) false = Except.ok c) ∧
    (strptime s.toList fmtTime dtm0 = none → ∀ (x : SEXP) (i : Nat),
      (scalarField BqType.BQ_TIME).vectorSet x i (Json.string s) false
        = x.store i BqType.BQ_TIME.null) ∧
    (strptime s.toList fmtDateTime dtm0 = none → ∀ (x : SEXP) (i : Nat),
      (scalarField BqType.BQ_DATETIME).vectorSet x i (Json.string s) false
        = x.store i BqType.BQ_DATETIME.null) := by
  obtain ⟨c1, hc1, _⟩ := decodeCell_scalar_ok (scalarField BqType.BQ_TIME) (Json.string s)
    (by decide) (fun h => by cases h)
  obtain ⟨c2, hc2, _⟩ := decodeCell_scalar_ok (scalarField BqType.BQ_DATETIME) (Json.string s)
    (by decide) (fun h => by cases h)
  refine ⟨decodeCell_time_null_iff s, decodeCell_datetime_null_iff s, ?_,
    ⟨c1, hc1⟩, ⟨c2, hc2⟩, ?_, ?_⟩
  · intro h
    have h1 := strptime_no_digit s.toList dtm0 h
    exact ⟨decodeCell_time_none s h1.1, decodeCell_datetime_none s h1.2⟩
  · intro h x i
    rw [vectorSet_eq, decodeCell_time_none s h]
    rfl
  · intro h x i
    rw [vectorSet_eq, decodeCell_datetime_none s h]
    rfl

/-- The text `garbage`, alone and in the second of three rows of a page: the
page decodes to the table of three rows whose cells are the null value, the
number for `12:30:45` and the null value. -/
theorem malformed_time_null_witness :
    (∀ c rest, skipSpace "garbage".toList = c :: rest → isdigit c = false) ∧
    ((scalarField BqType.BQ_TIME).decodeCell (Json.string "garbage") false
        = Except.ok BqType.BQ_TIME.null ∧
      (scalarField BqType.BQ_DATETIME).decodeCell (Json.string "garbage") false
        = Except.ok BqType.BQ_DATETIME.null) ∧
    bq_parse schema_time page_times = Except.ok (SEXP.VECSXP (attr_x 3)
      [SEXP.REALSXP RealAttr.hms_secs
        [Dbl.NA_REAL, Dbl.add (Dbl.ofInt 45045) (Dbl.ofInt 0), Dbl.NA_REAL]]) :=
  have h : ∀ c rest, skipSpace "garbage".toList = c :: rest → isdigit c = false := by
    intro c rest heq
    have h1 : skipSpace "garbage".toList = ['g', 'a', 'r', 'b', 'a', 'g', 'e'] := by decide
    rw [h1] at heq
    injection heq with hc _
    subst hc
    decide
  ⟨h, (malformed_time_null "garbage").2.2.1 h, rfl⟩

end TimeClaims

end Bigrquery
